import Mathlib

/-!
# Eidos value runtime: intrusive handles and Substitution properties

A shallow embedding of `eidos_intrusive_ptr.h`, of the reference-counting hooks of
`eidos_value.h`, and of the property accessors of `substitution.cpp`.

Addresses are natural numbers and `0` is the null pointer, as in the source (`px( 0 )`,
`px != 0`).  `intrusive_ref_count` is an `unsigned int`; its arithmetic is taken modulo
`2 ^ 32`.
-/

namespace SLiM

/-- An address of an `EidosValue`; `0` is the null pointer. -/
abbrev Addr := Nat

/-- The modulus of `unsigned int` arithmetic. -/
def UINT_MOD : Nat := 2 ^ 32

/-- The calls that the handle makes on a referent, in the order they are made. -/
inductive Event where
  | add_ref (p : Addr)
  | release (p : Addr)
  | delete (p : Addr)
  deriving DecidableEq, Repr

/-- The memory a program over handles works on.  `intrusive_ref_count p` is the field of
the `EidosValue` at `p`, `deleted p` tells whether `delete` has run on it, `handles` holds
the `px` field of every `Eidos_intrusive_ptr` object ever constructed (`none` once its
destructor has run), and `log` records the hook calls made so far. -/
structure State where
  intrusive_ref_count : Addr → Nat
  deleted : Addr → Bool
  handles : List (Option Addr)
  log : List Event

/-- The state in which every referent has count 0, none is deleted and no handle exists. -/
def State.init : State :=
  { intrusive_ref_count := fun _ => 0, deleted := fun _ => false, handles := [], log := [] }

/-- Embeds `Eidos_intrusive_ptr_add_ref(const EidosValue *)`: `++intrusive_ref_count`.
Touching a deleted object is undefined, rendered as `none`. -/
def Eidos_intrusive_ptr_add_ref (s : State) (p : Addr) : Option State :=
  if s.deleted p then none
  else some { s with
    intrusive_ref_count := Function.update s.intrusive_ref_count p ((s.intrusive_ref_count p + 1) % UINT_MOD)
    log := s.log ++ [Event.add_ref p] }

/-- Embeds `Eidos_intrusive_ptr_release(const EidosValue *)`:
`if ((--intrusive_ref_count) == 0) delete p_value;`. -/
def Eidos_intrusive_ptr_release (s : State) (p : Addr) : Option State :=
  if s.deleted p then none
  else
    let c := (s.intrusive_ref_count p + (UINT_MOD - 1)) % UINT_MOD
    let s1 : State := { s with
      intrusive_ref_count := Function.update s.intrusive_ref_count p c
      log := s.log ++ [Event.release p] }
    if c = 0 then
      some { s1 with deleted := Function.update s1.deleted p true, log := s1.log ++ [Event.delete p] }
    else some s1

/-- The `px` field of the live handle object `i`; `none` when no such object is alive. -/
def State.px (s : State) (i : Nat) : Option Addr :=
  (s.handles.get? i).join

/-- Stores `v` into the `px` field of handle object `i`. -/
def State.setPx (s : State) (i : Nat) (v : Addr) : State :=
  { s with handles := s.handles.set i (some v) }

/-- Embeds `get()`. -/
def get (s : State) (i : Nat) : Option Addr := s.px i

/-- The destructor body applied to a pointer value: `if( px != 0 ) release( px )`. -/
def dtor_px (s : State) (px : Addr) : Option State :=
  if px ≠ 0 then Eidos_intrusive_ptr_release s px else some s

/-- The body `this_type tmp(..); tmp.swap(*this);` followed by the destructor of `tmp`,
for a temporary whose `px` is `tmp`: the temporary and `*this` exchange pointers, then
the temporary is destroyed. -/
def tmp_swap_dtor (s : State) (this : Nat) (tmp : Addr) : Option State :=
  match s.px this with
  | none => none
  | some old => dtor_px (s.setPx this tmp) old

/-- The operations on handles. -/
inductive Op where
  /-- Constructs a handle with `Eidos_intrusive_ptr()`. -/
  | ctor_default
  /-- Constructs a handle with `Eidos_intrusive_ptr( T * p, bool add_ref )`. -/
  | ctor_raw (p : Addr) (add_ref : Bool)
  /-- Constructs a handle with a copy constructor from handle `rhs`: the same-type one,
  `px( rhs.px )`, or the converting one from `Eidos_intrusive_ptr<U>`, `px( rhs.get() )`;
  both continue with `if( px != 0 ) add_ref( px )`. -/
  | ctor_copy (rhs : Nat)
  /-- Constructs a handle with the move constructor from handle `rhs`. -/
  | ctor_move (rhs : Nat)
  /-- Runs `this = rhs` (copy assignment). -/
  | assign_copy (this rhs : Nat)
  /-- Runs `this = std::move(rhs)`. -/
  | assign_move (this rhs : Nat)
  /-- Runs `this.reset()`. -/
  | reset (this : Nat)
  /-- Runs `this.reset( p, add_ref )`; `reset( p )` is `reset_raw this p true`. -/
  | reset_raw (this : Nat) (p : Addr) (add_ref : Bool)
  /-- Runs `this.swap( rhs )`. -/
  | swap (this rhs : Nat)
  /-- Runs `this.detach()`. -/
  | detach (this : Nat)
  /-- Runs the destructor of handle `this`. -/
  | dtor (this : Nat)
  deriving DecidableEq, Repr

/-- The pointer value and state after `this_type( p, add_ref )`:
`px( p )`, `if( px != 0 && add_ref ) add_ref( px )`. -/
def ctor_raw_px (s : State) (p : Addr) (add_ref : Bool) : Option State :=
  if p ≠ 0 ∧ add_ref = true then Eidos_intrusive_ptr_add_ref s p else some s

/-- The state after a copy constructor has initialised `px( rhs.px )`:
`if( px != 0 ) add_ref( px )`. -/
def ctor_copy_px (s : State) (px : Addr) : Option State :=
  if px ≠ 0 then Eidos_intrusive_ptr_add_ref s px else some s

/-- One operation of the class `Eidos_intrusive_ptr`, as the source performs it. -/
def step (s : State) : Op → Option State
  | Op.ctor_default => some { s with handles := s.handles ++ [some 0] }
  | Op.ctor_raw p add_ref =>
    (ctor_raw_px s p add_ref).map fun s1 => { s1 with handles := s1.handles ++ [some p] }
  | Op.ctor_copy rhs =>
    match s.px rhs with
    | none => none
    | some px => (ctor_copy_px s px).map fun s1 => { s1 with handles := s1.handles ++ [some px] }
  | Op.ctor_move rhs =>
    match s.px rhs with
    | none => none
    | some px =>
      let s1 : State := { s with handles := s.handles ++ [some px] }
      some (s1.setPx rhs 0)
  | Op.assign_copy this rhs =>
    match s.px rhs with
    | none => none
    | some px => (ctor_copy_px s px).bind fun s1 => tmp_swap_dtor s1 this px
  | Op.assign_move this rhs =>
    match s.px rhs with
    | none => none
    | some px => tmp_swap_dtor (s.setPx rhs 0) this px
  | Op.reset this => tmp_swap_dtor s this 0
  | Op.reset_raw this p add_ref =>
    (ctor_raw_px s p add_ref).bind fun s1 => tmp_swap_dtor s1 this p
  | Op.swap this rhs =>
    match s.px this, s.px rhs with
    | some tmp, some r => some ((s.setPx this r).setPx rhs tmp)
    | _, _ => none
  | Op.detach this =>
    match s.px this with
    | none => none
    | some _ => some (s.setPx this 0)
  | Op.dtor this =>
    match s.px this with
    | none => none
    | some px => (dtor_px s px).map fun s1 => { s1 with handles := s1.handles.set this none }

/-- Runs a sequence of operations from `s`. -/
def run (s : State) : List Op → Option State
  | [] => some s
  | op :: ops => (step s op).bind fun s1 => run s1 ops

/-- The number of live handles whose pointer is `r`. -/
def State.refs (s : State) (r : Addr) : Nat :=
  s.handles.count (some r)

/-- The invariant of the handle discipline: a referent that is not deleted has a count
equal to the number of live handles that point to it, and no live handle points to a
deleted referent. -/
def Inv (s : State) : Prop :=
  ∀ r, r ≠ 0 →
    (s.deleted r = false → s.intrusive_ref_count r = s.refs r) ∧
    (s.deleted r = true → s.refs r = 0)

/-- Deletion happens exactly where the number of handles goes from 1 to 0: between `s` and
`s1`, a referent becomes deleted iff it had one handle in `s` and has none in `s1`. -/
def DelExact (s s1 : State) : Prop :=
  ∀ r, r ≠ 0 →
    ((s.deleted r = false ∧ s1.deleted r = true) ↔ (s.refs r = 1 ∧ s1.refs r = 0))

/-- The accounting invariant with temporaries: `tmps` lists the pointers held by
temporaries (or owed to them) on top of the handles in the store. -/
def Bal (s : State) (tmps : List Addr) : Prop :=
  ∀ r, r ≠ 0 →
    (s.deleted r = false →
      s.intrusive_ref_count r < UINT_MOD ∧ s.intrusive_ref_count r = s.refs r + tmps.count r) ∧
    (s.deleted r = true → s.refs r + tmps.count r = 0)

/-- Tells whether handle object `i` is alive. -/
def isLive (s : State) (i : Nat) : Bool := (s.px i).isSome

/-- Tells whether the raw pointer `p` may be handed to a handle: it is null or points to a
referent that has not been deleted. -/
def rawOk (s : State) (p : Addr) : Bool := decide (p = 0) || !s.deleted p

/-- Tells whether taking one more reference on `p` stays below the `unsigned int` range:
`p` is null or `++intrusive_ref_count` does not wrap. -/
def noWrap (s : State) (p : Addr) : Bool :=
  decide (p = 0) || decide (s.intrusive_ref_count p + 1 < UINT_MOD)

/-- The operations of a counted program (construction from a raw pointer with
`add_ref = true`, copy and move construction, copy and move assignment, `reset()`,
`reset(p)`, `swap`, destruction) applied where C++ defines them: operand handles are
alive and raw pointers are null or point to referents not yet deleted. -/
def wellDefined (s : State) : Op → Bool
  | Op.ctor_raw p true => rawOk s p
  | Op.ctor_copy rhs => isLive s rhs
  | Op.ctor_move rhs => isLive s rhs
  | Op.assign_copy this rhs => isLive s this && isLive s rhs
  | Op.assign_move this rhs => isLive s this && isLive s rhs
  | Op.reset this => isLive s this
  | Op.reset_raw this p true => isLive s this && rawOk s p
  | Op.swap this rhs => isLive s this && isLive s rhs
  | Op.dtor this => isLive s this
  | _ => false

/-- The referent on which `op` takes a new reference (null when it takes none). -/
def gains (s : State) : Op → Addr
  | Op.ctor_raw p true => p
  | Op.ctor_copy rhs => (s.px rhs).getD 0
  | Op.assign_copy _ rhs => (s.px rhs).getD 0
  | Op.reset_raw _ p true => p
  | _ => 0

/-- A well-defined operation whose new reference does not wrap the count. -/
def admissible (s : State) (op : Op) : Bool :=
  wellDefined s op && noWrap s (gains s op)

/-- Every operation of the sequence is well defined where it is applied (nothing is asked
of what follows an operation that fails). -/
def wellDefinedRun (s : State) : List Op → Bool
  | [] => true
  | op :: ops =>
    wellDefined s op &&
      match step s op with
      | some s1 => wellDefinedRun s1 ops
      | none => true

/-- Every operation of the sequence is admissible where it is applied (nothing is asked of
what follows an operation that fails). -/
def admissibleRun (s : State) : List Op → Bool
  | [] => true
  | op :: ops =>
    admissible s op &&
      match step s op with
      | some s1 => admissibleRun s1 ops
      | none => true

/-- The log records at most one `delete` per referent, and exactly one for a deleted one. -/
def LogInv (s : State) : Prop :=
  ∀ r, s.log.count (Event.delete r) = if s.deleted r = true then 1 else 0

/-- The state reached from `State.init` once `m` handles to the referent `p` have been
constructed, the first from the raw pointer and the others by copy. -/
def built (p : Addr) (m : Nat) : State :=
  { intrusive_ref_count := Function.update (fun _ => 0) p (m % UINT_MOD)
    deleted := fun _ => false
    handles := List.replicate m (some p)
    log := List.replicate m (Event.add_ref p) }

/-- The program that constructs handles to `p`: one from the raw pointer with
`add_ref = true`, then one copy of handle `src` for each `src` of `copies`. -/
def constructAll (p : Addr) (copies : List Nat) : List Op :=
  Op.ctor_raw p true :: copies.map Op.ctor_copy

/-- The program that destroys the handles listed in `order`, in that order. -/
def destroyAll (order : List Nat) : List Op :=
  order.map Op.dtor

/-- The loop invariant of destroying the handles listed in `rest`, all of which point to
`p`: they are distinct live handles, they are all the handles `p` has, there are at most
`2 ^ 32` of them, `p` is not deleted and its count is their number modulo `2 ^ 32`. -/
def Destroying (p : Addr) (s : State) (rest : List Nat) : Prop :=
  rest.Nodup ∧ (∀ i ∈ rest, s.px i = some p) ∧ s.refs p = rest.length ∧
    rest.length ≤ UINT_MOD ∧ s.deleted p = false ∧
    s.intrusive_ref_count p = rest.length % UINT_MOD ∧ s.log.count (Event.delete p) = 0

/-- The value of `++c` on an `unsigned int`. -/
def uint_inc (c : Nat) : Nat := (c + 1) % UINT_MOD

/-- The value of `--c` on an `unsigned int`: one less, and `2 ^ 32 - 1` after 0. -/
def uint_dec (c : Nat) : Nat := if c = 0 then UINT_MOD - 1 else c - 1

/-- What one call of `add_ref` on a non-null `p` does between `s` and `s1`, and nothing at
all when `p` is null: the count of `p` is incremented, the call is logged, nothing else
changes. -/
def AddRefEffect (s s1 : State) (p : Addr) : Prop :=
  s1.deleted = s.deleted ∧
  if p = 0 then s1.intrusive_ref_count = s.intrusive_ref_count ∧ s1.log = s.log
  else
    s1.intrusive_ref_count =
      Function.update s.intrusive_ref_count p (uint_inc (s.intrusive_ref_count p)) ∧
    s1.log = s.log ++ [Event.add_ref p]

/-- What one call of `release` on a non-null `p` does between `s` and `s1`, and nothing at
all when `p` is null: the count of `p` is decremented, `p` is deleted iff the count after
the decrement is zero, the calls are logged, nothing else changes. -/
def ReleaseEffect (s s1 : State) (p : Addr) : Prop :=
  if p = 0 then
    s1.intrusive_ref_count = s.intrusive_ref_count ∧ s1.deleted = s.deleted ∧ s1.log = s.log
  else
    s1.intrusive_ref_count =
      Function.update s.intrusive_ref_count p (uint_dec (s.intrusive_ref_count p)) ∧
    s1.deleted =
      (if uint_dec (s.intrusive_ref_count p) = 0 then Function.update s.deleted p true
       else s.deleted) ∧
    s1.log = s.log ++ Event.release p ::
      (if uint_dec (s.intrusive_ref_count p) = 0 then [Event.delete p] else [])

/-- Embeds `operator==(Eidos_intrusive_ptr<T> const & a, Eidos_intrusive_ptr<U> const & b)`:
`a.get() == b.get()`. -/
def operator_eq (s : State) (a b : Nat) : Option Bool :=
  match get s a, get s b with
  | some x, some y => some (x == y)
  | _, _ => none

/-- Embeds `operator!=(Eidos_intrusive_ptr<T> const & a, Eidos_intrusive_ptr<U> const & b)`:
`a.get() != b.get()`. -/
def operator_ne (s : State) (a b : Nat) : Option Bool :=
  match get s a, get s b with
  | some x, some y => some (x != y)
  | _, _ => none

/-- Embeds `operator==(Eidos_intrusive_ptr<T> const & a, U * b)`: `a.get() == b`. -/
def operator_eq_raw (s : State) (a : Nat) (b : Addr) : Option Bool :=
  match get s a with
  | some x => some (x == b)
  | none => none

/-- Embeds `operator!=(Eidos_intrusive_ptr<T> const & a, U * b)`: `a.get() != b`. -/
def operator_ne_raw (s : State) (a : Nat) (b : Addr) : Option Bool :=
  match get s a with
  | some x => some (x != b)
  | none => none

/-- Embeds `operator==(T * a, Eidos_intrusive_ptr<U> const & b)`: `a == b.get()`. -/
def raw_operator_eq (s : State) (a : Addr) (b : Nat) : Option Bool :=
  match get s b with
  | some y => some (a == y)
  | none => none

/-- Embeds `operator!=(T * a, Eidos_intrusive_ptr<U> const & b)`: `a != b.get()`. -/
def raw_operator_ne (s : State) (a : Addr) (b : Nat) : Option Bool :=
  match get s b with
  | some y => some (a != y)
  | none => none

/-! ### Substitution (`substitution.cpp`) -/

/-- A floating-point datum (a C++ `double`), kept as its bit pattern: the accessors below
only copy such data. -/
structure Double where
  bits : Nat
  deriving DecidableEq, Repr

/-- The part of `EidosValueMask` used by the property signatures of `Substitution`. -/
def kEidosValueMaskInt : Nat := 0x00000004

/-- The mask bit of floats. -/
def kEidosValueMaskFloat : Nat := 0x00000008

/-- The mask bit of objects. -/
def kEidosValueMaskObject : Nat := 0x00000020

/-- The mask flag of singletons. -/
def kEidosValueMaskSingleton : Nat := 0x40000000

/-- The values that the property accessors of `Substitution` build: the singleton and
vector classes of integers, floats and objects (an object element is given by its address).
-/
inductive EidosValue where
  | Int_singleton (value_ : Int)
  | Float_singleton (value_ : Double)
  | Object_singleton (value_ : Addr)
  | Int_vector (values_ : List Int)
  | Float_vector (values_ : List Double)
  | Object_vector (values_ : List Addr)
  deriving DecidableEq, Repr

/-- Embeds `Count()`: 1 for a singleton, the size of `values_` for a vector. -/
def EidosValue.Count : EidosValue → Nat
  | Int_singleton _ => 1
  | Float_singleton _ => 1
  | Object_singleton _ => 1
  | Int_vector values_ => values_.length
  | Float_vector values_ => values_.length
  | Object_vector values_ => values_.length

/-- The failures raised through the termination channel by property access. -/
inductive EidosError where
  | unknown_property (p_property_id : Nat)
  | read_only_property (property_name : String)
  | out_of_range (value : Int)
  | null_comparison
  | type_mismatch
  | index_out_of_range (index : Nat)
  | immutable_value
  | not_convertible
  | already_registered
  deriving DecidableEq, Repr

/-- The fields of a `Substitution` as its constructor initialises them.  The integer fields
hold the value of the C++ field, which both accessors pass to an `int64_t` parameter;
`selection_coeff_` holds the value as the `double` parameter of both accessors receives it;
`mutation_type_ptr_` is the address of the `MutationType`. -/
structure Substitution where
  mutation_type_ptr_ : Addr
  position_ : Int
  selection_coeff_ : Double
  subpop_index_ : Int
  generation_ : Int
  fixation_generation_ : Int
  mutation_id_ : Int
  tag_value_ : Int
  deriving DecidableEq, Repr

/-- The values of the `gID_...` constants that `Substitution` uses.  They are declared in
slim_global.h, which is not among the sources, and are taken as parameters. -/
structure GlobalIDs where
  gID_none : Nat
  gID_id : Nat
  gID_mutationType : Nat
  gID_position : Nat
  gID_selectionCoeff : Nat
  gID_subpopID : Nat
  gID_originGeneration : Nat
  gID_fixationGeneration : Nat
  gID_tag : Nat
  deriving DecidableEq, Repr

/-- The case labels of the `switch` of `Substitution::GetProperty`, in source order. -/
def GlobalIDs.getCases (ids : GlobalIDs) : List Nat :=
  [ids.gID_id, ids.gID_mutationType, ids.gID_position, ids.gID_selectionCoeff,
   ids.gID_subpopID, ids.gID_originGeneration, ids.gID_fixationGeneration, ids.gID_tag]

/-- The property IDs are pairwise different, as the labels of one C++ `switch` have to be,
and `gID_none` is none of them. -/
def GlobalIDs.Distinct (ids : GlobalIDs) : Prop :=
  (ids.gID_none :: ids.getCases).Nodup

instance (ids : GlobalIDs) : Decidable ids.Distinct :=
  inferInstanceAs (Decidable (ids.gID_none :: ids.getCases).Nodup)

/-- Modelled from the spec: `EidosObjectElement::GetProperty`, declared in eidos_value.h and
defined in eidos_value.cpp, which is not among the sources.  The spec says of it: "base
implementation fails ("unknown property")". -/
def EidosObjectElement.GetProperty (p_property_id : Nat) : Except EidosError EidosValue :=
  Except.error (EidosError.unknown_property p_property_id)

/-- Embeds `Substitution::GetProperty`.  `SymbolTableEntry_second` stands for
`mutation_type_ptr_->SymbolTableEntry().second`, the value that the mutation type keeps of
itself (mutation_type.h is not among the sources).  The `switch` is rendered as a chain of
tests in the order of its cases. -/
def Substitution.GetProperty (ids : GlobalIDs) (SymbolTableEntry_second : Addr → EidosValue)
    (self : Substitution) (p_property_id : Nat) : Except EidosError EidosValue :=
  if p_property_id = ids.gID_id then
    Except.ok (EidosValue.Int_singleton self.mutation_id_)
  else if p_property_id = ids.gID_mutationType then
    Except.ok (SymbolTableEntry_second self.mutation_type_ptr_)
  else if p_property_id = ids.gID_position then
    Except.ok (EidosValue.Int_singleton self.position_)
  else if p_property_id = ids.gID_selectionCoeff then
    Except.ok (EidosValue.Float_singleton self.selection_coeff_)
  else if p_property_id = ids.gID_subpopID then
    Except.ok (EidosValue.Int_singleton self.subpop_index_)
  else if p_property_id = ids.gID_originGeneration then
    Except.ok (EidosValue.Int_singleton self.generation_)
  else if p_property_id = ids.gID_fixationGeneration then
    Except.ok (EidosValue.Int_singleton self.fixation_generation_)
  else if p_property_id = ids.gID_tag then
    Except.ok (EidosValue.Int_singleton self.tag_value_)
  else
    EidosObjectElement.GetProperty p_property_id

/-- Modelled from the spec: `resize_no_initialize`, a method of the vector classes that is
called by substitution.cpp and declared in none of the sources.  By its name and use it
gives the vector `p_values_size` elements and initialises none: element `i` holds whatever
`garbage i` was in memory. -/
def resize_no_initialize {α : Type} (garbage : Nat → α) (p_values_size : Nat) : List α :=
  (List.range p_values_size).map garbage

/-- Modelled from the spec: `set_int_no_check`, `set_float_no_check` and
`set_object_element_no_check`, called by substitution.cpp and declared in none of the
sources.  By their names and use they store a value at an index of `values_` without a
bounds check. -/
def set_no_check {α : Type} (values_ : List α) (value : α) (index : Nat) : List α :=
  values_.set index value

/-- The loop `for (value_index = ...; value_index < p_values_size; ++value_index)` shared
by the accelerated accessors, from `value_index` on with `todo` iterations left: it reads
`p_values[value_index]` (nothing is defined past the end of the array) and stores that
element's field at `value_index`. -/
def accelerated_loop {α : Type} (field : Substitution → α) (p_values : List Substitution) :
    Nat → Nat → List α → Option (List α)
  | _, 0, result => some result
  | value_index, todo + 1, result =>
    match p_values.get? value_index with
    | none => none
    | some value =>
      accelerated_loop field p_values (value_index + 1) todo
        (set_no_check result (field value) value_index)

/-- Embeds `Substitution::GetProperty_Accelerated_id`. -/
def Substitution.GetProperty_Accelerated_id (garbage : Nat → Int)
    (p_values : List Substitution) (p_values_size : Nat) : Option EidosValue :=
  (accelerated_loop (fun value => value.mutation_id_) p_values 0 p_values_size
    ( resize_no_initialize garbage p_values_size)).map EidosValue.Int_vector

/-- Embeds `Substitution::GetProperty_Accelerated_originGeneration`. -/
def Substitution.GetProperty_Accelerated_originGeneration (garbage : Nat → Int)
    (p_values : List Substitution) (p_values_size : Nat) : Option EidosValue :=
  (accelerated_loop (fun value => value.generation_) p_values 0 p_values_size
    ( resize_no_initialize garbage p_values_size)).map EidosValue.Int_vector

/-- Embeds `Substitution::GetProperty_Accelerated_fixationGeneration`. -/
def Substitution.GetProperty_Accelerated_fixationGeneration (garbage : Nat → Int)
    (p_values : List Substitution) (p_values_size : Nat) : Option EidosValue :=
  (accelerated_loop (fun value => value.fixation_generation_) p_values 0 p_values_size
    ( resize_no_initialize garbage p_values_size)).map EidosValue.Int_vector

/-- Embeds `Substitution::GetProperty_Accelerated_position`. -/
def Substitution.GetProperty_Accelerated_position (garbage : Nat → Int)
    (p_values : List Substitution) (p_values_size : Nat) : Option EidosValue :=
  (accelerated_loop (fun value => value.position_) p_values 0 p_values_size
    ( resize_no_initialize garbage p_values_size)).map EidosValue.Int_vector

/-- Embeds `Substitution::GetProperty_Accelerated_subpopID`. -/
def Substitution.GetProperty_Accelerated_subpopID (garbage : Nat → Int)
    (p_values : List Substitution) (p_values_size : Nat) : Option EidosValue :=
  (accelerated_loop (fun value => value.subpop_index_) p_values 0 p_values_size
    ( resize_no_initialize garbage p_values_size)).map EidosValue.Int_vector

/-- Embeds `Substitution::GetProperty_Accelerated_tag`. -/
def Substitution.GetProperty_Accelerated_tag (garbage : Nat → Int)
    (p_values : List Substitution) (p_values_size : Nat) : Option EidosValue :=
  (accelerated_loop (fun value => value.tag_value_) p_values 0 p_values_size
    ( resize_no_initialize garbage p_values_size)).map EidosValue.Int_vector

/-- Embeds `Substitution::GetProperty_Accelerated_selectionCoeff`. -/
def Substitution.GetProperty_Accelerated_selectionCoeff (garbage : Nat → Double)
    (p_values : List Substitution) (p_values_size : Nat) : Option EidosValue :=
  (accelerated_loop (fun value => value.selection_coeff_) p_values 0 p_values_size
    ( resize_no_initialize garbage p_values_size)).map EidosValue.Float_vector

/-- Embeds `Substitution::GetProperty_Accelerated_mutationType`. -/
def Substitution.GetProperty_Accelerated_mutationType (garbage : Nat → Addr)
    (p_values : List Substitution) (p_values_size : Nat) : Option EidosValue :=
  (accelerated_loop (fun value => value.mutation_type_ptr_) p_values 0 p_values_size
    ( resize_no_initialize garbage p_values_size)).map EidosValue.Object_vector

/-- A property signature as `Substitution_Class::Properties` builds it: the name, the ID
under which the name is registered, the read-only flag, the value mask, and whether
`DeclareAcceleratedGet` has been called on it. -/
structure EidosPropertySignature where
  property_name_ : String
  property_id_ : Nat
  read_only_ : Bool
  value_mask_ : Nat
  accelerated_get_ : Bool
  deriving DecidableEq, Repr

/-- The eight signatures that `Substitution_Class::Properties` appends to the table of the
base class, in source order.  Modelled from the spec for what slim_global.cpp holds and the
sources lack: each string `gStr_x` spells `x` and is registered under the ID `gID_x`. -/
def Substitution_Class.declared (ids : GlobalIDs) : List EidosPropertySignature :=
  [ { property_name_ := "id", property_id_ := ids.gID_id, read_only_ := true,
      value_mask_ := kEidosValueMaskInt ||| kEidosValueMaskSingleton, accelerated_get_ := true },
    { property_name_ := "mutationType", property_id_ := ids.gID_mutationType, read_only_ := true,
      value_mask_ := kEidosValueMaskObject ||| kEidosValueMaskSingleton, accelerated_get_ := true },
    { property_name_ := "position", property_id_ := ids.gID_position, read_only_ := true,
      value_mask_ := kEidosValueMaskInt ||| kEidosValueMaskSingleton, accelerated_get_ := true },
    { property_name_ := "selectionCoeff", property_id_ := ids.gID_selectionCoeff,
      read_only_ := true,
      value_mask_ := kEidosValueMaskFloat ||| kEidosValueMaskSingleton, accelerated_get_ := true },
    { property_name_ := "subpopID", property_id_ := ids.gID_subpopID, read_only_ := false,
      value_mask_ := kEidosValueMaskInt ||| kEidosValueMaskSingleton, accelerated_get_ := true },
    { property_name_ := "originGeneration", property_id_ := ids.gID_originGeneration,
      read_only_ := true,
      value_mask_ := kEidosValueMaskInt ||| kEidosValueMaskSingleton, accelerated_get_ := true },
    { property_name_ := "fixationGeneration", property_id_ := ids.gID_fixationGeneration,
      read_only_ := true,
      value_mask_ := kEidosValueMaskInt ||| kEidosValueMaskSingleton, accelerated_get_ := true },
    { property_name_ := "tag", property_id_ := ids.gID_tag, read_only_ := false,
      value_mask_ := kEidosValueMaskInt ||| kEidosValueMaskSingleton, accelerated_get_ := true } ]

/-- The singleton holding element `i` of a vector value (the singleton itself for a
singleton at index 0), as `GetValueAtIndex` returns it. -/
def EidosValue.elementAt : EidosValue → Nat → Option EidosValue
  | Int_singleton x, i => if i = 0 then some (Int_singleton x) else none
  | Float_singleton x, i => if i = 0 then some (Float_singleton x) else none
  | Object_singleton x, i => if i = 0 then some (Object_singleton x) else none
  | Int_vector xs, i => (xs.get? i).map Int_singleton
  | Float_vector xs, i => (xs.get? i).map Float_singleton
  | Object_vector xs, i => (xs.get? i).map Object_singleton

/-- Tells whether a value is of a vector class. -/
def EidosValue.IsVectorBased : EidosValue → Bool
  | Int_vector _ => true
  | Float_vector _ => true
  | Object_vector _ => true
  | _ => false

/-- The batch result agrees with the scalar accessor on the array `p_values`: it is a vector
of as many elements as the array, and its element `i` is the single element that the scalar
accessor returns for element `i` of the array. -/
def AcceleratedAgrees (scalar : Substitution → Except EidosError EidosValue)
    (batch : Option EidosValue) (p_values : List Substitution) : Prop :=
  ∃ v, batch = some v ∧ v.IsVectorBased = true ∧ v.Count = p_values.length ∧
    ∀ i (h : i < p_values.length),
      ∃ e, scalar p_values[i] = Except.ok e ∧ e.Count = 1 ∧ v.elementAt i = some e

/-- Property IDs used in the examples: `gID_none` is 0 and the others follow from 100. -/
def exampleIDs : GlobalIDs :=
  { gID_none := 0, gID_id := 100, gID_mutationType := 101, gID_position := 102,
    gID_selectionCoeff := 103, gID_subpopID := 104, gID_originGeneration := 105,
    gID_fixationGeneration := 106, gID_tag := 107 }

/-- A `Substitution` used in the examples. -/
def exampleSubstitution (k : Int) : Substitution :=
  { mutation_type_ptr_ := 8, position_ := 10 * k, selection_coeff_ := ⟨k.toNat⟩,
    subpop_index_ := 1, generation_ := 5, fixation_generation_ := 50 + k,
    mutation_id_ := k, tag_value_ := -k }

/-- Modelled from the spec: `EidosObjectElement::SetProperty`, declared in eidos_value.h and
defined in eidos_value.cpp, which is not among the sources.  The spec says of it: "base
implementation fails ("unknown property")" and "writing a read-only property is a hard error
identifying the property name".  `properties` is the table of the element's class. -/
def EidosObjectElement.SetProperty (properties : List EidosPropertySignature)
    (p_property_id : Nat) : Except EidosError Unit :=
  match properties.find? (fun sig => decide (sig.property_id_ = p_property_id)) with
  | some sig =>
    if sig.read_only_ = true then Except.error (EidosError.read_only_property sig.property_name_)
    else Except.error (EidosError.unknown_property p_property_id)
  | none => Except.error (EidosError.unknown_property p_property_id)

/-- What `Substitution::SetProperty` calls and the sources do not define: `IntAtIndex` of the
value classes (eidos_value.cpp) and the two range casts `SLiMCastToObjectidTypeOrRaise` and
`SLiMCastToUsertagTypeOrRaise` (slim_global.h), each of which returns its argument or raises. -/
structure SetPropertyEnv where
  IntAtIndex : EidosValue → Nat → Except EidosError Int
  SLiMCastToObjectidTypeOrRaise : Int → Except EidosError Int
  SLiMCastToUsertagTypeOrRaise : Int → Except EidosError Int

/-- Embeds `Substitution::SetProperty`.  The result pairs the fields of the object when the
call is left, normally or by a raise, with the outcome of the call.  The `switch` is rendered
as a chain of tests in the order of its cases. -/
def Substitution.SetProperty (ids : GlobalIDs) (env : SetPropertyEnv)
    (properties : List EidosPropertySignature) (self : Substitution) (p_property_id : Nat)
    (p_value : EidosValue) : Substitution × Except EidosError Unit :=
  if p_property_id = ids.gID_subpopID then
    match (env.IntAtIndex p_value 0).bind env.SLiMCastToObjectidTypeOrRaise with
    | Except.error e => (self, Except.error e)
    | Except.ok value => ({ self with subpop_index_ := value }, Except.ok ())
  else if p_property_id = ids.gID_tag then
    match (env.IntAtIndex p_value 0).bind env.SLiMCastToUsertagTypeOrRaise with
    | Except.error e => (self, Except.error e)
    | Except.ok value => ({ self with tag_value_ := value }, Except.ok ())
  else
    (self, EidosObjectElement.SetProperty properties p_property_id)

/-- An environment for the examples: integer values read as themselves, object IDs lie in
`[0, 2 ^ 31)`, user tags in the `int64_t` range. -/
def exampleEnv : SetPropertyEnv :=
  { IntAtIndex := fun v i =>
      match v with
      | EidosValue.Int_singleton x => if i = 0 then Except.ok x else Except.error (EidosError.index_out_of_range i)
      | EidosValue.Int_vector xs =>
        match xs.get? i with
        | some x => Except.ok x
        | none => Except.error (EidosError.index_out_of_range i)
      | _ => Except.error EidosError.not_convertible
    SLiMCastToObjectidTypeOrRaise := fun x =>
      if 0 ≤ x ∧ x < 2 ^ 31 then Except.ok x else Except.error (EidosError.out_of_range x)
    SLiMCastToUsertagTypeOrRaise := fun x =>
      if -(2 ^ 63) ≤ x ∧ x < 2 ^ 63 then Except.ok x else Except.error (EidosError.out_of_range x) }

/-- Modelled from the spec: `CompareEidosPropertySignatures`, the comparator handed to
`std::sort`, defined in eidos_property_signature.cpp, which is not among the sources.  The
spec says the table is "sorted (by name)": the comparator tells whether the name of `p_i`
comes strictly before the name of `p_j`. -/
def CompareEidosPropertySignatures (p_i p_j : EidosPropertySignature) : Bool :=
  decide (p_i.property_name_ < p_j.property_name_)

/-- The arrangement that `comp` asks of `std::sort`: `a` may stand before `b` when `b` is
not `comp`-before `a`. -/
def sortedBy {α : Type} (comp : α → α → Bool) (a b : α) : Prop := comp b a = false

instance {α : Type} (comp : α → α → Bool) : DecidableRel (sortedBy comp) :=
  fun a b => inferInstanceAs (Decidable (comp b a = false))

/-- The call `std::sort(begin, end, comp)` of the standard library, rendered as insertion
sort. -/
def std_sort {α : Type} (comp : α → α → Bool) (l : List α) : List α :=
  l.insertionSort (sortedBy comp)

/-- The table that `Substitution_Class::Properties` builds when its static pointer is null:
a copy of the base class's table, the eight signatures appended, the whole sorted.  `base`
stands for `*EidosObjectClass::Properties()`, defined outside the sources. -/
def Substitution_Class.buildProperties (base : List EidosPropertySignature) (ids : GlobalIDs) :
    List EidosPropertySignature :=
  std_sort CompareEidosPropertySignatures (base ++ Substitution_Class.declared ids)

/-- Embeds `Substitution_Class::Properties`.  The function-local `static` pointer
`properties` is passed in and out (`none` is `nullptr`); the result is the table returned
and the pointer after the call. -/
def Substitution_Class.Properties (base : List EidosPropertySignature) (ids : GlobalIDs)
    (properties : Option (List EidosPropertySignature)) :
    List EidosPropertySignature × Option (List EidosPropertySignature) :=
  match properties with
  | none =>
    (Substitution_Class.buildProperties base ids,
      some (Substitution_Class.buildProperties base ids))
  | some table => (table, some table)

/-- The static pointer after `n` further calls of `Substitution_Class::Properties`. -/
def Substitution_Class.afterCalls (base : List EidosPropertySignature) (ids : GlobalIDs) :
    Nat → Option (List EidosPropertySignature) → Option (List EidosPropertySignature)
  | 0, properties => properties
  | n + 1, properties =>
    Substitution_Class.afterCalls base ids n (Substitution_Class.Properties base ids properties).2

/-! ### The enumeration `_EidosGlobalStringID` (`eidos_global.h`)

The first enumerator is given the value 0 and each following one, having no initialiser,
the value of the one before it plus one; `gEidosID_LastContextEntry` is given 10000. -/

/-- The enumerator `gEidosID_none = 0`. -/
def gEidosID_none : Nat := 0

/-- The enumerator `gEidosID_method`. -/
def gEidosID_method : Nat := gEidosID_none + 1

/-- The enumerator `gEidosID_size`. -/
def gEidosID_size : Nat := gEidosID_method + 1

/-- The enumerator `gEidosID_property`. -/
def gEidosID_property : Nat := gEidosID_size + 1

/-- The enumerator `gEidosID_str`. -/
def gEidosID_str : Nat := gEidosID_property + 1

/-- The enumerator `gEidosID_applyValue`. -/
def gEidosID_applyValue : Nat := gEidosID_str + 1

/-- The enumerator `gEidosID_T`. -/
def gEidosID_T : Nat := gEidosID_applyValue + 1

/-- The enumerator `gEidosID_F`. -/
def gEidosID_F : Nat := gEidosID_T + 1

/-- The enumerator `gEidosID_NULL`. -/
def gEidosID_NULL : Nat := gEidosID_F + 1

/-- The enumerator `gEidosID_PI`. -/
def gEidosID_PI : Nat := gEidosID_NULL + 1

/-- The enumerator `gEidosID_E`. -/
def gEidosID_E : Nat := gEidosID_PI + 1

/-- The enumerator `gEidosID_INF`. -/
def gEidosID_INF : Nat := gEidosID_E + 1

/-- The enumerator `gEidosID_NAN`. -/
def gEidosID_NAN : Nat := gEidosID_INF + 1

/-- The enumerator `gEidosID__TestElement`. -/
def gEidosID__TestElement : Nat := gEidosID_NAN + 1

/-- The enumerator `gEidosID__yolk`. -/
def gEidosID__yolk : Nat := gEidosID__TestElement + 1

/-- The enumerator `gEidosID__increment`. -/
def gEidosID__increment : Nat := gEidosID__yolk + 1

/-- The enumerator `gEidosID__cubicYolk`. -/
def gEidosID__cubicYolk : Nat := gEidosID__increment + 1

/-- The enumerator `gEidosID__squareTest`. -/
def gEidosID__squareTest : Nat := gEidosID__cubicYolk + 1

/-- The enumerator `gEidosID_weights`. -/
def gEidosID_weights : Nat := gEidosID__squareTest + 1

/-- The enumerator `gEidosID_n`. -/
def gEidosID_n : Nat := gEidosID_weights + 1

/-- The enumerator `gEidosID_x`. -/
def gEidosID_x : Nat := gEidosID_n + 1

/-- The enumerator `gEidosID_y`. -/
def gEidosID_y : Nat := gEidosID_x + 1

/-- The enumerator `gEidosID_z`. -/
def gEidosID_z : Nat := gEidosID_y + 1

/-- The enumerator `gEidosID_color`. -/
def gEidosID_color : Nat := gEidosID_z + 1

/-- The enumerator `gEidosID_LastEntry`: "IDs added by the Context should start here". -/
def gEidosID_LastEntry : Nat := gEidosID_color + 1

/-- The enumerator `gEidosID_LastContextEntry = 10000`: "IDs added by the Context must end
before this value; Eidos reserves the remaining values". -/
def gEidosID_LastContextEntry : Nat := 10000

/-- The runtime-reserved IDs, `gEidosID_none` through `gEidosID_color`, in source order. -/
def reservedIDs : List Nat :=
  [gEidosID_none, gEidosID_method, gEidosID_size, gEidosID_property, gEidosID_str,
   gEidosID_applyValue, gEidosID_T, gEidosID_F, gEidosID_NULL, gEidosID_PI, gEidosID_E,
   gEidosID_INF, gEidosID_NAN, gEidosID__TestElement, gEidosID__yolk, gEidosID__increment,
   gEidosID__cubicYolk, gEidosID__squareTest, gEidosID_weights, gEidosID_n, gEidosID_x,
   gEidosID_y, gEidosID_z, gEidosID_color]

/-! ### The enumeration `EidosValueType` (`eidos_value.h`) -/

/-- The enumeration `EidosValueType`, in source order. -/
inductive EidosValueType where
  | kValueNULL
  | kValueLogical
  | kValueInt
  | kValueFloat
  | kValueString
  | kValueObject
  deriving DecidableEq, Repr

/-- The numeric value of an enumerator: `kValueNULL = 0`, each following one the value of
the one before it plus one. -/
def EidosValueType.value : EidosValueType → Nat
  | kValueNULL => 0
  | kValueLogical => 0 + 1
  | kValueInt => 0 + 1 + 1
  | kValueFloat => 0 + 1 + 1 + 1
  | kValueString => 0 + 1 + 1 + 1 + 1
  | kValueObject => 0 + 1 + 1 + 1 + 1 + 1

/-- The promotion order of the spec, written as the list "logical < integer < float <
string", lowest first. -/
def promotionOrder : List EidosValueType :=
  [EidosValueType.kValueLogical, EidosValueType.kValueInt, EidosValueType.kValueFloat,
   EidosValueType.kValueString]

/-- The promoted kind of two kinds of the promotion order, following the spec's words: the
one that stands later in the order. -/
def promotedKind (k1 k2 : EidosValueType) : EidosValueType :=
  if promotionOrder.indexOf k1 < promotionOrder.indexOf k2 then k2 else k1

/-- The kind with the larger enumerator value. -/
def largerEnumerator (k1 k2 : EidosValueType) : EidosValueType :=
  if k1.value < k2.value then k2 else k1

/-! ### Values and their comparison

The methods of the value classes and the comparison functions are declared in
`eidos_value.h` and defined in `eidos_value.cpp`, which is not among the sources.  What
follows models them from the spec (§3, §4.3, §4.4) and from the declarations and comments of
the header; the few methods that the header defines inline are embedded from it. -/

/-- One element of a value: a logical, an integer (`int64_t`), a float (`double`), a string
or an object element (given by its address). -/
inductive Element where
  | logical (b : Bool)
  | int (n : Int)
  | float (d : Double)
  | string (s : String)
  | object (p : Addr)
  deriving DecidableEq, Repr

/-- The operations on floats that the spec leaves to the platform or to the implementer:
the comparison `<` of doubles, the conversion of an integer to a double, the formatting of
a double as a string, and the coercions that go against the promotion order (parsing a
string, truncating a float, testing a number), each of which yields an element of the kind
asked for or fails. -/
structure FloatOps where
  lt : Double → Double → Bool
  ofInt : Int → Double
  format : Double → String
  narrow : EidosValueType → Element → Except EidosError Element

/-- A value object: its class (`EidosValue_NULL`, `EidosValue_Logical`,
`EidosValue_Logical_const`, and the vector and singleton classes of strings, integers,
floats and objects), the flag `invisible_` of the base class `EidosValue`, and the data
members `values_` or `value_` of the class. -/
inductive Value where
  | NULL (invisible_ : Bool)
  | Logical (invisible_ : Bool) (values_ : List Bool)
  | Logical_const (invisible_ : Bool) (values_ : List Bool)
  | String_vector (invisible_ : Bool) (values_ : List String)
  | String_singleton (invisible_ : Bool) (value_ : String)
  | Int_vector (invisible_ : Bool) (values_ : List Int)
  | Int_singleton (invisible_ : Bool) (value_ : Int)
  | Float_vector (invisible_ : Bool) (values_ : List Double)
  | Float_singleton (invisible_ : Bool) (value_ : Double)
  | Object_vector (invisible_ : Bool) (values_ : List Addr)
  | Object_singleton (invisible_ : Bool) (value_ : Addr)
  deriving DecidableEq, Repr

/-- Embeds `Invisible()`: `return invisible_;`. -/
def Value.Invisible : Value → Bool
  | NULL i => i
  | Logical i _ => i
  | Logical_const i _ => i
  | String_vector i _ => i
  | String_singleton i _ => i
  | Int_vector i _ => i
  | Int_singleton i _ => i
  | Float_vector i _ => i
  | Float_singleton i _ => i
  | Object_vector i _ => i
  | Object_singleton i _ => i

/-- Modelled from the spec: `Type()`: the kind of the value. -/
def Value.ValueType : Value → EidosValueType
  | NULL _ => EidosValueType.kValueNULL
  | Logical _ _ => EidosValueType.kValueLogical
  | Logical_const _ _ => EidosValueType.kValueLogical
  | String_vector _ _ => EidosValueType.kValueString
  | String_singleton _ _ => EidosValueType.kValueString
  | Int_vector _ _ => EidosValueType.kValueInt
  | Int_singleton _ _ => EidosValueType.kValueInt
  | Float_vector _ _ => EidosValueType.kValueFloat
  | Float_singleton _ _ => EidosValueType.kValueFloat
  | Object_vector _ _ => EidosValueType.kValueObject
  | Object_singleton _ _ => EidosValueType.kValueObject

/-- The ordered sequence of elements that a value holds (spec §3: "every concrete value is
conceptually an ordered, fixed-length sequence of elements of its kind"). -/
def Value.elements : Value → List Element
  | NULL _ => []
  | Logical _ values_ => values_.map Element.logical
  | Logical_const _ values_ => values_.map Element.logical
  | String_vector _ values_ => values_.map Element.string
  | String_singleton _ value_ => [Element.string value_]
  | Int_vector _ values_ => values_.map Element.int
  | Int_singleton _ value_ => [Element.int value_]
  | Float_vector _ values_ => values_.map Element.float
  | Float_singleton _ value_ => [Element.float value_]
  | Object_vector _ values_ => values_.map Element.object
  | Object_singleton _ value_ => [Element.object value_]

/-- Modelled from the spec: `Count()`: the number of elements. -/
def Value.Count (v : Value) : Nat := v.elements.length

/-- Tells whether the value is of a singleton class or a constant logical: the classes
whose `IsVectorBased()` is overridden in the header. -/
def Value.isSingleton : Value → Bool
  | Logical_const _ _ => true
  | String_singleton _ _ => true
  | Int_singleton _ _ => true
  | Float_singleton _ _ => true
  | Object_singleton _ _ => true
  | _ => false

/-- The kind of an element. -/
def Element.kind : Element → EidosValueType
  | logical _ => EidosValueType.kValueLogical
  | int _ => EidosValueType.kValueInt
  | float _ => EidosValueType.kValueFloat
  | string _ => EidosValueType.kValueString
  | object _ => EidosValueType.kValueObject

/-- The text of a logical read as a string: the globals `gEidosStr_T` and `gEidosStr_F`. -/
def logicalString (b : Bool) : String := if b then "T" else "F"

/-- Modelled from the spec: the coercion of an element to the kind `target` (spec §4.3, "coerce on read"):
along the promotion order logical < integer < float < string the element is widened (a
logical reads as 0 or 1, an integer is converted to a double, a number is formatted);
against it the coercion is the platform's `narrow`; an object is never coerced. -/
def Element.coerce (ops : FloatOps) (target : EidosValueType) (e : Element) :
    Except EidosError Element :=
  match target, e with
  | EidosValueType.kValueLogical, Element.logical b => Except.ok (Element.logical b)
  | EidosValueType.kValueInt, Element.logical b => Except.ok (Element.int (if b then 1 else 0))
  | EidosValueType.kValueInt, Element.int n => Except.ok (Element.int n)
  | EidosValueType.kValueFloat, Element.logical b =>
    Except.ok (Element.float (ops.ofInt (if b then 1 else 0)))
  | EidosValueType.kValueFloat, Element.int n => Except.ok (Element.float (ops.ofInt n))
  | EidosValueType.kValueFloat, Element.float d => Except.ok (Element.float d)
  | EidosValueType.kValueString, Element.logical b => Except.ok (Element.string (logicalString b))
  | EidosValueType.kValueString, Element.int n => Except.ok (Element.string (toString n))
  | EidosValueType.kValueString, Element.float d => Except.ok (Element.string (ops.format d))
  | EidosValueType.kValueString, Element.string s => Except.ok (Element.string s)
  | EidosValueType.kValueObject, Element.object p => Except.ok (Element.object p)
  | _, Element.object _ => Except.error EidosError.type_mismatch
  | EidosValueType.kValueObject, _ => Except.error EidosError.type_mismatch
  | EidosValueType.kValueNULL, _ => Except.error EidosError.type_mismatch
  | k, x => ops.narrow k x

/-- Modelled from the spec: the typed accessors `LogicalAtIndex`, `IntAtIndex`, `FloatAtIndex`,
`StringAtIndex` and `ObjectElementAtIndex` (for the kind `target`): the element at `p_idx`,
coerced to the accessor's kind; it fails past the end of the value, hence always on NULL. -/
def Value.AtIndex (ops : FloatOps) (target : EidosValueType) (v : Value) (p_idx : Nat) :
    Except EidosError Element :=
  match v.elements.get? p_idx with
  | none => Except.error (EidosError.index_out_of_range p_idx)
  | some e => e.coerce ops target

/-- The sign of `std::string::compare`: the lexicographic comparison of the characters. -/
def compareChars : List Char → List Char → Int
  | [], [] => 0
  | [], _ :: _ => -1
  | _ :: _, [] => 1
  | a :: s, b :: t => if a < b then -1 else if b < a then 1 else compareChars s t

/-- The three-way comparison of two elements of one kind: `-1`, `0` or `1` as the first is
less than, equal to or greater than the second; `false` comes before `true`, numbers compare
numerically (floats with the platform's `<`, so that two floats of which neither is less
give `0`), strings lexicographically.  Objects only compare for identity, and elements of
different kinds do not compare. -/
def threeWay (ops : FloatOps) : Element → Element → Except EidosError Int
  | Element.logical a, Element.logical b =>
    Except.ok (if a = b then 0 else if a = false then -1 else 1)
  | Element.int a, Element.int b => Except.ok (if a < b then -1 else if b < a then 1 else 0)
  | Element.float a, Element.float b =>
    Except.ok (if ops.lt a b = true then -1 else if ops.lt b a = true then 1 else 0)
  | Element.string a, Element.string b => Except.ok (compareChars a.toList b.toList)
  | Element.object a, Element.object b => Except.ok (if a = b then 0 else -1)
  | _, _ => Except.error EidosError.type_mismatch

/-- Modelled from the spec: the kind-specialised comparators `CompareEidosValues_Logical`, `_Int`, `_Float`,
`_String` and `_Object` (for the kind `kind`): both elements are read through the typed
accessor of that kind and compared. -/
def CompareEidosValues_kind (ops : FloatOps) (kind : EidosValueType) (p_value1 : Value)
    (p_index1 : Nat) (p_value2 : Value) (p_index2 : Nat) : Except EidosError Int :=
  (p_value1.AtIndex ops kind p_index1).bind fun e1 =>
    (p_value2.AtIndex ops kind p_index2).bind fun e2 => threeWay ops e1 e2

/-- Modelled from the spec: the choice of the comparison kind that `CompareEidosValues` and
`EidosGetCompareFunctionForTypes` share (spec §4.4, items 1 and 2): a NULL on either side is
rejected; two objects compare as objects and an object compares with nothing else; otherwise
string wins if either side is a string, then float, then integer, then logical. -/
def comparisonKind (p_type1 p_type2 : EidosValueType) : Except EidosError EidosValueType :=
  if p_type1 = EidosValueType.kValueNULL ∨ p_type2 = EidosValueType.kValueNULL then
    Except.error EidosError.null_comparison
  else if p_type1 = EidosValueType.kValueObject ∧ p_type2 = EidosValueType.kValueObject then
    Except.ok EidosValueType.kValueObject
  else if p_type1 = EidosValueType.kValueObject ∨ p_type2 = EidosValueType.kValueObject then
    Except.error EidosError.type_mismatch
  else if p_type1 = EidosValueType.kValueString ∨ p_type2 = EidosValueType.kValueString then
    Except.ok EidosValueType.kValueString
  else if p_type1 = EidosValueType.kValueFloat ∨ p_type2 = EidosValueType.kValueFloat then
    Except.ok EidosValueType.kValueFloat
  else if p_type1 = EidosValueType.kValueInt ∨ p_type2 = EidosValueType.kValueInt then
    Except.ok EidosValueType.kValueInt
  else
    Except.ok EidosValueType.kValueLogical

/-- Modelled from the spec: `EidosGetCompareFunctionForTypes`, which picks the comparator for
a pair of kinds once, "reused for repeated calls with the same kind pair" (§4.4, item 3),
and fails on a pairing that does not compare. -/
def EidosGetCompareFunctionForTypes (ops : FloatOps) (p_type1 p_type2 : EidosValueType) :
    Except EidosError (Value → Nat → Value → Nat → Except EidosError Int) :=
  (comparisonKind p_type1 p_type2).map fun kind => CompareEidosValues_kind ops kind

/-- Modelled from the spec: `CompareEidosValues`, "the single general-purpose comparator"
(§4.4): it rejects NULL, determines the comparison kind of the two values and dispatches to
the comparator of that kind. -/
def CompareEidosValues (ops : FloatOps) (p_value1 : Value) (p_index1 : Nat) (p_value2 : Value)
    (p_index2 : Nat) : Except EidosError Int :=
  (comparisonKind p_value1.ValueType p_value2.ValueType).bind fun kind =>
    CompareEidosValues_kind ops kind p_value1 p_index1 p_value2 p_index2

/-- Float operations for the examples, in which a double is read as the natural number of
its `bits`. -/
def exampleFloatOps : FloatOps :=
  { lt := fun a b => decide (a.bits < b.bits)
    ofInt := fun n => ⟨n.toNat⟩
    format := fun d => toString d.bits
    narrow := fun _ _ => Except.error EidosError.not_convertible }

/-- The mutation entry points of the value classes: the three of the `EidosValue` interface
and the two that `EidosValue_Logical` adds. -/
inductive Mutation where
  | SetValueAtIndex (p_idx : Nat) (p_value : Value)
  | PushValueFromIndexOfEidosValue (p_idx : Nat) (p_source_script_value : Value)
  | Sort (p_ascending : Bool)
  | PushLogical (p_logical : Bool)
  | SetLogicalAtIndex (p_idx : Nat) (p_logical : Bool)
  deriving DecidableEq, Repr

/-- The order in which `Sort` arranges a list: `before a b` tells whether `a` may stand
before `b`, ascending or, with the arguments exchanged, descending. -/
def sortList {α : Type} (before : α → α → Bool) (p_ascending : Bool) (l : List α) : List α :=
  if p_ascending then l.insertionSort (fun a b => before a b = true)
  else l.insertionSort (fun a b => before b a = true)

/-- The element that a vector of kind `kind` stores from the source value `src` at index
`idx`: the element read through the typed accessor of the vector's kind. -/
def readFor (ops : FloatOps) (kind : EidosValueType) (src : Value) (idx : Nat) :
    Except EidosError Element :=
  src.AtIndex ops kind idx

/-- Modelled from the spec: a mutation applied to a list of elements of one kind, kept as `Element`s of that
kind (spec §4.3, the "vector" variant: index set, append, in-place sort).  `SetValueAtIndex`
stores element 0 of the value at an index in range; `PushValueFromIndexOfEidosValue` appends
the element at `p_idx` of a source of the same kind; `Sort` orders the elements with
`before`. -/
def mutateVector (ops : FloatOps) (kind : EidosValueType) (before : Element → Element → Bool)
    (elems : List Element) : Mutation → List Element × Except EidosError Unit
  | Mutation.SetValueAtIndex p_idx p_value =>
    if p_idx < elems.length then
      match readFor ops kind p_value 0 with
      | Except.ok e => (elems.set p_idx e, Except.ok ())
      | Except.error err => (elems, Except.error err)
    else (elems, Except.error (EidosError.index_out_of_range p_idx))
  | Mutation.PushValueFromIndexOfEidosValue p_idx p_source_script_value =>
    if p_source_script_value.ValueType = kind then
      match readFor ops kind p_source_script_value p_idx with
      | Except.ok e => (elems ++ [e], Except.ok ())
      | Except.error err => (elems, Except.error err)
    else (elems, Except.error EidosError.type_mismatch)
  | Mutation.Sort p_ascending =>
    if kind = EidosValueType.kValueObject then (elems, Except.error EidosError.type_mismatch)
    else (sortList before p_ascending elems, Except.ok ())
  | Mutation.PushLogical p_logical =>
    if kind = EidosValueType.kValueLogical then
      (elems ++ [Element.logical p_logical], Except.ok ())
    else (elems, Except.error EidosError.type_mismatch)
  | Mutation.SetLogicalAtIndex p_idx p_logical =>
    if kind = EidosValueType.kValueLogical then
      if p_idx < elems.length then (elems.set p_idx (Element.logical p_logical), Except.ok ())
      else (elems, Except.error (EidosError.index_out_of_range p_idx))
    else (elems, Except.error EidosError.type_mismatch)

/-- The order of `Sort` on elements of one kind: not greater in the three-way comparison. -/
def elementBefore (ops : FloatOps) (a b : Element) : Bool :=
  match threeWay ops a b with
  | Except.ok r => decide (r ≤ 0)
  | Except.error _ => true

/-- The data members of a vector class rebuilt from a list of elements; the elements of
another kind, which no mutation of the vector produces, are dropped. -/
def Value.withElements : Value → List Element → Value
  | Logical i _, es =>
    Logical i (es.filterMap fun e => match e with | Element.logical b => some b | _ => none)
  | String_vector i _, es =>
    String_vector i (es.filterMap fun e => match e with | Element.string x => some x | _ => none)
  | Int_vector i _, es =>
    Int_vector i (es.filterMap fun e => match e with | Element.int x => some x | _ => none)
  | Float_vector i _, es =>
    Float_vector i (es.filterMap fun e => match e with | Element.float x => some x | _ => none)
  | Object_vector i _, es =>
    Object_vector i (es.filterMap fun e => match e with | Element.object x => some x | _ => none)
  | v, _ => v

/-- Modelled from the spec: the mutation entry points (spec §4.3).  The result pairs the object when the call
is left with the outcome of the call.  On a singleton or a constant logical every entry
point fails ("all mutation operations defined to fail fast"; in the header, "prohibited
actions because there is no backing vector"); a NULL has nothing to set, accepts the push of
a NULL and sorts trivially; a vector is mutated as `mutateVector` says. -/
def Value.mutate (ops : FloatOps) (self : Value) (m : Mutation) :
    Value × Except EidosError Unit :=
  if self.isSingleton = true then (self, Except.error EidosError.immutable_value)
  else
    match self with
    | NULL _ =>
      match m with
      | Mutation.PushValueFromIndexOfEidosValue _ src =>
        if src.ValueType = EidosValueType.kValueNULL then (self, Except.ok ())
        else (self, Except.error EidosError.type_mismatch)
      | Mutation.Sort _ => (self, Except.ok ())
      | _ => (self, Except.error EidosError.type_mismatch)
    | v =>
      ((v.withElements (mutateVector ops v.ValueType (elementBefore ops) v.elements m).1),
        (mutateVector ops v.ValueType (elementBefore ops) v.elements m).2)

/-- Embeds the inline `SetValue` of `EidosValue_Int_singleton`, `EidosValue_Float_singleton`
and `EidosValue_String_singleton`: `value_ = p_int;` (resp. `p_float`, `p_string`).  The
other classes have no such member and are left as they are. -/
def Value.SetValue : Value → Element → Value
  | Int_singleton i _, Element.int p_int => Int_singleton i p_int
  | Float_singleton i _, Element.float p_float => Float_singleton i p_float
  | String_singleton i _, Element.string p_string => String_singleton i p_string
  | v, _ => v

/-- Embeds a write through the reference that the inline `ObjectElementValue_Mutable` of
`EidosValue_Object_singleton` returns: `return value_;` as an `EidosObjectElement * &`. -/
def Value.ObjectElementValue_Mutable_write : Value → Addr → Value
  | Object_singleton i _, p_element => Object_singleton i p_element
  | v, _ => v

/-- Modelled from the spec: `CopyValues()`: "a deep copy of the receiver with ... invisible_ == false" (the
header), of the class of the receiver; a constant logical, which cannot be copy-constructed,
is copied as a plain `EidosValue_Logical`. -/
def Value.CopyValues : Value → Value
  | NULL _ => NULL false
  | Logical _ values_ => Logical false values_
  | Logical_const _ values_ => Logical false values_
  | String_vector _ values_ => String_vector false values_
  | String_singleton _ value_ => String_singleton false value_
  | Int_vector _ values_ => Int_vector false values_
  | Int_singleton _ value_ => Int_singleton false value_
  | Float_vector _ values_ => Float_vector false values_
  | Float_singleton _ value_ => Float_singleton false value_
  | Object_vector _ values_ => Object_vector false values_
  | Object_singleton _ value_ => Object_singleton false value_

/-- The value objects that exist, by address (the index in the list). -/
abbrev ValueHeap := List Value

/-- Modelled from the spec: `CopyValues()` called on the object at `self`, "a deep copy" and
so a distinct instance: the copy is a new object, allocated after
the existing ones; the result is the new heap and the address of the copy. -/
def CopyValues_at (heap : ValueHeap) (self : Nat) : Option (ValueHeap × Nat) :=
  match heap.get? self with
  | none => none
  | some v => some (heap ++ [v.CopyValues], heap.length)

/-- Modelled from the spec: a mutation entry point called on the object at `self`. -/
def mutate_at (ops : FloatOps) (heap : ValueHeap) (self : Nat) (m : Mutation) :
    ValueHeap × Except EidosError Unit :=
  match heap.get? self with
  | none => (heap, Except.error (EidosError.index_out_of_range self))
  | some v => (heap.set self (v.mutate ops m).1, (v.mutate ops m).2)

/-- Modelled from the spec: the heap after the mutations `ms` have been called, one after the
other, on the object at `self`, whether they succeed or fail. -/
def mutateAll_at (ops : FloatOps) (heap : ValueHeap) (self : Nat) (ms : List Mutation) :
    ValueHeap :=
  ms.foldl (fun h m => (mutate_at ops h self m).1) heap

/-! ### The global string registry

`EidosGlobalStringIDForString`, `StringForEidosGlobalStringID` and
`Eidos_RegisterStringForGlobalID` are declared in `eidos_global.h` and defined in
`eidos_global.cpp`, which is not among the sources; they are modelled from the spec (§3,
§4.1) and from the comments of their declarations.  The type of the IDs is embedded from the
header: `typedef uint32_t EidosGlobalStringID;`. -/

/-- The number of values of `EidosGlobalStringID`, a `uint32_t`. -/
def UINT32_MOD : Nat := 2 ^ 32

/-- The registry: the strings registered with their IDs, in the order of registration
(the hash table and its reverse), and the next ID to hand out to a string that has none, a
value of `EidosGlobalStringID`. -/
structure Registry where
  entries : List (String × Nat)
  nextID : Nat
  deriving DecidableEq, Repr

/-- The registry before warm-up: nothing is registered, and the IDs handed out on demand
start at `gEidosID_LastContextEntry` ("Eidos reserves the remaining values"). -/
def Registry.empty : Registry :=
  { entries := [], nextID := gEidosID_LastContextEntry }

/-- Modelled from the spec: `EidosGlobalStringIDForString`, which "takes any string and
uniques through a hash table.  If the string does not already exist in the hash table, it is
copied, and the copy is registered"; "registering the same string twice returns the existing
ID".  A string that has no ID gets the next one, and the next one is then incremented as a
`uint32_t` is, to 0 after `2 ^ 32 - 1`.  The result is the ID and the registry after the
call. -/
def EidosGlobalStringIDForString (r : Registry) (p_string : String) : Nat × Registry :=
  match r.entries.find? (fun e => decide (e.1 = p_string)) with
  | some e => (e.2, r)
  | none =>
    (r.nextID,
      { entries := r.entries ++ [(p_string, r.nextID)], nextID := (r.nextID + 1) % UINT32_MOD })

/-- Modelled from the spec: `StringForEidosGlobalStringID`, which "returns the uniqued global
string for the ID through a reverse lookup"; "looking up an unregistered ID is a programming
error". -/
def StringForEidosGlobalStringID (r : Registry) (p_string_id : Nat) : Except EidosError String :=
  match r.entries.find? (fun e => decide (e.2 = p_string_id)) with
  | some e => Except.ok e.1
  | none => Except.error (EidosError.unknown_property p_string_id)

/-- Modelled from the spec: `Eidos_RegisterStringForGlobalID`, which "registers a standard
string with a given ID".  Neither the spec nor the header says what the call does with a
string or an ID that is registered already; the pair is recorded after the existing ones,
whatever it is.  The result is the registry after the call. -/
def Eidos_RegisterStringForGlobalID (r : Registry) (p_string : String) (p_string_id : Nat) :
    Registry :=
  { r with entries := r.entries ++ [(p_string, p_string_id)] }

/-- The calls that change the registry. -/
inductive RegistryCall where
  | register (p_string : String) (p_string_id : Nat)
  | intern (p_string : String)
  deriving DecidableEq, Repr

/-- The registry after a sequence of calls made from `r`. -/
def Registry.after (r : Registry) : List RegistryCall → Registry
  | [] => r
  | RegistryCall.register p_string p_string_id :: calls =>
    Registry.after (Eidos_RegisterStringForGlobalID r p_string p_string_id) calls
  | RegistryCall.intern p_string :: calls =>
    Registry.after (EidosGlobalStringIDForString r p_string).2 calls

/-- Tells whether the string `p_string` is registered in `r`. -/
def Registry.hasString (r : Registry) (p_string : String) : Bool :=
  r.entries.any fun e => decide (e.1 = p_string)

/-- Tells whether the ID `p_string_id` is registered in `r`. -/
def Registry.hasID (r : Registry) (p_string_id : Nat) : Bool :=
  r.entries.any fun e => decide (e.2 = p_string_id)

/-- Tells whether a call keeps to what the spec asks of the callers and to the supply of
IDs.  A registration gives a string and an ID that are not registered yet, the ID below
`gEidosID_LastContextEntry` ("IDs assigned by the host must not collide with IDs reserved by
the runtime"; they "must stay below an upper reserved boundary").  A lookup of a string that
has no ID finds the next ID still among those that "Eidos reserves", from
`gEidosID_LastContextEntry` on: the `uint32_t` counter has not wrapped, fewer than
`2 ^ 32 - gEidosID_LastContextEntry` IDs have been handed out. -/
def RegistryCall.allowed (r : Registry) : RegistryCall → Bool
  | RegistryCall.register p_string p_string_id =>
    !r.hasString p_string && !r.hasID p_string_id &&
      decide (p_string_id < gEidosID_LastContextEntry)
  | RegistryCall.intern p_string =>
    r.hasString p_string || decide (gEidosID_LastContextEntry ≤ r.nextID)

/-- Every call of the sequence is allowed where it is made. -/
def allowedCalls (r : Registry) : List RegistryCall → Bool
  | [] => true
  | c :: calls => c.allowed r && allowedCalls (Registry.after r [c]) calls

/-- The registry is a bijection between its strings and its IDs; the IDs are values of
`EidosGlobalStringID`, as is the next one to hand out; and as long as the next one is among
those that Eidos reserves, every ID in the registry is below it. -/
def Registry.WF (r : Registry) : Prop :=
  (r.entries.map fun e => e.1).Nodup ∧ (r.entries.map fun e => e.2).Nodup ∧
    (∀ e ∈ r.entries, e.2 < UINT32_MOD) ∧ r.nextID < UINT32_MOD ∧
    (gEidosID_LastContextEntry ≤ r.nextID → ∀ e ∈ r.entries, e.2 < r.nextID)

/-- A string of `n` letters `a`; different `n` give different strings. -/
def freshString (n : Nat) : String := String.mk (List.replicate n 'a')

/-- The calls that look up the strings `freshString 0`, ..., `freshString (n - 1)`. -/
def internCalls : Nat → List RegistryCall
  | 0 => []
  | n + 1 => internCalls n ++ [RegistryCall.intern (freshString n)]

/-- The registry reached from the empty one once `size` has been registered under
`gEidosID_size`, as the warm-up does, and the strings `freshString 0`, ...,
`freshString (n - 1)` have been looked up. -/
def internedAfterSize (n : Nat) : Registry :=
  { entries := ("size", gEidosID_size) ::
      (List.range n).map fun i => (freshString i, (gEidosID_LastContextEntry + i) % UINT32_MOD)
    nextID := (gEidosID_LastContextEntry + n) % UINT32_MOD }

/-! ### Subpopulation (`subpopulation.h`) -/

/-- The sexes that `SexOfIndividual` returns; the enumeration `IndividualSex` is declared in
slim_global.h, which is not among the sources. -/
inductive IndividualSex where
  | kHermaphrodite
  | kFemale
  | kMale
  deriving DecidableEq, Repr

/-- The fields of a `Subpopulation` that the draw functions and `SexOfIndividual` read.  The
`int` fields hold the value of the C++ field. -/
structure Subpopulation where
  child_generation_valid : Bool
  parent_subpop_size_ : Int
  parent_first_male_index_ : Int
  child_subpop_size_ : Int
  child_first_male_index_ : Int
  sex_enabled_ : Bool
  deriving DecidableEq, Repr

/-- Embeds `Subpopulation::SexOfIndividual`. -/
def Subpopulation.SexOfIndividual (self : Subpopulation) (p_individual_index : Int) :
    IndividualSex :=
  if ¬ (self.sex_enabled_ = true) then
    IndividualSex.kHermaphrodite
  else if self.child_generation_valid = true then
    if p_individual_index < self.child_first_male_index_ then IndividualSex.kFemale
    else IndividualSex.kMale
  else
    if p_individual_index < self.parent_first_male_index_ then IndividualSex.kFemale
    else IndividualSex.kMale

/-- The index of the first male of the generation that `SexOfIndividual` looks at: that of
the children if `child_generation_valid`, that of the parents otherwise. -/
def Subpopulation.firstMale (self : Subpopulation) : Int :=
  if self.child_generation_valid = true then self.child_first_male_index_
  else self.parent_first_male_index_

/-- The number of indices `0 .. size - 1` that `SexOfIndividual` classifies as female. -/
def Subpopulation.femaleCount (self : Subpopulation) (size : Nat) : Nat :=
  ((List.range size).filter fun (i : Nat) =>
    decide (self.SexOfIndividual (Int.ofNat i) = IndividualSex.kFemale)).length

/-- A sexual subpopulation for the examples: 5 parents, the first 2 of them female. -/
def exampleSubpopulation : Subpopulation :=
  { child_generation_valid := false, parent_subpop_size_ := 5, parent_first_male_index_ := 2,
    child_subpop_size_ := 5, child_first_male_index_ := 3, sex_enabled_ := true }

/-! ### The remaining constants of `EidosValueMask` (`eidos_value.h`) -/

/-- The constant `kEidosValueMaskNone`. -/
def kEidosValueMaskNone : Nat := 0x00000000

/-- The mask bit of NULL. -/
def kEidosValueMaskNULL : Nat := 0x00000001

/-- The mask bit of logicals. -/
def kEidosValueMaskLogical : Nat := 0x00000002

/-- The mask bit of strings. -/
def kEidosValueMaskString : Nat := 0x00000010

/-- The mask flag of optional arguments. -/
def kEidosValueMaskOptional : Nat := 0x80000000

/-- The mask that strips the two flags. -/
def kEidosValueMaskFlagStrip : Nat := 0x3FFFFFFF

/-- The mask `kEidosValueMaskNumeric`: "integer or float". -/
def kEidosValueMaskNumeric : Nat := kEidosValueMaskInt ||| kEidosValueMaskFloat

/-- The mask `kEidosValueMaskLogicalEquiv`: "logical, integer, or float". -/
def kEidosValueMaskLogicalEquiv : Nat :=
  kEidosValueMaskLogical ||| kEidosValueMaskInt ||| kEidosValueMaskFloat

/-- The mask `kEidosValueMaskAnyBase`: "any type except object". -/
def kEidosValueMaskAnyBase : Nat :=
  kEidosValueMaskNULL ||| kEidosValueMaskLogicalEquiv ||| kEidosValueMaskString

/-- The mask `kEidosValueMaskAny`: "any type including object". -/
def kEidosValueMaskAny : Nat := kEidosValueMaskAnyBase ||| kEidosValueMaskObject

/-- The mask bit that the header gives to each kind. -/
def kindBit : EidosValueType → Nat
  | EidosValueType.kValueNULL => kEidosValueMaskNULL
  | EidosValueType.kValueLogical => kEidosValueMaskLogical
  | EidosValueType.kValueInt => kEidosValueMaskInt
  | EidosValueType.kValueFloat => kEidosValueMaskFloat
  | EidosValueType.kValueString => kEidosValueMaskString
  | EidosValueType.kValueObject => kEidosValueMaskObject

/-- Tells whether the mask `m` permits the kind `k`: the bit of `k` is set in `m`. -/
def permits (m : Nat) (k : EidosValueType) : Bool := decide (m &&& kindBit k ≠ 0)

/-! ### Overflow-detecting integer operations (`eidos_global.h`) -/

/-- The least value of `int64_t`. -/
def INT64_MIN : Int := -(2 ^ 63)

/-- The greatest value of `int64_t`. -/
def INT64_MAX : Int := 2 ^ 63 - 1

/-- Tells whether the integer `x` is a value of `int64_t`. -/
def inInt64 (x : Int) : Bool := decide (INT64_MIN ≤ x) && decide (x ≤ INT64_MAX)

/-- The value of `int64_t` that is congruent to `x` modulo `2 ^ 64`. -/
def wrap64 (x : Int) : Int := (x + 2 ^ 63) % 2 ^ 64 - 2 ^ 63

/-- The compiler built-in `__builtin_add_overflow` (and likewise `sub`, `mul`) on `int64_t`
operands with an `int64_t` destination, as the compiler manuals that the header cites define
it: the operation is carried out in infinite precision, the result wrapped to the type of the
destination is stored, and `true` is returned exactly when the stored value differs from the
infinite-precision result.  `exact` is that infinite-precision result; the pair is the value
stored through `c` and the value returned. -/
def builtin_overflow (exact : Int) : Int × Bool :=
  (wrap64 exact, decide (wrap64 exact ≠ exact))

/-- Embeds `Eidos_add_overflow(a, b, c)` where the built-ins exist. -/
def Eidos_add_overflow (a b : Int) : Int × Bool := builtin_overflow (a + b)

/-- Embeds `Eidos_sub_overflow(a, b, c)` where the built-ins exist. -/
def Eidos_sub_overflow (a b : Int) : Int × Bool := builtin_overflow (a - b)

/-- Embeds `Eidos_mul_overflow(a, b, c)` where the built-ins exist. -/
def Eidos_mul_overflow (a b : Int) : Int × Bool := builtin_overflow (a * b)

/-- What an implementation makes of a signed `int64_t` operation whose exact result is not
representable: C++ leaves it undefined.  The function gets the exact result and gives the
value that the expression has, or `none` where the operation does not yield a value. -/
abbrev SignedOverflow := Int → Option Int

/-- The implementation on which signed arithmetic wraps in two's complement. -/
def wrapping : SignedOverflow := fun x => some (wrap64 x)

/-- The implementation on which signed overflow traps. -/
def trapping : SignedOverflow := fun _ => none

/-- The C++ expression `(a) op (b)` on `int64_t` operands, `exact` being its mathematical
result: that result when it is representable, what the implementation makes of it otherwise. -/
def int64_arith (impl : SignedOverflow) (exact : Int) : Option Int :=
  if inInt64 exact = true then some exact else impl exact

/-- Embeds the fallback `Eidos_add_overflow(a, b, c)`, that is `(*(c)=(a)+(b), false)`: the
value stored through `c` and the value of the comma expression. -/
def Eidos_add_overflow_fallback (impl : SignedOverflow) (a b : Int) : Option (Int × Bool) :=
  (int64_arith impl (a + b)).map fun c => (c, false)

/-- Embeds the fallback `Eidos_sub_overflow(a, b, c)`, that is `(*(c)=(a)-(b), false)`. -/
def Eidos_sub_overflow_fallback (impl : SignedOverflow) (a b : Int) : Option (Int × Bool) :=
  (int64_arith impl (a - b)).map fun c => (c, false)

/-- Embeds the fallback `Eidos_mul_overflow(a, b, c)`, that is `(*(c)=(a)*(b), false)`. -/
def Eidos_mul_overflow_fallback (impl : SignedOverflow) (a b : Int) : Option (Int × Bool) :=
  (int64_arith impl (a * b)).map fun c => (c, false)

/-! ### Drawing parents (`subpopulation.h`) -/

/-- The conversion of an integer to `int` (32 bits, two's complement). -/
def static_cast_int (x : Int) : Int := (x + 2 ^ 31) % 2 ^ 32 - 2 ^ 31

/-- The conversion of an `int` to `unsigned long` (64 bits), as happens to the argument of
`gsl_rng_uniform_int` and to an `int` added to an `unsigned long`. -/
def to_unsigned_long (x : Int) : Nat := (x % 2 ^ 64).toNat

/-- Tells whether the integer `x` is a value of `int`. -/
def inInt (x : Int) : Bool := decide (-(2 ^ 31) ≤ x) && decide (x < 2 ^ 31)

/-- Embeds `Subpopulation::DrawParentEqualProbability`.  `gsl_rng_uniform_int` stands for one
call of the generator on `gEidos_rng` with the given bound; `DEBUG` is the preprocessor flag;
`none` is the termination raised in the debug build. -/
def Subpopulation.DrawParentEqualProbability (DEBUG : Bool) (gsl_rng_uniform_int : Nat → Nat)
    (self : Subpopulation) : Option Int :=
  if DEBUG = true ∧ self.sex_enabled_ = true then none
  else
    some (static_cast_int (gsl_rng_uniform_int (to_unsigned_long self.parent_subpop_size_)))

/-- Embeds `Subpopulation::DrawFemaleParentEqualProbability`. -/
def Subpopulation.DrawFemaleParentEqualProbability (DEBUG : Bool)
    (gsl_rng_uniform_int : Nat → Nat) (self : Subpopulation) : Option Int :=
  if DEBUG = true ∧ ¬ (self.sex_enabled_ = true) then none
  else
    some (static_cast_int
      (gsl_rng_uniform_int (to_unsigned_long self.parent_first_male_index_)))

/-- Embeds `Subpopulation::DrawMaleParentEqualProbability`: the `int` difference is converted
to the `unsigned long` bound, the draw and the converted index are added as `unsigned long`,
and the sum is converted to `int`. -/
def Subpopulation.DrawMaleParentEqualProbability (DEBUG : Bool)
    (gsl_rng_uniform_int : Nat → Nat) (self : Subpopulation) : Option Int :=
  if DEBUG = true ∧ ¬ (self.sex_enabled_ = true) then none
  else
    some (static_cast_int
      (((gsl_rng_uniform_int
          (to_unsigned_long
            (static_cast_int (self.parent_subpop_size_ - self.parent_first_male_index_))) +
        to_unsigned_long self.parent_first_male_index_) % 2 ^ 64 : Nat) : Int))

/-- A generator for the examples: the draw for the bound `n` is `n - 1`. -/
def exampleRng : Nat → Nat := fun n => n - 1

/-- The relation between the exact result `exact` of one operation, the pair `builtin` that
the built-in definition gives and what the fallback definition gives on each implementation:
the built-in flag is set exactly when `exact` is no `int64_t` value; the built-in stores a
value of `int64_t` congruent to `exact` modulo `2 ^ 64`; where `exact` is an `int64_t` value
both definitions store it and give `false`; where it is not, the fallback gives what the
implementation `impl` makes of the overflow, with the flag `false`; and on the wrapping
implementation the fallback stores what the built-in stores, with the flag `false`, which is
the flag of the built-in exactly when `exact` is an `int64_t` value. -/
def OverflowSpec (exact : Int) (builtin : Int × Bool)
    (fallback : SignedOverflow → Option (Int × Bool)) (impl : SignedOverflow) : Prop :=
  (builtin.2 = true ↔ inInt64 exact = false) ∧
  inInt64 builtin.1 = true ∧ (builtin.1 - exact) % 2 ^ 64 = 0 ∧
  (inInt64 exact = true → builtin = (exact, false) ∧ fallback impl = some (exact, false)) ∧
  (inInt64 exact = false → fallback impl = (impl exact).map fun c => (c, false)) ∧
  fallback wrapping = some (builtin.1, false) ∧
  ((fallback wrapping).map Prod.snd = some builtin.2 ↔ inInt64 exact = true)

/-- An asexual subpopulation for the examples: 5 parents, the index of the first male left at
`INT_MAX`, as the header initialises it. -/
def exampleAsexualSubpopulation : Subpopulation :=
  { child_generation_valid := false, parent_subpop_size_ := 5,
    parent_first_male_index_ := 2147483647, child_subpop_size_ := 5,
    child_first_male_index_ := 2147483647, sex_enabled_ := false }

/-! ### `detach` and the free function `swap` (`eidos_intrusive_ptr.h`) -/

/-- Embeds `detach()`: `T * ret = px; px = 0; return ret;`.  The result pairs the pointer
returned with the state after the call. -/
def detach (s : State) (this : Nat) : Option (Addr × State) :=
  match s.px this with
  | none => none
  | some ret => some (ret, s.setPx this 0)

/-- Embeds the free function `swap(lhs, rhs)`: `lhs.swap(rhs)`. -/
def swap (s : State) (lhs rhs : Nat) : Option State := step s (Op.swap lhs rhs)

/-! ### `stack_allocated` (`eidos_value.h`) -/

/-- Embeds `EidosValue::stack_allocated()`: `intrusive_ref_count++`, on the value at `p`.
Touching a deleted object is undefined, rendered as `none`.  The member function is no hook
call, so the log is unchanged. -/
def stack_allocated (s : State) (p : Addr) : Option State :=
  if s.deleted p then none
  else some { s with
    intrusive_ref_count :=
      Function.update s.intrusive_ref_count p ((s.intrusive_ref_count p + 1) % UINT_MOD) }

/-- The state reached from `State.init` once `stack_allocated()` has been called on the
value `p` and then `m` handles to it have been constructed, the first from the raw pointer
and the others by copy. -/
def builtStack (p : Addr) (m : Nat) : State :=
  { intrusive_ref_count := Function.update (fun _ => 0) p ((m + 1) % UINT_MOD)
    deleted := fun _ => false
    handles := List.replicate m (some p)
    log := List.replicate m (Event.add_ref p) }

/-! ## Theorems -/

theorem count_set_add (l : List (Option Addr)) (i : Nat) (old new x : Option Addr)
    (h : l.get? i = some old) :
    (l.set i new).count x + (if old = x then 1 else 0) = l.count x + (if new = x then 1 else 0) := by
  induction l generalizing i with
  | nil => simp at h
  | cons a l ih =>
    cases i with
    | zero =>
      simp at h
      subst h
      simp [List.count_cons]
      omega
    | succ i =>
      simp at h
      have := ih i (by simpa using h)
      simp [List.count_cons]
      omega

theorem Bal.inv {s : State} (h : Bal s []) : Inv s := by
  intro r hr
  obtain ⟨h1, h2⟩ := h r hr
  exact ⟨fun hd => by simpa using (h1 hd).2, fun hd => by simpa using h2 hd⟩

theorem Bal.drop_null {s : State} {tmps : List Addr} (h : Bal s (0 :: tmps)) : Bal s tmps := by
  intro r hr
  have h0 : (0 : Addr) ≠ r := fun e => hr e.symm
  simpa [List.count_cons, h0] using h r hr

theorem Bal.add_null {s : State} {tmps : List Addr} (h : Bal s tmps) : Bal s (0 :: tmps) := by
  intro r hr
  have h0 : (0 : Addr) ≠ r := fun e => hr e.symm
  simpa [List.count_cons, h0] using h r hr

theorem px_eq_some {s : State} {i : Nat} {v : Addr} (h : s.px i = some v) :
    s.handles.get? i = some (some v) := by
  unfold State.px at h
  cases hg : s.handles.get? i with
  | none => rw [hg] at h; simp at h
  | some o => rw [hg] at h; simp at h; rw [h]

theorem refs_pos_of_px {s : State} {i : Nat} {v : Addr} (h : s.px i = some v) :
    1 ≤ s.refs v := by
  have hg := px_eq_some h
  have hm : some v ∈ s.handles := List.get?_mem hg
  exact List.count_pos_iff.mpr hm

theorem Bal.setPx {s : State} {tmps : List Addr} {i : Nat} {v old : Addr}
    (h : Bal s (v :: tmps)) (hi : s.px i = some old) : Bal (s.setPx i v) (old :: tmps) := by
  intro r hr
  have hc := count_set_add s.handles i (some old) (some v) (some r) (px_eq_some hi)
  have h1 := h r hr
  simp only [State.setPx, State.refs, List.count_cons, Option.some.injEq, beq_iff_eq] at hc h1 ⊢
  constructor
  · intro hd
    have := h1.1 hd
    refine ⟨this.1, ?_⟩
    omega
  · intro hd
    have := h1.2 hd
    omega

theorem Bal.push {s : State} {tmps : List Addr} {v : Addr} (h : Bal s (v :: tmps)) :
    Bal { s with handles := s.handles ++ [some v] } tmps := by
  intro r hr
  have h1 := h r hr
  simp only [State.refs, List.count_cons, List.count_append, List.count_nil,
    Option.some.injEq, beq_iff_eq] at h1 ⊢
  constructor
  · intro hd
    have := h1.1 hd
    refine ⟨this.1, ?_⟩
    omega
  · intro hd
    have := h1.2 hd
    omega

theorem Bal.kill {s : State} {tmps : List Addr} {i : Nat} {old : Addr}
    (h : Bal s tmps) (hi : s.px i = some old) :
    Bal { s with handles := s.handles.set i none } (old :: tmps) := by
  intro r hr
  have hc := count_set_add s.handles i (some old) none (some r) (px_eq_some hi)
  have h1 := h r hr
  simp only [State.refs, List.count_cons, Option.some.injEq, beq_iff_eq, reduceCtorEq,
    if_false] at hc h1 ⊢
  constructor
  · intro hd
    have := h1.1 hd
    refine ⟨this.1, ?_⟩
    omega
  · intro hd
    have := h1.2 hd
    omega

theorem add_ref_bal {s : State} {tmps : List Addr} {p : Addr} (h : Bal s tmps) (hp : p ≠ 0)
    (hd : s.deleted p = false) (hc : s.intrusive_ref_count p + 1 < UINT_MOD) :
    ∃ s1, Eidos_intrusive_ptr_add_ref s p = some s1 ∧ Bal s1 (p :: tmps) ∧
      s1.handles = s.handles ∧ s1.deleted = s.deleted ∧
      (∀ r, s.intrusive_ref_count r ≤ s1.intrusive_ref_count r) := by
  refine ⟨{ s with
    intrusive_ref_count := Function.update s.intrusive_ref_count p (s.intrusive_ref_count p + 1)
    log := s.log ++ [Event.add_ref p] }, ?_, ?_, rfl, rfl, ?_⟩
  · simp [Eidos_intrusive_ptr_add_ref, hd, Nat.mod_eq_of_lt hc]
  · intro r hr
    have h1 := h r hr
    by_cases hrp : r = p
    · subst hrp
      simp only [State.refs, List.count_cons, Function.update_same, beq_self_eq_true,
        if_true] at h1 ⊢
      refine ⟨fun _ => ?_, fun hd2 => by rw [hd] at hd2; cases hd2⟩
      have := h1.1 hd
      exact ⟨hc, by omega⟩
    · have hpr : ¬ (p = r) := fun e => hrp e.symm
      simpa [State.refs, List.count_cons, Function.update_noteq hrp, hpr] using h1
  · intro r
    by_cases hrp : r = p
    · subst hrp
      simp only [Function.update_same]
      omega
    · simp [Function.update_noteq hrp]

theorem release_bal {s : State} {tmps : List Addr} {p : Addr} (h : Bal s (p :: tmps))
    (hp : p ≠ 0) :
    ∃ s1, Eidos_intrusive_ptr_release s p = some s1 ∧ Bal s1 tmps ∧
      s1.handles = s.handles ∧
      (∀ r, s1.deleted r = true ↔ (s.deleted r = true ∨ (r = p ∧ s.intrusive_ref_count p = 1))) := by
  have hp1 := h p hp
  have hd : s.deleted p = false := by
    cases hdp : s.deleted p with
    | false => rfl
    | true =>
      have := hp1.2 hdp
      simp [List.count_cons] at this
  obtain ⟨hlt, hcnt⟩ := hp1.1 hd
  simp only [List.count_cons, beq_self_eq_true, if_true] at hcnt
  have hge : 1 ≤ s.intrusive_ref_count p := by omega
  have hmod : (s.intrusive_ref_count p + (UINT_MOD - 1)) % UINT_MOD = s.intrusive_ref_count p - 1 := by
    have e : s.intrusive_ref_count p + (UINT_MOD - 1) = (s.intrusive_ref_count p - 1) + UINT_MOD := by
      have : 0 < UINT_MOD := by decide
      omega
    rw [e, Nat.add_mod_right, Nat.mod_eq_of_lt (by omega)]
  by_cases hc1 : s.intrusive_ref_count p = 1
  · refine ⟨{ s with
      intrusive_ref_count := Function.update s.intrusive_ref_count p 0
      deleted := Function.update s.deleted p true
      log := s.log ++ [Event.release p] ++ [Event.delete p] }, ?_, ?_, rfl, ?_⟩
    · have hm0 : (s.intrusive_ref_count p + (UINT_MOD - 1)) % UINT_MOD = 0 := by
        rw [hmod, hc1]
      simp [Eidos_intrusive_ptr_release, hd, hm0]
    · intro r hr
      by_cases hrp : r = p
      · subst hrp
        refine ⟨fun hf => ?_, fun _ => ?_⟩
        · simp at hf
        · simp only [State.refs] at hcnt ⊢
          omega
      · have hpr : ¬ (p = r) := fun e => hrp e.symm
        simpa [State.refs, List.count_cons, Function.update_noteq hrp, hpr] using h r hr
    · intro r
      by_cases hrp : r = p
      · subst hrp
        simp [hc1]
      · simp [Function.update_noteq hrp, hrp]
  · refine ⟨{ s with
      intrusive_ref_count := Function.update s.intrusive_ref_count p (s.intrusive_ref_count p - 1)
      log := s.log ++ [Event.release p] }, ?_, ?_, rfl, ?_⟩
    · have hne : ¬ (s.intrusive_ref_count p - 1 = 0) := by omega
      simp [Eidos_intrusive_ptr_release, hd, hmod, hne]
    · intro r hr
      by_cases hrp : r = p
      · subst hrp
        refine ⟨fun _ => ?_, fun hf => ?_⟩
        · simp only [State.refs, Function.update_same] at hcnt ⊢
          exact ⟨by omega, by omega⟩
        · simp only [hd] at hf
          cases hf
      · have hpr : ¬ (p = r) := fun e => hrp e.symm
        simpa [State.refs, List.count_cons, Function.update_noteq hrp, hpr] using h r hr
    · intro r
      simp [hc1]

/-- Deletion exactness for an operation that releases nothing: the deleted flags are those
of the start state and no count went down. -/
theorem delExact_of_mono {s s1 : State} (h : Bal s []) (h1 : Bal s1 [])
    (hd : s1.deleted = s.deleted)
    (hm : ∀ r, s.intrusive_ref_count r ≤ s1.intrusive_ref_count r) : DelExact s s1 := by
  intro r hr
  constructor
  · rintro ⟨ha, hb⟩
    rw [hd, ha] at hb
    cases hb
  · rintro ⟨ha, hb⟩
    exfalso
    cases hdr : s.deleted r with
    | true =>
      have := (h r hr).2 hdr
      simp at this
      omega
    | false =>
      have e1 := ((h r hr).1 hdr).2
      have e2 := ((h1 r hr).1 (by rw [hd]; exact hdr)).2
      have := hm r
      simp at e1 e2
      omega

/-- Deletion exactness for an operation that ends by releasing `p`, a pointer that a handle
held in the start state `s`; `s1` is the state right before the release. -/
theorem release_delExact {s s1 : State} {p : Addr} (h : Bal s []) (h1 : Bal s1 [p])
    (hp : p ≠ 0) (hd : s1.deleted = s.deleted)
    (hm : ∀ r, s.intrusive_ref_count r ≤ s1.intrusive_ref_count r)
    (hheld : 1 ≤ s.refs p) :
    ∃ s2, Eidos_intrusive_ptr_release s1 p = some s2 ∧ Bal s2 [] ∧
      s2.handles = s1.handles ∧ DelExact s s2 := by
  obtain ⟨s2, hrel, hbal, hh, hdel⟩ := release_bal h1 hp
  refine ⟨s2, hrel, hbal, hh, ?_⟩
  have hrefs : ∀ r, s2.refs r = s1.refs r := fun r => by simp [State.refs, hh]
  intro r hr
  constructor
  · rintro ⟨ha, hb⟩
    have hb2 := (hdel r).mp hb
    rw [hd, ha] at hb2
    rcases hb2 with hb2 | ⟨hrp, hc1⟩
    · cases hb2
    · subst hrp
      have z := (hbal r hr).2 hb
      simp at z
      have e1 := ((h r hr).1 ha).2
      simp at e1
      have := hm r
      exact ⟨by omega, z⟩
  · rintro ⟨ha, hb⟩
    have hdr : s.deleted r = false := by
      cases hdr : s.deleted r with
      | false => rfl
      | true =>
        have := (h r hr).2 hdr
        simp at this
        omega
    refine ⟨hdr, ?_⟩
    have e1 := ((h r hr).1 hdr).2
    simp at e1
    have e2 := ((h1 r hr).1 (by rw [hd]; exact hdr))
    rw [hrefs] at hb
    simp only [List.count_cons, List.count_nil, beq_iff_eq] at e2
    have := hm r
    by_cases hpr : p = r
    · subst hpr
      simp at e2
      exact (hdel p).mpr (Or.inr ⟨rfl, by omega⟩)
    · simp [hpr] at e2
      omega

theorem px_setPx {s : State} {i : Nat} {a : Addr} (v : Addr) (j : Nat) (h : s.px i = some a) :
    (s.setPx i v).px j = if j = i then some v else s.px j := by
  have hg := px_eq_some h
  have hlt : i < s.handles.length := by
    rcases Nat.lt_or_ge i s.handles.length with h1 | h1
    · exact h1
    · rw [List.get?_eq_none.mpr h1] at hg
      cases hg
  unfold State.px State.setPx
  by_cases hji : j = i
  · subst hji
    simp [List.getElem?_set, hlt]
  · have hij : ¬ (i = j) := fun e => hji e.symm
    simp [List.getElem?_set, hji, hij]

theorem release_handles (s : State) (hs : List (Option Addr)) (p : Addr) :
    Eidos_intrusive_ptr_release { s with handles := hs } p =
      (Eidos_intrusive_ptr_release s p).map fun s1 => { s1 with handles := hs } := by
  unfold Eidos_intrusive_ptr_release
  by_cases hd : s.deleted p = true
  · simp [hd]
  · by_cases hc : (s.intrusive_ref_count p + (UINT_MOD - 1)) % UINT_MOD = 0
    · simp [hd, hc]
    · simp [hd, hc]

theorem release_keeps_handles {s s1 : State} {p : Addr}
    (h : Eidos_intrusive_ptr_release s p = some s1) : s1.handles = s.handles := by
  unfold Eidos_intrusive_ptr_release at h
  by_cases hd : s.deleted p = true
  · simp [hd] at h
  · by_cases hc : (s.intrusive_ref_count p + (UINT_MOD - 1)) % UINT_MOD = 0
    · simp [hd, hc] at h
      rw [← h]
    · simp [hd, hc] at h
      rw [← h]

/-- The shared tail of the assignments and of `reset`: the temporary holding `tmp` is
swapped with `*this` and destroyed. -/
theorem tmp_swap_dtor_spec {s s1 : State} {this : Nat} {tmp old : Addr} (h : Bal s [])
    (h1 : Bal s1 [tmp]) (hd : s1.deleted = s.deleted)
    (hm : ∀ r, s.intrusive_ref_count r ≤ s1.intrusive_ref_count r)
    (hpx : s1.px this = some old) (hheld : old ≠ 0 → 1 ≤ s.refs old) :
    ∃ s2, tmp_swap_dtor s1 this tmp = some s2 ∧ Bal s2 [] ∧
      s2.handles = s1.handles.set this (some tmp) ∧ DelExact s s2 := by
  have hb : Bal (s1.setPx this tmp) [old] := Bal.setPx h1 hpx
  unfold tmp_swap_dtor
  rw [hpx]
  by_cases ho : old = 0
  · subst ho
    refine ⟨s1.setPx this tmp, by simp [dtor_px], hb.drop_null, rfl, ?_⟩
    exact delExact_of_mono h hb.drop_null hd hm
  · obtain ⟨s2, hrel, hbal, hh, hde⟩ :=
      @release_delExact s (s1.setPx this tmp) old h hb ho hd hm (hheld ho)
    exact ⟨s2, by simpa [dtor_px, ho] using hrel, hbal, hh, hde⟩

theorem isLive_iff {s : State} {i : Nat} : isLive s i = true ↔ ∃ v, s.px i = some v := by
  unfold isLive
  cases s.px i <;> simp

theorem not_deleted_of_held {s : State} {tmps : List Addr} {p : Addr} (h : Bal s tmps)
    (hp : p ≠ 0) (hheld : 1 ≤ s.refs p) : s.deleted p = false := by
  cases hd : s.deleted p with
  | false => rfl
  | true =>
    have := (h p hp).2 hd
    omega

/-- The first half of a counted construction or assignment: taking the new reference. -/
theorem ctor_copy_px_spec {s : State} {v : Addr} (h : Bal s [])
    (hd : v ≠ 0 → s.deleted v = false) (hw : noWrap s v = true) :
    ∃ s1, ctor_copy_px s v = some s1 ∧ Bal s1 [v] ∧ s1.handles = s.handles ∧
      s1.deleted = s.deleted ∧ (∀ r, s.intrusive_ref_count r ≤ s1.intrusive_ref_count r) := by
  unfold ctor_copy_px
  by_cases hv : v = 0
  · subst hv
    exact ⟨s, by simp, h.add_null, rfl, rfl, fun _ => Nat.le_refl _⟩
  · have hc : s.intrusive_ref_count v + 1 < UINT_MOD := by
      simpa [noWrap, hv] using hw
    obtain ⟨s1, h1, h2, h3, h4, h5⟩ := add_ref_bal h hv (hd hv) hc
    exact ⟨s1, by simpa [hv] using h1, h2, h3, h4, h5⟩

theorem ctor_raw_px_true (s : State) (p : Addr) : ctor_raw_px s p true = ctor_copy_px s p := by
  simp [ctor_raw_px, ctor_copy_px]

theorem step_ctor_raw {s : State} {p : Addr} (h : Bal s [])
    (ha : admissible s (Op.ctor_raw p true) = true) :
    ∃ s1, step s (Op.ctor_raw p true) = some s1 ∧ Bal s1 [] ∧ DelExact s s1 := by
  simp only [admissible, wellDefined, gains, rawOk, Bool.and_eq_true, Bool.or_eq_true,
    decide_eq_true_eq, Bool.not_eq_true'] at ha
  obtain ⟨s1, h1, h2, -, h4, h5⟩ :=
    ctor_copy_px_spec (v := p) h (fun hp => by simpa [hp] using ha.1) ha.2
  refine ⟨{ s1 with handles := s1.handles ++ [some p] }, ?_, h2.push, ?_⟩
  · simp [step, ctor_raw_px_true, h1]
  · exact delExact_of_mono h h2.push h4 h5

theorem step_ctor_copy {s : State} {rhs : Nat} (h : Bal s [])
    (ha : admissible s (Op.ctor_copy rhs) = true) :
    ∃ s1, step s (Op.ctor_copy rhs) = some s1 ∧ Bal s1 [] ∧ DelExact s s1 := by
  simp only [admissible, wellDefined, gains, Bool.and_eq_true] at ha
  obtain ⟨v, hv⟩ := isLive_iff.mp ha.1
  rw [hv] at ha
  obtain ⟨s1, h1, h2, -, h4, h5⟩ :=
    ctor_copy_px_spec (v := v) h (fun hp => not_deleted_of_held h hp (refs_pos_of_px hv)) ha.2
  refine ⟨{ s1 with handles := s1.handles ++ [some v] }, ?_, h2.push, ?_⟩
  · simp [step, hv, h1]
  · exact delExact_of_mono h h2.push h4 h5

theorem step_ctor_move {s : State} {rhs : Nat} (h : Bal s [])
    (ha : admissible s (Op.ctor_move rhs) = true) :
    ∃ s1, step s (Op.ctor_move rhs) = some s1 ∧ Bal s1 [] ∧ DelExact s s1 := by
  simp only [admissible, wellDefined, gains, Bool.and_eq_true] at ha
  obtain ⟨v, hv⟩ := isLive_iff.mp ha.1
  have hb : Bal (s.setPx rhs 0) [v] := Bal.setPx h.add_null hv
  have hb2 := hb.push
  refine ⟨{ s with handles := (s.handles ++ [some v]).set rhs (some 0) }, ?_, ?_, ?_⟩
  · simp [step, hv, State.setPx]
  · have hlt : rhs < s.handles.length := by
      have hg := px_eq_some hv
      rcases Nat.lt_or_ge rhs s.handles.length with h1 | h1
      · exact h1
      · rw [List.get?_eq_none.mpr h1] at hg
        cases hg
    have e : (s.handles ++ [some v]).set rhs (some 0) = s.handles.set rhs (some 0) ++ [some v] := by
      rw [List.set_append_left _ _ hlt]
    rw [e]
    exact hb2
  · have hlt : rhs < s.handles.length := by
      have hg := px_eq_some hv
      rcases Nat.lt_or_ge rhs s.handles.length with h1 | h1
      · exact h1
      · rw [List.get?_eq_none.mpr h1] at hg
        cases hg
    have e : (s.handles ++ [some v]).set rhs (some 0) = s.handles.set rhs (some 0) ++ [some v] := by
      rw [List.set_append_left _ _ hlt]
    rw [e]
    exact delExact_of_mono h hb2 rfl (fun _ => Nat.le_refl _)

theorem step_assign_copy {s : State} {this rhs : Nat} (h : Bal s [])
    (ha : admissible s (Op.assign_copy this rhs) = true) :
    ∃ s1, step s (Op.assign_copy this rhs) = some s1 ∧ Bal s1 [] ∧ DelExact s s1 := by
  simp only [admissible, wellDefined, gains, Bool.and_eq_true] at ha
  obtain ⟨old, hold⟩ := isLive_iff.mp ha.1.1
  obtain ⟨v, hv⟩ := isLive_iff.mp ha.1.2
  rw [hv] at ha
  obtain ⟨s1, h1, h2, h3, h4, h5⟩ :=
    ctor_copy_px_spec (v := v) h (fun hp => not_deleted_of_held h hp (refs_pos_of_px hv)) ha.2
  have hpx : s1.px this = some old := by simpa [State.px, h3] using hold
  obtain ⟨s2, g1, g2, -, g4⟩ :=
    tmp_swap_dtor_spec h h2 h4 h5 hpx (fun _ => refs_pos_of_px hold)
  exact ⟨s2, by simp [step, hv, h1, g1], g2, g4⟩

theorem step_assign_move {s : State} {this rhs : Nat} (h : Bal s [])
    (ha : admissible s (Op.assign_move this rhs) = true) :
    ∃ s1, step s (Op.assign_move this rhs) = some s1 ∧ Bal s1 [] ∧ DelExact s s1 := by
  simp only [admissible, wellDefined, gains, Bool.and_eq_true] at ha
  obtain ⟨old, hold⟩ := isLive_iff.mp ha.1.1
  obtain ⟨v, hv⟩ := isLive_iff.mp ha.1.2
  have hb : Bal (s.setPx rhs 0) [v] := Bal.setPx h.add_null hv
  have hpx : (s.setPx rhs 0).px this = some (if this = rhs then 0 else old) := by
    rw [px_setPx 0 this hv]
    by_cases e : this = rhs
    · simp [e]
    · simp [e, hold]
  obtain ⟨s2, g1, g2, -, g4⟩ :=
    @tmp_swap_dtor_spec s (s.setPx rhs 0) this v _ h hb rfl (fun _ => Nat.le_refl _) hpx (by
      intro hne
      by_cases e : this = rhs
      · simp [e] at hne
      · simpa [e] using refs_pos_of_px hold)
  exact ⟨s2, by simp [step, hv, g1], g2, g4⟩

theorem step_reset {s : State} {this : Nat} (h : Bal s [])
    (ha : admissible s (Op.reset this) = true) :
    ∃ s1, step s (Op.reset this) = some s1 ∧ Bal s1 [] ∧ DelExact s s1 := by
  simp only [admissible, wellDefined, gains, Bool.and_eq_true] at ha
  obtain ⟨old, hold⟩ := isLive_iff.mp ha.1
  obtain ⟨s2, g1, g2, -, g4⟩ :=
    tmp_swap_dtor_spec h h.add_null rfl (fun _ => Nat.le_refl _) hold
      (fun _ => refs_pos_of_px hold)
  exact ⟨s2, by simp [step, g1], g2, g4⟩

theorem step_reset_raw {s : State} {this : Nat} {p : Addr} (h : Bal s [])
    (ha : admissible s (Op.reset_raw this p true) = true) :
    ∃ s1, step s (Op.reset_raw this p true) = some s1 ∧ Bal s1 [] ∧ DelExact s s1 := by
  simp only [admissible, wellDefined, gains, rawOk, Bool.and_eq_true, Bool.or_eq_true,
    decide_eq_true_eq, Bool.not_eq_true'] at ha
  obtain ⟨old, hold⟩ := isLive_iff.mp ha.1.1
  obtain ⟨s1, h1, h2, h3, h4, h5⟩ :=
    ctor_copy_px_spec (v := p) h (fun hp => by simpa [hp] using ha.1.2) ha.2
  have hpx : s1.px this = some old := by simpa [State.px, h3] using hold
  obtain ⟨s2, g1, g2, -, g4⟩ :=
    tmp_swap_dtor_spec h h2 h4 h5 hpx (fun _ => refs_pos_of_px hold)
  exact ⟨s2, by simp [step, ctor_raw_px_true, h1, g1], g2, g4⟩

theorem step_swap {s : State} {this rhs : Nat} (h : Bal s [])
    (ha : admissible s (Op.swap this rhs) = true) :
    ∃ s1, step s (Op.swap this rhs) = some s1 ∧ Bal s1 [] ∧ DelExact s s1 := by
  simp only [admissible, wellDefined, gains, Bool.and_eq_true] at ha
  obtain ⟨tmp, htmp⟩ := isLive_iff.mp ha.1.1
  obtain ⟨r, hr⟩ := isLive_iff.mp ha.1.2
  have hr1 : (s.setPx this r).px rhs = some r := by
    rw [px_setPx r rhs htmp]
    by_cases e : rhs = this
    · simp [e]
    · simp [e, hr]
  have hrefs : ∀ x, ((s.setPx this r).setPx rhs tmp).refs x = s.refs x := by
    intro x
    have c1 := count_set_add s.handles this (some tmp) (some r) (some x) (px_eq_some htmp)
    have c2 := count_set_add (s.setPx this r).handles rhs (some r) (some tmp) (some x)
      (px_eq_some hr1)
    simp only [State.setPx, State.refs] at c1 c2 ⊢
    omega
  have hb : Bal ((s.setPx this r).setPx rhs tmp) [] := by
    intro x hx
    have := h x hx
    rw [hrefs]
    exact this
  exact ⟨_, by simp [step, htmp, hr], hb, delExact_of_mono h hb rfl (fun _ => Nat.le_refl _)⟩

theorem step_dtor {s : State} {this : Nat} (h : Bal s [])
    (ha : admissible s (Op.dtor this) = true) :
    ∃ s1, step s (Op.dtor this) = some s1 ∧ Bal s1 [] ∧ DelExact s s1 := by
  simp only [admissible, wellDefined, gains, Bool.and_eq_true] at ha
  obtain ⟨old, hold⟩ := isLive_iff.mp ha.1
  have hb : Bal { s with handles := s.handles.set this none } [old] := Bal.kill h hold
  by_cases ho : old = 0
  · subst ho
    refine ⟨_, by simp [step, hold, dtor_px], hb.drop_null, ?_⟩
    exact delExact_of_mono h hb.drop_null rfl (fun _ => Nat.le_refl _)
  · obtain ⟨s2, hrel, hbal, hh, hde⟩ :=
      @release_delExact s { s with handles := s.handles.set this none } old h hb ho rfl
        (fun _ => Nat.le_refl _) (refs_pos_of_px hold)
    rw [release_handles] at hrel
    cases hq : Eidos_intrusive_ptr_release s old with
    | none => rw [hq] at hrel; cases hrel
    | some s3 =>
      rw [hq] at hrel
      simp only [Option.map_some', Option.some.injEq] at hrel
      have hk := release_keeps_handles hq
      refine ⟨s2, ?_, hbal, hde⟩
      simp [step, hold, dtor_px, ho, hq, hk, hrel]

/-- One admissible operation from a balanced state succeeds, keeps the balance, and deletes
a referent exactly when its number of handles goes from 1 to 0. -/
theorem step_spec {s : State} {op : Op} (h : Bal s []) (ha : admissible s op = true) :
    ∃ s1, step s op = some s1 ∧ Bal s1 [] ∧ DelExact s s1 := by
  cases op with
  | ctor_default => simp [admissible, wellDefined] at ha
  | ctor_raw p b =>
    cases b with
    | false => simp [admissible, wellDefined] at ha
    | true => exact step_ctor_raw h ha
  | ctor_copy rhs => exact step_ctor_copy h ha
  | ctor_move rhs => exact step_ctor_move h ha
  | assign_copy this rhs => exact step_assign_copy h ha
  | assign_move this rhs => exact step_assign_move h ha
  | reset this => exact step_reset h ha
  | reset_raw this p b =>
    cases b with
    | false => simp [admissible, wellDefined] at ha
    | true => exact step_reset_raw h ha
  | swap this rhs => exact step_swap h ha
  | detach this => simp [admissible, wellDefined] at ha
  | dtor this => exact step_dtor h ha

theorem bal_init : Bal State.init [] := by
  intro r _
  simp [State.init, State.refs, UINT_MOD]

theorem logInv_init : LogInv State.init := by
  intro r
  simp [State.init]

theorem logInv_add_ref {s s1 : State} {p : Addr} (h : LogInv s)
    (hs : Eidos_intrusive_ptr_add_ref s p = some s1) : LogInv s1 := by
  unfold Eidos_intrusive_ptr_add_ref at hs
  by_cases hd : s.deleted p = true
  · simp [hd] at hs
  · simp [hd] at hs
    subst hs
    intro r
    simpa [List.count_cons] using h r

theorem logInv_release {s s1 : State} {p : Addr} (h : LogInv s)
    (hs : Eidos_intrusive_ptr_release s p = some s1) : LogInv s1 := by
  unfold Eidos_intrusive_ptr_release at hs
  by_cases hd : s.deleted p = true
  · simp [hd] at hs
  · by_cases hc : (s.intrusive_ref_count p + (UINT_MOD - 1)) % UINT_MOD = 0
    · simp [hd, hc] at hs
      subst hs
      intro r
      have := h r
      by_cases hrp : r = p
      · subst hrp
        simp [List.count_cons] at this ⊢
        simpa [hd] using this
      · have hpr : ¬ (p = r) := fun e => hrp e.symm
        simpa [List.count_cons, Function.update_noteq hrp, hpr] using this
    · simp [hd, hc] at hs
      subst hs
      intro r
      simpa [List.count_cons] using h r

theorem logInv_handles {s : State} (hs : List (Option Addr)) (h : LogInv s) :
    LogInv { s with handles := hs } := h

theorem logInv_ctor_copy_px {s s1 : State} {p : Addr} (h : LogInv s)
    (hs : ctor_copy_px s p = some s1) : LogInv s1 := by
  unfold ctor_copy_px at hs
  by_cases hp : p = 0
  · simp [hp] at hs
    subst hs
    exact h
  · simp [hp] at hs
    exact logInv_add_ref h hs

theorem logInv_ctor_raw_px {s s1 : State} {p : Addr} {b : Bool} (h : LogInv s)
    (hs : ctor_raw_px s p b = some s1) : LogInv s1 := by
  unfold ctor_raw_px at hs
  by_cases hp : p ≠ 0 ∧ b = true
  · rw [if_pos hp] at hs
    exact logInv_add_ref h hs
  · rw [if_neg hp] at hs
    cases hs
    exact h

theorem logInv_dtor_px {s s1 : State} {p : Addr} (h : LogInv s)
    (hs : dtor_px s p = some s1) : LogInv s1 := by
  unfold dtor_px at hs
  by_cases hp : p = 0
  · simp [hp] at hs
    subst hs
    exact h
  · simp [hp] at hs
    exact logInv_release h hs

theorem logInv_tmp_swap_dtor {s s1 : State} {this : Nat} {tmp : Addr} (h : LogInv s)
    (hs : tmp_swap_dtor s this tmp = some s1) : LogInv s1 := by
  unfold tmp_swap_dtor at hs
  cases hpx : s.px this with
  | none => rw [hpx] at hs; cases hs
  | some old =>
    rw [hpx] at hs
    exact logInv_dtor_px (s := s.setPx this tmp) h hs

/-- Whatever operation runs, no referent is ever deleted twice. -/
theorem logInv_step {s s1 : State} {op : Op} (h : LogInv s) (hs : step s op = some s1) :
    LogInv s1 := by
  cases op with
  | ctor_default =>
    simp [step] at hs
    subst hs
    exact h
  | ctor_raw p b =>
    simp only [step, Option.map_eq_some'] at hs
    obtain ⟨s2, h2, rfl⟩ := hs
    exact logInv_handles _ (logInv_ctor_raw_px h h2)
  | ctor_copy rhs =>
    simp only [step] at hs
    cases hpx : s.px rhs with
    | none => rw [hpx] at hs; cases hs
    | some v =>
      rw [hpx] at hs
      simp only [Option.map_eq_some'] at hs
      obtain ⟨s2, h2, rfl⟩ := hs
      exact logInv_handles _ (logInv_ctor_copy_px h h2)
  | ctor_move rhs =>
    simp only [step] at hs
    cases hpx : s.px rhs with
    | none => rw [hpx] at hs; cases hs
    | some v =>
      rw [hpx] at hs
      cases hs
      exact h
  | assign_copy this rhs =>
    simp only [step] at hs
    cases hpx : s.px rhs with
    | none => rw [hpx] at hs; cases hs
    | some v =>
      rw [hpx] at hs
      simp only [Option.bind_eq_some] at hs
      obtain ⟨s2, h2, h3⟩ := hs
      exact logInv_tmp_swap_dtor (logInv_ctor_copy_px h h2) h3
  | assign_move this rhs =>
    simp only [step] at hs
    cases hpx : s.px rhs with
    | none => rw [hpx] at hs; cases hs
    | some v =>
      rw [hpx] at hs
      exact logInv_tmp_swap_dtor (s := s.setPx rhs 0) h hs
  | reset this => exact logInv_tmp_swap_dtor h hs
  | reset_raw this p b =>
    simp only [step, Option.bind_eq_some] at hs
    obtain ⟨s2, h2, h3⟩ := hs
    exact logInv_tmp_swap_dtor (logInv_ctor_raw_px h h2) h3
  | swap this rhs =>
    simp only [step] at hs
    cases hpx : s.px this with
    | none => rw [hpx] at hs; cases hs
    | some v =>
      cases hpr : s.px rhs with
      | none => rw [hpx, hpr] at hs; cases hs
      | some w =>
        rw [hpx, hpr] at hs
        cases hs
        exact h
  | detach this =>
    simp only [step] at hs
    cases hpx : s.px this with
    | none => rw [hpx] at hs; cases hs
    | some v =>
      rw [hpx] at hs
      cases hs
      exact h
  | dtor this =>
    simp only [step] at hs
    cases hpx : s.px this with
    | none => rw [hpx] at hs; cases hs
    | some v =>
      rw [hpx] at hs
      simp only [Option.map_eq_some'] at hs
      obtain ⟨s2, h2, rfl⟩ := hs
      exact logInv_handles _ (logInv_dtor_px h h2)

/-- An admissible sequence run from a balanced state: it runs to the end, and every step of
it starts and ends in a state satisfying the invariant, deleting exactly the referent whose
number of handles goes from 1 to 0. -/
theorem run_spec (ops : List Op) : ∀ s : State, Bal s [] → LogInv s → admissibleRun s ops = true →
    (∃ sf, run s ops = some sf ∧ Bal sf [] ∧ LogInv sf) ∧
    ∀ k (hk : k < ops.length), ∃ a b, run s (ops.take k) = some a ∧ step a ops[k] = some b ∧
      Inv a ∧ Inv b ∧ DelExact a b ∧ LogInv b := by
  induction ops with
  | nil =>
    intro s h hl _
    exact ⟨⟨s, rfl, h, hl⟩, fun k hk => by simp at hk⟩
  | cons op ops ih =>
    intro s h hl ha
    simp only [admissibleRun, Bool.and_eq_true] at ha
    obtain ⟨s1, hs1, hb1, hde⟩ := step_spec h ha.1
    have hl1 := logInv_step hl hs1
    have ha2 : admissibleRun s1 ops = true := by
      have := ha.2
      rw [hs1] at this
      exact this
    obtain ⟨⟨sf, hsf, hbf, hlf⟩, hsteps⟩ := ih s1 hb1 hl1 ha2
    refine ⟨⟨sf, by simp [run, hs1, hsf], hbf, hlf⟩, ?_⟩
    intro k hk
    cases k with
    | zero => exact ⟨s, s1, rfl, by simpa using hs1, h.inv, hb1.inv, hde, hl1⟩
    | succ k =>
      obtain ⟨a, b, h1, h2, h3⟩ := hsteps k (by simpa using hk)
      exact ⟨a, b, by simp [run, hs1, h1], by simpa using h2, h3⟩

theorem built_px {p : Addr} {m j : Nat} (hj : j < m) : (built p m).px j = some p := by
  simp [built, State.px, List.getElem?_replicate, hj]

theorem step_built_copy {p : Addr} {m j : Nat} (hp : p ≠ 0) (hj : j < m) :
    step (built p m) (Op.ctor_copy j) = some (built p (m + 1)) := by
  have hmod : (m % UINT_MOD + 1) % UINT_MOD = (m + 1) % UINT_MOD := by
    simp [UINT_MOD]
  simp only [step, built_px hj, ctor_copy_px, ne_eq, hp, not_false_eq_true, if_true]
  simp [built, Eidos_intrusive_ptr_add_ref, hmod, List.replicate_succ', Function.update_idem]

theorem step_init_ctor_raw {p : Addr} (hp : p ≠ 0) :
    step State.init (Op.ctor_raw p true) = some (built p 1) := by
  simp [step, ctor_raw_px, hp, Eidos_intrusive_ptr_add_ref, State.init, built, UINT_MOD]

theorem run_built_copies {p : Addr} (hp : p ≠ 0) (copies : List Nat) :
    ∀ m, (∀ k (hk : k < copies.length), copies[k] < m + k) →
      run (built p m) (copies.map Op.ctor_copy) = some (built p (m + copies.length)) ∧
      wellDefinedRun (built p m) (copies.map Op.ctor_copy) = true := by
  induction copies with
  | nil => intro m _; simp [run, wellDefinedRun]
  | cons c cs ih =>
    intro m h
    have hc : c < m := by simpa using h 0 (by simp)
    have h2 : ∀ k (hk : k < cs.length), cs[k] < (m + 1) + k := by
      intro k hk
      have := h (k + 1) (by simpa using hk)
      simp only [List.getElem_cons_succ] at this
      omega
    obtain ⟨r1, r2⟩ := ih (m + 1) h2
    constructor
    · simp only [List.map_cons, run, step_built_copy hp hc, Option.some_bind, r1, List.length_cons]
      congr 2
      omega
    · simp [wellDefinedRun, wellDefined, isLive, built_px hc, step_built_copy hp hc, r2]

/-- Constructing the handles of `constructAll` from the initial state gives `built`. -/
theorem run_constructAll {p : Addr} (hp : p ≠ 0) (copies : List Nat)
    (h : ∀ k (hk : k < copies.length), copies[k] ≤ k) :
    run State.init (constructAll p copies) = some (built p (copies.length + 1)) ∧
    wellDefinedRun State.init (constructAll p copies) = true := by
  have h2 : ∀ k (hk : k < copies.length), copies[k] < 1 + k := fun k hk => by
    have := h k hk
    omega
  obtain ⟨r1, r2⟩ := run_built_copies hp copies 1 h2
  constructor
  · simp only [constructAll, run, step_init_ctor_raw hp, Option.some_bind, r1]
    congr 2
    omega
  · simp only [constructAll, wellDefinedRun, step_init_ctor_raw hp, r2, Bool.and_true]
    simp [wellDefined, rawOk, State.init]

/-- C1, as amended: from the state where every count is 0, every sequence of counted
operations (construction from a raw pointer with `add_ref = true`, copy and move
construction, copy and move assignment, `reset()`, `reset(p)`, `swap`, destruction), each
applied where it is defined and where its `++intrusive_ref_count` does not wrap, runs to
the end; after every step each referent that is not deleted has a count equal to its number
of live handles, no handle refers to a deleted referent, a referent is deleted at a step
exactly when its number of handles goes from 1 to 0 there, and none is deleted twice. -/
theorem C1_counted_sequence_invariant (ops : List Op)
    (h : admissibleRun State.init ops = true) :
    (∃ sf, run State.init ops = some sf ∧ Inv sf ∧ LogInv sf) ∧
    ∀ k (hk : k < ops.length), ∃ a b, run State.init (ops.take k) = some a ∧
      step a ops[k] = some b ∧ Inv a ∧ Inv b ∧ DelExact a b ∧ LogInv b := by
  obtain ⟨⟨sf, h1, h2, h3⟩, h4⟩ := run_spec ops State.init bal_init logInv_init h
  exact ⟨⟨sf, h1, h2.inv, h3⟩, h4⟩

/-- C1, witness: a program that constructs, copies, moves, assigns, swaps, resets and
destroys handles over two referents is admissible and ends in a state of the invariant. -/
theorem C1_counted_sequence_invariant_witness :
    admissibleRun State.init
      [Op.ctor_raw 1 true, Op.ctor_copy 0, Op.ctor_move 1, Op.ctor_raw 2 true,
       Op.assign_copy 3 0, Op.assign_move 1 2, Op.swap 0 1, Op.reset 3, Op.reset_raw 3 5 true,
       Op.dtor 0, Op.dtor 1, Op.dtor 2, Op.dtor 3] = true ∧
    ∃ sf, run State.init
      [Op.ctor_raw 1 true, Op.ctor_copy 0, Op.ctor_move 1, Op.ctor_raw 2 true,
       Op.assign_copy 3 0, Op.assign_move 1 2, Op.swap 0 1, Op.reset 3, Op.reset_raw 3 5 true,
       Op.dtor 0, Op.dtor 1, Op.dtor 2, Op.dtor 3] = some sf ∧ Inv sf :=
  ⟨by decide,
   (C1_counted_sequence_invariant _ (by decide)).1.imp fun _ hsf => ⟨hsf.1, hsf.2.1⟩⟩

theorem run_copies_of_first (p : Addr) (hp : p ≠ 0) (n : Nat) :
    wellDefinedRun State.init (constructAll p (List.replicate n 0)) = true ∧
    run State.init (constructAll p (List.replicate n 0)) = some (built p (n + 1)) := by
  have hv : ∀ k (hk : k < (List.replicate n 0).length), (List.replicate n 0)[k] ≤ k := by
    intro k hk
    rw [List.getElem_replicate]
    exact Nat.zero_le _
  obtain ⟨r1, r2⟩ := run_constructAll hp (List.replicate n 0) hv
  rw [List.length_replicate] at r1
  exact ⟨r2, r1⟩

theorem built_count (p : Addr) (m : Nat) :
    (built p m).intrusive_ref_count p = m % UINT_MOD := by
  show Function.update (fun _ => 0) p (m % UINT_MOD) p = m % UINT_MOD
  rw [Function.update_same]

theorem built_refs (p : Addr) (m : Nat) : (built p m).refs p = m := by
  show List.count (some p) (List.replicate m (some p)) = m
  rw [List.count_replicate_self]

/-- C1, counterexample: `2 ^ 32` handles to one referent, the first from the raw pointer
and the others copies of it, are all constructed by well-defined operations, and then the
referent, which is not deleted, has count 0 while `2 ^ 32` live handles point to it. -/
theorem C1_counterexample_wrap :
    wellDefinedRun State.init (constructAll 1 (List.replicate 4294967295 0)) = true ∧
    ∃ s, run State.init (constructAll 1 (List.replicate 4294967295 0)) = some s ∧
      s.deleted 1 = false ∧ s.intrusive_ref_count 1 = 0 ∧ s.refs 1 = 4294967296 ∧ ¬ Inv s := by
  obtain ⟨r2, r1⟩ := run_copies_of_first 1 (by decide) 4294967295
  have hc : (built 1 (4294967295 + 1)).intrusive_ref_count 1 = 0 := by
    rw [built_count]
    decide
  have hr : (built 1 (4294967295 + 1)).refs 1 = 4294967296 := by
    rw [built_refs]
  refine ⟨r2, built 1 (4294967295 + 1), r1, rfl, hc, hr, ?_⟩
  intro hinv
  have := (hinv 1 (by decide)).1 rfl
  rw [hc, hr] at this
  exact absurd this (by decide)

theorem run_append (a b : List Op) : ∀ s : State,
    run s (a ++ b) = (run s a).bind fun s1 => run s1 b := by
  induction a with
  | nil => intro s; simp [run]
  | cons op a ih =>
    intro s
    cases h : step s op with
    | none => simp [run, h]
    | some s1 => simp [run, h, ih]

theorem px_kill {s : State} {i j : Nat} (hij : i ≠ j) :
    State.px { s with handles := s.handles.set i none } j = s.px j := by
  simp [State.px, List.getElem?_set, hij]

/-- Destroying one of the handles of `Destroying`: the referent is deleted iff it was the
last one. -/
theorem destroying_step {p : Addr} (hp : p ≠ 0) {s : State} {i : Nat} {rest : List Nat}
    (h : Destroying p s (i :: rest)) :
    ∃ s1, step s (Op.dtor i) = some s1 ∧
      (rest = [] → s1.intrusive_ref_count p = 0 ∧ s1.deleted p = true ∧
        s1.log.count (Event.delete p) = 1) ∧
      (rest ≠ [] → Destroying p s1 rest) := by
  obtain ⟨hnd, hlive, hrefs, hle, hdel, hcnt, hlog⟩ := h
  have hpx : s.px i = some p := hlive i (by simp)
  have hM : UINT_MOD = 4294967296 := rfl
  simp only [List.length_cons] at hrefs hle hcnt
  have hc : (s.intrusive_ref_count p + (UINT_MOD - 1)) % UINT_MOD = rest.length := by
    rw [hcnt, hM]
    rw [hM] at hle
    omega
  have hcs := count_set_add s.handles i (some p) none (some p) (px_eq_some hpx)
  simp only [if_true, reduceCtorEq, if_false, Nat.add_zero] at hcs
  have hrefs1 : List.count (some p) (s.handles.set i none) = rest.length := by
    simp only [State.refs] at hrefs
    omega
  have hnotin : i ∉ rest := (List.nodup_cons.mp hnd).1
  have hlive1 : ∀ j ∈ rest, State.px { s with handles := s.handles.set i none } j = some p := by
    intro j hj
    have hij : i ≠ j := fun e => hnotin (e ▸ hj)
    rw [px_kill hij]
    exact hlive j (by simp [hj])
  by_cases hr : rest = []
  · subst hr
    simp only [List.length_nil] at hc
    refine ⟨{ s with
      intrusive_ref_count := Function.update s.intrusive_ref_count p 0
      deleted := Function.update s.deleted p true
      handles := s.handles.set i none
      log := s.log ++ [Event.release p] ++ [Event.delete p] }, ?_, ?_, fun hne => absurd rfl hne⟩
    · simp [step, hpx, dtor_px, hp, Eidos_intrusive_ptr_release, hdel, hc]
    · intro _
      refine ⟨by simp, by simp, ?_⟩
      simp [List.count_cons, hlog]
  · have hne : rest.length ≠ 0 := fun e => hr (List.length_eq_zero.mp e)
    refine ⟨{ s with
      intrusive_ref_count := Function.update s.intrusive_ref_count p rest.length
      handles := s.handles.set i none
      log := s.log ++ [Event.release p] }, ?_, fun e => absurd e hr, ?_⟩
    · simp [step, hpx, dtor_px, hp, Eidos_intrusive_ptr_release, hdel, hc, hne]
    · intro _
      refine ⟨(List.nodup_cons.mp hnd).2, hlive1, hrefs1, by omega, hdel, ?_, ?_⟩
      · simp only [Function.update_same]
        rw [Nat.mod_eq_of_lt (by omega)]
      · simp [List.count_cons, hlog]

/-- Destroying all the handles of `Destroying`: the referent is deleted once, by the last
destruction and not before. -/
theorem destroying_all {p : Addr} (hp : p ≠ 0) (rest : List Nat) : ∀ s : State,
    Destroying p s rest → rest ≠ [] →
    (∃ sf, run s (destroyAll rest) = some sf ∧ sf.intrusive_ref_count p = 0 ∧
      sf.deleted p = true ∧ sf.log.count (Event.delete p) = 1) ∧
    ∀ k, k < rest.length → ∃ sk, run s (destroyAll (rest.take k)) = some sk ∧
      sk.deleted p = false ∧ sk.log.count (Event.delete p) = 0 := by
  induction rest with
  | nil => intro s _ h; exact absurd rfl h
  | cons i rest ih =>
    intro s h _
    obtain ⟨s1, hs1, hlast, hmore⟩ := destroying_step hp h
    have h0 : s.deleted p = false ∧ s.log.count (Event.delete p) = 0 := ⟨h.2.2.2.2.1, h.2.2.2.2.2.2⟩
    by_cases hr : rest = []
    · subst hr
      refine ⟨⟨s1, by simp [destroyAll, run, hs1], hlast rfl⟩, ?_⟩
      intro k hk
      have : k = 0 := by simpa using hk
      subst this
      exact ⟨s, by simp [destroyAll, run], h0⟩
    · obtain ⟨⟨sf, hsf, hfin⟩, hpre⟩ := ih s1 (hmore hr) hr
      refine ⟨⟨sf, ?_, hfin⟩, ?_⟩
      · simpa [destroyAll, run, hs1] using hsf
      · intro k hk
        cases k with
        | zero => exact ⟨s, by simp [destroyAll, run], h0⟩
        | succ k =>
          obtain ⟨sk, h1, h2⟩ := hpre k (by simpa using hk)
          exact ⟨sk, by simpa [destroyAll, run, hs1] using h1, h2⟩

theorem destroying_built {p : Addr} {n : Nat} {order : List Nat}
    (hperm : List.Perm order (List.range n)) (hn : n ≤ UINT_MOD) :
    Destroying p (built p n) order := by
  have hlen : order.length = n := by rw [hperm.length_eq, List.length_range]
  refine ⟨hperm.nodup_iff.mpr (List.nodup_range n), ?_, ?_, ?_, rfl, ?_, ?_⟩
  · intro i hi
    exact built_px (List.mem_range.mp (hperm.mem_iff.mp hi))
  · rw [built_refs, hlen]
  · rw [hlen]; exact hn
  · rw [built_count, hlen]
  · show List.count (Event.delete p) (List.replicate n (Event.add_ref p)) = 0
    rw [List.count_replicate]
    simp

/-- C2, as amended: for every N with 1 ≤ N ≤ 2 ^ 32, constructing N handles to a referent
whose count starts at 0 (one from the raw pointer with `add_ref = true`, each other one as a
copy of a handle constructed before it) and then destroying all N in any order runs to the
end, leaves the count at 0 and deletes the referent exactly once, and the referent is not
yet deleted after any smaller number of the destructions. -/
theorem C2_construct_then_destroy (p : Addr) (hp : p ≠ 0) (copies order : List Nat)
    (hsrc : ∀ k (hk : k < copies.length), copies[k] ≤ k)
    (hperm : List.Perm order (List.range (copies.length + 1)))
    (hN : copies.length + 1 ≤ 2 ^ 32) :
    (∃ sf, run State.init (constructAll p copies ++ destroyAll order) = some sf ∧
      sf.intrusive_ref_count p = 0 ∧ sf.deleted p = true ∧
      sf.log.count (Event.delete p) = 1) ∧
    ∀ k, k < order.length →
      ∃ sk, run State.init (constructAll p copies ++ destroyAll (order.take k)) = some sk ∧
        sk.deleted p = false ∧ sk.log.count (Event.delete p) = 0 := by
  obtain ⟨hb, -⟩ := run_constructAll hp copies hsrc
  have hD : Destroying p (built p (copies.length + 1)) order := destroying_built hperm hN
  have hne : order ≠ [] := by
    intro e
    have := hperm.length_eq
    rw [e, List.length_range] at this
    simp at this
  obtain ⟨⟨sf, hsf, hfin⟩, hpre⟩ := destroying_all hp order _ hD hne
  refine ⟨⟨sf, by rw [run_append, hb]; exact hsf, hfin⟩, ?_⟩
  intro k hk
  obtain ⟨sk, h1, h2⟩ := hpre k hk
  exact ⟨sk, by rw [run_append, hb]; exact h1, h2⟩

/-- C2, witness: three handles to referent 7, destroyed in the order 1, 2, 0. -/
theorem C2_construct_then_destroy_witness :
    (7 : Addr) ≠ 0 ∧ List.Perm [1, 2, 0] (List.range 3) ∧
    ∃ sf, run State.init (constructAll 7 [0, 1] ++ destroyAll [1, 2, 0]) = some sf ∧
      sf.intrusive_ref_count 7 = 0 ∧ sf.deleted 7 = true ∧
      sf.log.count (Event.delete 7) = 1 :=
  ⟨by decide, by decide,
   (C2_construct_then_destroy 7 (by decide) [0, 1] [1, 2, 0]
      (by intro k hk; match k, hk with
        | 0, _ => exact Nat.le_refl _
        | 1, _ => exact Nat.le_refl _)
      (by decide) (by decide)).1⟩

/-- The first destruction among `m + 1` handles whose count has wrapped to 1. -/
theorem step_built_dtor_wrapped {p : Addr} (hp : p ≠ 0) (m : Nat)
    (hw : (m + 1) % UINT_MOD = 1) :
    ∃ s1, step (built p (m + 1)) (Op.dtor 0) = some s1 ∧ s1.deleted p = true ∧
      s1.refs p = m ∧ (0 < m → s1.px 1 = some p) ∧ s1.intrusive_ref_count p = 0 := by
  have hpx : (built p (m + 1)).px 0 = some p := built_px (Nat.succ_pos m)
  have hc : ((built p (m + 1)).intrusive_ref_count p + (UINT_MOD - 1)) % UINT_MOD = 0 := by
    rw [built_count, hw]
    decide
  refine ⟨{ (built p (m + 1)) with
      intrusive_ref_count := Function.update (built p (m + 1)).intrusive_ref_count p 0
      deleted := Function.update (built p (m + 1)).deleted p true
      handles := (built p (m + 1)).handles.set 0 none
      log := (built p (m + 1)).log ++ [Event.release p] ++ [Event.delete p] }, ?_, ?_, ?_, ?_, ?_⟩
  · have hd : (built p (m + 1)).deleted p = false := rfl
    simp [step, hpx, dtor_px, hp, Eidos_intrusive_ptr_release, hd, hc]
  · simp
  · simp [State.refs, built, List.replicate_succ, List.count_cons]
  · intro hm
    obtain ⟨j, rfl⟩ : ∃ j, m = j + 1 := ⟨m - 1, by omega⟩
    simp [State.px, built, List.replicate_succ]
  · simp

/-- C2, counterexample: with N = 2 ^ 32 + 1 handles the count has wrapped to 1, so the
first destruction already deletes the referent, while 2 ^ 32 live handles still point to
it, and the next destruction releases a deleted object. -/
theorem C2_counterexample_wrap :
    ∃ s, run State.init (constructAll 1 (List.replicate 4294967296 0) ++ destroyAll [0]) = some s ∧
      s.deleted 1 = true ∧ s.refs 1 = 4294967296 ∧ step s (Op.dtor 1) = none := by
  obtain ⟨-, hb⟩ := run_copies_of_first 1 (by decide) 4294967296
  obtain ⟨s1, h1, h2, h3, h4, -⟩ :=
    step_built_dtor_wrapped (p := 1) (by decide) 4294967296 (by decide)
  refine ⟨s1, ?_, h2, h3, ?_⟩
  · rw [run_append, hb]
    simp only [Option.some_bind, destroyAll, List.map_cons, List.map_nil, run, h1]
  · have hpx := h4 (by decide)
    simp [step, hpx, dtor_px, Eidos_intrusive_ptr_release, h2]

/-- C3: copy-constructing a handle from the live handle `rhs` (whose referent, if any, has
not been deleted) succeeds and appends one handle holding the address `rhs` holds; every
earlier handle, `rhs` included, is unchanged.  From a non-null `rhs` the only hook call is
one `add_ref` on the referent, whose count takes the value of `++` on an `unsigned int`
(one more, 0 after `2 ^ 32 - 1`) while every other count is unchanged; from a null `rhs`
no hook is called and no count changes.  Nothing is deleted. -/
theorem C3_copy_construct (s : State) (rhs : Nat) (v : Addr) (hv : s.px rhs = some v)
    (hd : v ≠ 0 → s.deleted v = false) :
    ∃ s1, step s (Op.ctor_copy rhs) = some s1 ∧
      s1.handles = s.handles ++ [some v] ∧
      s1.px s.handles.length = some v ∧ s1.px rhs = some v ∧
      s1.deleted = s.deleted ∧
      (v ≠ 0 →
        s1.log = s.log ++ [Event.add_ref v] ∧
        s1.intrusive_ref_count v = (s.intrusive_ref_count v + 1) % UINT_MOD ∧
        (s.intrusive_ref_count v + 1 < UINT_MOD →
          s1.intrusive_ref_count v = s.intrusive_ref_count v + 1) ∧
        ∀ r, r ≠ v → s1.intrusive_ref_count r = s.intrusive_ref_count r) ∧
      (v = 0 → s1.log = s.log ∧ s1.intrusive_ref_count = s.intrusive_ref_count) := by
  have hlt : rhs < s.handles.length := by
    have hg := px_eq_some hv
    rcases Nat.lt_or_ge rhs s.handles.length with h1 | h1
    · exact h1
    · rw [List.get?_eq_none.mpr h1] at hg
      cases hg
  have hrhs : (s.handles ++ [some v])[rhs]? = some (some v) := by
    rw [List.getElem?_append_left hlt]
    simpa using px_eq_some hv
  by_cases h0 : v = 0
  · subst h0
    refine ⟨{ s with handles := s.handles ++ [some 0] }, ?_, rfl, ?_, ?_, rfl, ?_, ?_⟩
    · simp [step, hv, ctor_copy_px]
    · simp [State.px]
    · simp [State.px, hrhs]
    · intro h; exact absurd rfl h
    · intro _; exact ⟨rfl, rfl⟩
  · have hdv := hd h0
    refine ⟨{ s with
      intrusive_ref_count :=
        Function.update s.intrusive_ref_count v ((s.intrusive_ref_count v + 1) % UINT_MOD)
      log := s.log ++ [Event.add_ref v]
      handles := s.handles ++ [some v] }, ?_, rfl, ?_, ?_, rfl, ?_, ?_⟩
    · simp [step, hv, ctor_copy_px, h0, Eidos_intrusive_ptr_add_ref, hdv]
    · simp [State.px]
    · simp [State.px, hrhs]
    · intro _
      refine ⟨rfl, ?_, ?_, ?_⟩
      · simp only [Function.update_same]
      · intro hw
        simp only [Function.update_same]
        exact Nat.mod_eq_of_lt hw
      · intro r hr
        simp [Function.update_noteq hr]
    · intro h; exact absurd h h0

/-- C3, witness: copying a handle to referent 1 whose count is 1, and copying a null
handle. -/
theorem C3_copy_construct_witness :
    (built 1 1).px 0 = some 1 ∧ (built 1 1).deleted 1 = false ∧
    (∃ s1, step (built 1 1) (Op.ctor_copy 0) = some s1 ∧ s1.px 1 = some 1 ∧
      s1.intrusive_ref_count 1 = 2) ∧
    (∃ s1, step { State.init with handles := [some 0] } (Op.ctor_copy 0) = some s1 ∧
      s1.px 1 = some 0 ∧ s1.log = []) := by
  refine ⟨by decide, rfl, ?_, ?_⟩
  · obtain ⟨s1, h1, -, h3, -, -, h6, -⟩ :=
      C3_copy_construct (built 1 1) 0 1 (by decide) (fun _ => rfl)
    have h := (h6 (by decide)).2.2.1 (by decide)
    exact ⟨s1, h1, h3, h⟩
  · obtain ⟨s1, h1, -, h3, -, -, -, h7⟩ :=
      C3_copy_construct { State.init with handles := [some 0] } 0 0 (by decide)
        (fun h => absurd rfl h)
    exact ⟨s1, h1, h3, (h7 rfl).1⟩

theorem uint_dec_eq (c : Nat) (hc : c < UINT_MOD) :
    (c + (UINT_MOD - 1)) % UINT_MOD = if c = 0 then UINT_MOD - 1 else c - 1 := by
  have hM : UINT_MOD = 4294967296 := rfl
  rw [hM] at hc ⊢
  by_cases h0 : c = 0
  · subst h0
    simp
  · rw [if_neg h0]
    omega

/-- C4: destroying the live handle `this` succeeds and ends its life.  When it holds a
non-null pointer to a referent that has not been deleted, the only hook call is one
`release`, the count of the referent takes the value of `--` on an `unsigned int` (one
less, `2 ^ 32 - 1` after 0), the referent is deleted iff the count after the decrement is
zero, and no other referent changes.  When it is null no hook is called, no count changes
and nothing is deleted. -/
theorem C4_destroy (s : State) (this : Nat) (v : Addr) (hv : s.px this = some v)
    (hd : v ≠ 0 → s.deleted v = false) (hty : s.intrusive_ref_count v < UINT_MOD) :
    ∃ s1, step s (Op.dtor this) = some s1 ∧
      s1.handles = s.handles.set this none ∧ s1.px this = none ∧
      (v ≠ 0 →
        s1.intrusive_ref_count v =
          (if s.intrusive_ref_count v = 0 then UINT_MOD - 1 else s.intrusive_ref_count v - 1) ∧
        (s1.deleted v = true ↔ s1.intrusive_ref_count v = 0) ∧
        s1.log = s.log ++ Event.release v ::
          (if s1.intrusive_ref_count v = 0 then [Event.delete v] else []) ∧
        ∀ r, r ≠ v →
          s1.intrusive_ref_count r = s.intrusive_ref_count r ∧ s1.deleted r = s.deleted r) ∧
      (v = 0 →
        s1.intrusive_ref_count = s.intrusive_ref_count ∧ s1.deleted = s.deleted ∧
        s1.log = s.log) := by
  have hpx : ∀ t : State, t.handles = s.handles.set this none → t.px this = none := by
    intro t ht
    have hg := px_eq_some hv
    simp only [State.px, ht]
    rw [List.get?_eq_getElem?, List.getElem?_set]
    simp only [if_true]
    split <;> rfl
  by_cases h0 : v = 0
  · subst h0
    refine ⟨{ s with handles := s.handles.set this none }, ?_, rfl, hpx _ rfl, ?_, ?_⟩
    · simp [step, hv, dtor_px]
    · intro h; exact absurd rfl h
    · intro _; exact ⟨rfl, rfl, rfl⟩
  · have hdv := hd h0
    have hdec := uint_dec_eq _ hty
    by_cases hz : (s.intrusive_ref_count v + (UINT_MOD - 1)) % UINT_MOD = 0
    · refine ⟨{ s with
        intrusive_ref_count := Function.update s.intrusive_ref_count v 0
        deleted := Function.update s.deleted v true
        handles := s.handles.set this none
        log := s.log ++ [Event.release v] ++ [Event.delete v] }, ?_, rfl, hpx _ rfl, ?_, ?_⟩
      · simp [step, hv, dtor_px, h0, Eidos_intrusive_ptr_release, hdv, hz]
      · intro _
        refine ⟨?_, ?_, ?_, ?_⟩
        · simp only [Function.update_same]
          rw [← hdec, hz]
        · simp
        · simp
        · intro r hr
          simp [Function.update_noteq hr]
      · intro h; exact absurd h h0
    · refine ⟨{ s with
        intrusive_ref_count := Function.update s.intrusive_ref_count v
          ((s.intrusive_ref_count v + (UINT_MOD - 1)) % UINT_MOD)
        handles := s.handles.set this none
        log := s.log ++ [Event.release v] }, ?_, rfl, hpx _ rfl, ?_, ?_⟩
      · simp [step, hv, dtor_px, h0, Eidos_intrusive_ptr_release, hdv, hz]
      · intro _
        refine ⟨?_, ?_, ?_, ?_⟩
        · simp only [Function.update_same]
          exact hdec
        · simp only [Function.update_same]
          constructor
          · intro h
            rw [hdv] at h
            cases h
          · intro h
            exact absurd h hz
        · simp only [Function.update_same, if_neg hz]
        · intro r hr
          simp [Function.update_noteq hr]
      · intro h; exact absurd h h0

/-- C4, witness: destroying the only handle to referent 1 deletes it. -/
theorem C4_destroy_witness :
    (built 1 1).px 0 = some 1 ∧ (built 1 1).deleted 1 = false ∧
    (built 1 1).intrusive_ref_count 1 < UINT_MOD ∧
    ∃ s1, step (built 1 1) (Op.dtor 0) = some s1 ∧ s1.px 0 = none ∧
      s1.intrusive_ref_count 1 = 0 ∧ s1.deleted 1 = true := by
  refine ⟨by decide, rfl, by decide, ?_⟩
  obtain ⟨s1, h1, -, h3, h4, -⟩ :=
    C4_destroy (built 1 1) 0 1 (by decide) (fun _ => rfl) (by decide)
  obtain ⟨h5, h6, -, -⟩ := h4 (by decide)
  have h7 : s1.intrusive_ref_count 1 = 0 := by
    rw [h5]
    decide
  exact ⟨s1, h1, h3, h7, h6.mpr h7⟩

theorem ctor_copy_px_effect (s : State) (p : Addr) (hd : p ≠ 0 → s.deleted p = false) :
    ∃ s1, ctor_copy_px s p = some s1 ∧ s1.handles = s.handles ∧ AddRefEffect s s1 p := by
  by_cases h0 : p = 0
  · exact ⟨s, by simp [ctor_copy_px, h0], rfl, rfl, by simp [h0]⟩
  · refine ⟨{ s with
      intrusive_ref_count :=
        Function.update s.intrusive_ref_count p (uint_inc (s.intrusive_ref_count p))
      log := s.log ++ [Event.add_ref p] }, ?_, rfl, rfl, ?_⟩
    · simp [ctor_copy_px, h0, Eidos_intrusive_ptr_add_ref, hd h0, uint_inc]
    · simp [h0]

theorem dtor_px_effect (s : State) (p : Addr) (hd : p ≠ 0 → s.deleted p = false)
    (hty : s.intrusive_ref_count p < UINT_MOD) :
    ∃ s1, dtor_px s p = some s1 ∧ s1.handles = s.handles ∧ ReleaseEffect s s1 p := by
  by_cases h0 : p = 0
  · exact ⟨s, by simp [dtor_px, h0], rfl, by simp [ReleaseEffect, h0]⟩
  · have hdec : (s.intrusive_ref_count p + (UINT_MOD - 1)) % UINT_MOD =
        uint_dec (s.intrusive_ref_count p) := uint_dec_eq _ hty
    by_cases hz : uint_dec (s.intrusive_ref_count p) = 0
    · refine ⟨{ s with
        intrusive_ref_count :=
          Function.update s.intrusive_ref_count p (uint_dec (s.intrusive_ref_count p))
        deleted := Function.update s.deleted p true
        log := s.log ++ [Event.release p] ++ [Event.delete p] }, ?_, rfl, ?_⟩
      · simp [dtor_px, h0, Eidos_intrusive_ptr_release, hd h0, hdec, hz]
      · simp [ReleaseEffect, h0, hz]
    · refine ⟨{ s with
        intrusive_ref_count :=
          Function.update s.intrusive_ref_count p (uint_dec (s.intrusive_ref_count p))
        log := s.log ++ [Event.release p] }, ?_, rfl, ?_⟩
      · simp [dtor_px, h0, Eidos_intrusive_ptr_release, hd h0, hdec, hz]
      · simp [ReleaseEffect, h0, hz]

theorem tmp_swap_dtor_effect (s : State) (this : Nat) (tmp old : Addr)
    (hpx : s.px this = some old) (hd : old ≠ 0 → s.deleted old = false)
    (hty : s.intrusive_ref_count old < UINT_MOD) :
    ∃ s1, tmp_swap_dtor s this tmp = some s1 ∧ s1.handles = s.handles.set this (some tmp) ∧
      ReleaseEffect s s1 old := by
  obtain ⟨s1, h1, h2, h3⟩ := dtor_px_effect (s.setPx this tmp) old hd hty
  exact ⟨s1, by simp [tmp_swap_dtor, hpx, h1], h2, h3⟩

theorem px_lt {s : State} {i : Nat} {v : Addr} (h : s.px i = some v) : i < s.handles.length := by
  have hg := px_eq_some h
  rcases Nat.lt_or_ge i s.handles.length with h1 | h1
  · exact h1
  · rw [List.get?_eq_none.mpr h1] at hg
    cases hg

theorem px_of_handles_set {s s1 : State} {i : Nat} {a : Addr} (v : Addr) (j : Nat)
    (h : s.px i = some a) (hs : s1.handles = s.handles.set i (some v)) :
    s1.px j = if j = i then some v else s.px j := by
  rw [← px_setPx v j h]
  simp [State.px, State.setPx, hs]

/-- C5: move-constructing a handle from the live handle `rhs` succeeds; the new handle holds
the pointer `rhs` held, `rhs` is left null, every other handle is unchanged, and neither
`add_ref` nor `release` is called: the log, every count and every deleted flag are
unchanged. -/
theorem C5_move_construct (s : State) (rhs : Nat) (v : Addr) (hv : s.px rhs = some v) :
    ∃ s1, step s (Op.ctor_move rhs) = some s1 ∧
      s1.px s.handles.length = some v ∧ s1.px rhs = some 0 ∧
      (∀ j, j ≠ rhs → j < s.handles.length → s1.px j = s.px j) ∧
      s1.log = s.log ∧ s1.intrusive_ref_count = s.intrusive_ref_count ∧
      s1.deleted = s.deleted := by
  have hlt := px_lt hv
  refine ⟨{ s with handles := (s.handles ++ [some v]).set rhs (some 0) }, ?_, ?_, ?_, ?_,
    rfl, rfl, rfl⟩
  · simp [step, hv, State.setPx]
  · have hne : rhs ≠ s.handles.length := Nat.ne_of_lt hlt
    simp [State.px, List.getElem?_set, hne]
  · have hl2 : rhs < (s.handles ++ [some v]).length := by
      rw [List.length_append]
      exact Nat.lt_add_right _ hlt
    simp only [State.px, List.get?_eq_getElem?, List.getElem?_set, if_true, hl2]
    rfl
  · intro j hj hjl
    have hrj : ¬ (rhs = j) := fun e => hj e.symm
    simp [State.px, List.getElem?_set, hrj, List.getElem?_append_left hjl]

/-- C5, witness: moving out of the only handle to referent 1. -/
theorem C5_move_construct_witness :
    (built 1 1).px 0 = some 1 ∧
    ∃ s1, step (built 1 1) (Op.ctor_move 0) = some s1 ∧ s1.px 1 = some 1 ∧
      s1.px 0 = some 0 ∧ s1.log = (built 1 1).log ∧
      s1.intrusive_ref_count = (built 1 1).intrusive_ref_count := by
  refine ⟨by decide, ?_⟩
  obtain ⟨s1, h1, h2, h3, -, h5, h6, -⟩ := C5_move_construct (built 1 1) 0 1 (by decide)
  exact ⟨s1, h1, h2, h3, h5, h6⟩

/-- C6, as amended: the move assignment `this = std::move(rhs)` between live handles
succeeds and leaves in `this` the pointer `rhs` held, and no `add_ref` is called.  When
`this` and `rhs` are different objects, `rhs` is left null and the former referent of `this`
(if non-null) is released once: so the count of the referent `rhs` held is unchanged when
`this` held another pointer, and is decremented when `this` held that same referent.  When
they are the same object nothing changes at all (the source is not left null). -/
theorem C6_move_assign (s : State) (this rhs : Nat) (old v : Addr)
    (hthis : s.px this = some old) (hrhs : s.px rhs = some v)
    (hd : old ≠ 0 → s.deleted old = false) (hty : s.intrusive_ref_count old < UINT_MOD) :
    ∃ s1, step s (Op.assign_move this rhs) = some s1 ∧ s1.px this = some v ∧
      (∀ j, j ≠ this → j ≠ rhs → s1.px j = s.px j) ∧
      (this ≠ rhs →
        s1.px rhs = some 0 ∧ ReleaseEffect s s1 old ∧
        (v ≠ old → s1.intrusive_ref_count v = s.intrusive_ref_count v) ∧
        (v = old → v ≠ 0 → s1.intrusive_ref_count v = uint_dec (s.intrusive_ref_count v))) ∧
      (this = rhs →
        s1.handles = s.handles ∧ s1.intrusive_ref_count = s.intrusive_ref_count ∧
        s1.deleted = s.deleted ∧ s1.log = s.log) := by
  by_cases e : this = rhs
  · subst e
    have hov : old = v := by
      rw [hthis] at hrhs
      exact Option.some.inj hrhs
    subst hov
    have hpx0 : (s.setPx this 0).px this = some 0 := by
      rw [px_setPx 0 this hthis]
      simp
    refine ⟨s, ?_, hthis, fun _ _ _ => rfl, fun h => absurd rfl h, fun _ => ⟨rfl, rfl, rfl, rfl⟩⟩
    have hset : (s.handles.set this (some 0)).set this (some old) = s.handles := by
      rw [List.set_set]
      apply List.ext_getElem?
      intro j
      rw [List.getElem?_set]
      by_cases hj : this = j
      · subst hj
        have := px_eq_some hthis
        simp only [List.get?_eq_getElem?] at this
        simp [this, px_lt hthis]
      · simp [hj]
    simp only [step, hrhs, tmp_swap_dtor, hpx0, dtor_px, ne_eq, not_true_eq_false, if_false]
    simp [State.setPx, hset]
  · have hpx : (s.setPx rhs 0).px this = some old := by
      rw [px_setPx 0 this hrhs]
      simp [e, hthis]
    obtain ⟨s1, h1, h2, h3⟩ := tmp_swap_dtor_effect (s.setPx rhs 0) this v old hpx hd hty
    have hp : ∀ j, s1.px j = if j = this then some v else (s.setPx rhs 0).px j :=
      fun j => px_of_handles_set v j hpx h2
    have hre : ReleaseEffect s s1 old := h3
    refine ⟨s1, by simp [step, hrhs, h1], by simp [hp], ?_, fun _ => ⟨?_, hre, ?_, ?_⟩,
      fun h => absurd h e⟩
    · intro j hj1 hj2
      rw [hp, if_neg hj1, px_setPx 0 j hrhs, if_neg hj2]
    · have e2 : ¬ (rhs = this) := fun h => e h.symm
      rw [hp, if_neg e2, px_setPx 0 rhs hrhs, if_pos rfl]
    · intro hne
      unfold ReleaseEffect at hre
      by_cases h0 : old = 0
      · rw [if_pos h0] at hre
        rw [hre.1]
      · rw [if_neg h0] at hre
        rw [hre.1, Function.update_noteq hne]
    · intro heq hv0
      subst heq
      unfold ReleaseEffect at hre
      rw [if_neg hv0] at hre
      rw [hre.1, Function.update_same]

/-- C6, witness: moving a handle to referent 2 into a handle to referent 1. -/
theorem C6_move_assign_witness :
    ∃ s1, step { State.init with
        intrusive_ref_count := fun r => if r = 1 ∨ r = 2 then 1 else 0
        handles := [some 1, some 2] } (Op.assign_move 0 1) = some s1 ∧
      s1.px 0 = some 2 ∧ s1.px 1 = some 0 ∧ s1.intrusive_ref_count 2 = 1 := by
  obtain ⟨s1, h1, h2, -, h4, -⟩ :=
    C6_move_assign { State.init with
        intrusive_ref_count := fun r => if r = 1 ∨ r = 2 then 1 else 0
        handles := [some 1, some 2] } 0 1 1 2 (by decide) (by decide) (fun _ => rfl) (by decide)
  obtain ⟨h5, -, h6, -⟩ := h4 (by decide)
  exact ⟨s1, h1, h2, h5, (h6 (by decide)).trans (by decide)⟩

/-- C6, counterexample: two handles share referent 1, whose count is 2; after the move
assignment of one to the other the count of the referent the source held is 1, not 2.  And
after a self-move the source is not null. -/
theorem C6_counterexample_shared :
    (run State.init [Op.ctor_raw 1 true, Op.ctor_copy 0]).map
        (fun s => (s.px 0, s.px 1, s.intrusive_ref_count 1)) = some (some 1, some 1, 2) ∧
    (run State.init [Op.ctor_raw 1 true, Op.ctor_copy 0, Op.assign_move 0 1]).map
        (fun s => (s.px 0, s.px 1, s.intrusive_ref_count 1)) = some (some 1, some 0, 1) ∧
    (run State.init [Op.ctor_raw 1 true, Op.assign_move 0 0]).map
        (fun s => s.px 0) = some (some 1) := by
  decide

theorem uint_dec_inc (c : Nat) (hc : c < UINT_MOD) : uint_dec (uint_inc c) = c := by
  have hM : UINT_MOD = 4294967296 := rfl
  unfold uint_dec uint_inc
  rw [hM] at hc ⊢
  by_cases h : c + 1 = 4294967296
  · have : c = 4294967295 := by omega
    subst this
    decide
  · have h1 : (c + 1) % 4294967296 = c + 1 := Nat.mod_eq_of_lt (by omega)
    rw [h1]
    simp

/-- C7, as amended: the copy assignment `this = rhs` between live handles (whose referents,
if any, have not been deleted) succeeds in two phases.  First the temporary copy of `rhs` is
made, reaching `s'`: one `add_ref` on the referent of `rhs` if it is non-null.  Then the
temporary is swapped with `this` and destroyed, reaching `s1`: one `release` on the former
referent of `this` if it is non-null.  At the end `this` holds what `rhs` holds, `rhs` and
every other handle are unchanged.  When the two already share a referent (self-assignment
included) every count ends unchanged, and the referent is deleted exactly when its count
was 0: with a count of at least 1, as handles that own their references give it, nothing
is deleted. -/
theorem C7_copy_assign (s : State) (this rhs : Nat) (old v : Addr)
    (hthis : s.px this = some old) (hrhs : s.px rhs = some v)
    (hdv : v ≠ 0 → s.deleted v = false) (hdo : old ≠ 0 → s.deleted old = false)
    (htv : s.intrusive_ref_count v < UINT_MOD) (hto : s.intrusive_ref_count old < UINT_MOD) :
    ∃ s' s1, ctor_copy_px s v = some s' ∧ tmp_swap_dtor s' this v = some s1 ∧
      step s (Op.assign_copy this rhs) = some s1 ∧
      s1.px this = some v ∧ s1.px rhs = some v ∧ (∀ j, j ≠ this → s1.px j = s.px j) ∧
      AddRefEffect s s' v ∧ ReleaseEffect s' s1 old ∧
      (old = v →
        s1.intrusive_ref_count = s.intrusive_ref_count ∧
        (s.intrusive_ref_count v ≠ 0 → s1.deleted = s.deleted) ∧
        (v ≠ 0 → (s1.deleted v = true ↔ s.intrusive_ref_count v = 0))) := by
  obtain ⟨s', g1, g2, g3⟩ := ctor_copy_px_effect s v hdv
  have hpx' : s'.px this = some old := by simpa [State.px, g2] using hthis
  have hdo' : old ≠ 0 → s'.deleted old = false := by
    intro h
    rw [g3.1]
    exact hdo h
  have hcnt' : v ≠ 0 → s'.intrusive_ref_count =
      Function.update s.intrusive_ref_count v (uint_inc (s.intrusive_ref_count v)) := by
    intro h
    have := g3.2
    rw [if_neg h] at this
    exact this.1
  have hcnt0 : v = 0 → s'.intrusive_ref_count = s.intrusive_ref_count := by
    intro h
    have := g3.2
    rw [if_pos h] at this
    exact this.1
  have hto' : s'.intrusive_ref_count old < UINT_MOD := by
    by_cases h0 : v = 0
    · rw [hcnt0 h0]
      exact hto
    · rw [hcnt' h0]
      by_cases e : old = v
      · subst e
        rw [Function.update_same]
        exact Nat.mod_lt _ (by decide)
      · rw [Function.update_noteq e]
        exact hto
  obtain ⟨s1, k1, k2, k3⟩ := tmp_swap_dtor_effect s' this v old hpx' hdo' hto'
  have hp : ∀ j, s1.px j = if j = this then some v else s'.px j :=
    fun j => px_of_handles_set v j hpx' k2
  have hps : ∀ j, s'.px j = s.px j := fun j => by simp [State.px, g2]
  refine ⟨s', s1, g1, k1, by simp [step, hrhs, g1, k1], by simp [hp], ?_, ?_, g3, k3, ?_⟩
  · rw [hp, hps]
    by_cases e : rhs = this
    · simp [e]
    · simp [e, hrhs]
  · intro j hj
    rw [hp, if_neg hj, hps]
  · intro e
    subst e
    unfold ReleaseEffect at k3
    by_cases h0 : old = 0
    · rw [if_pos h0] at k3
      exact ⟨by rw [k3.1, hcnt0 h0], fun _ => by rw [k3.2.1, g3.1], fun h => absurd h0 h⟩
    · rw [if_neg h0] at k3
      have hc' : s'.intrusive_ref_count old = uint_inc (s.intrusive_ref_count old) := by
        rw [hcnt' h0, Function.update_same]
      have hdi : uint_dec (s'.intrusive_ref_count old) = s.intrusive_ref_count old := by
        rw [hc', uint_dec_inc _ hto]
      refine ⟨?_, ?_, ?_⟩
      · rw [k3.1, hdi, hcnt' h0, Function.update_idem, Function.update_eq_self]
      · intro hne
        rw [k3.2.1, hdi, if_neg hne, g3.1]
      · intro _
        rw [k3.2.1, hdi]
        by_cases hz : s.intrusive_ref_count old = 0
        · rw [if_pos hz, Function.update_same]
          exact ⟨fun _ => hz, fun _ => rfl⟩
        · rw [if_neg hz, g3.1, hdo h0]
          exact ⟨fun h => Bool.noConfusion h, fun h => absurd h hz⟩

/-- C7, witness: self-assignment of the only handle to referent 1, and assignment between
two handles to different referents. -/
theorem C7_copy_assign_witness :
    (∃ s1, step (built 1 1) (Op.assign_copy 0 0) = some s1 ∧ s1.px 0 = some 1 ∧
      s1.intrusive_ref_count = (built 1 1).intrusive_ref_count ∧
      s1.deleted = (built 1 1).deleted) ∧
    (∃ s1, step { State.init with
        intrusive_ref_count := fun r => if r = 1 ∨ r = 2 then 1 else 0
        handles := [some 1, some 2] } (Op.assign_copy 0 1) = some s1 ∧
      s1.px 0 = some 2 ∧ s1.px 1 = some 2) := by
  constructor
  · obtain ⟨_, s1, -, -, h3, h4, -, -, -, -, h9⟩ :=
      C7_copy_assign (built 1 1) 0 0 1 1 (by decide) (by decide) (fun _ => rfl) (fun _ => rfl)
        (by decide) (by decide)
    exact ⟨s1, h3, h4, (h9 rfl).1, (h9 rfl).2.1 (by decide)⟩
  · obtain ⟨_, s1, -, -, h3, h4, h5, -⟩ :=
      C7_copy_assign { State.init with
        intrusive_ref_count := fun r => if r = 1 ∨ r = 2 then 1 else 0
        handles := [some 1, some 2] } 0 1 1 2 (by decide) (by decide) (fun _ => rfl)
        (fun _ => rfl) (by decide) (by decide)
    exact ⟨s1, h3, h4, h5⟩

/-- C7, counterexample: a handle that adopted referent 1 without a reference
(`add_ref = false`, count 0) is assigned to itself: the temporary copy raises the count to
1, its destruction brings it back to 0 and deletes the referent, to which the handle still
points. -/
theorem C7_counterexample_uncounted :
    (run State.init [Op.ctor_raw 1 false]).map
        (fun s => (s.px 0, s.intrusive_ref_count 1, s.deleted 1)) = some (some 1, 0, false) ∧
    (run State.init [Op.ctor_raw 1 false, Op.assign_copy 0 0]).map
        (fun s => (s.px 0, s.intrusive_ref_count 1, s.deleted 1)) = some (some 1, 0, true) := by
  decide

/-- C8: for live handles `a` and `b` holding the addresses `x` and `y`, and every raw
pointer `p`: `a == b` is true iff `x` and `y` are the same address, `a == p` iff `x` is
`p`, `p == b` iff `p` is `y`, and each `!=` is the negation of its `==`.  Hence two null
handles compare equal, and handles to distinct referents compare unequal whatever the
referents contain, equal contents included. -/
theorem C8_equality_by_address (s : State) (a b : Nat) (x y p : Addr)
    (ha : get s a = some x) (hb : get s b = some y) :
    operator_eq s a b = some (decide (x = y)) ∧
    operator_eq_raw s a p = some (decide (x = p)) ∧
    raw_operator_eq s p b = some (decide (p = y)) ∧
    operator_ne s a b = (operator_eq s a b).map not ∧
    operator_ne_raw s a p = (operator_eq_raw s a p).map not ∧
    raw_operator_ne s p b = (raw_operator_eq s p b).map not ∧
    (x = 0 → y = 0 → operator_eq s a b = some true) ∧
    (∀ (α : Type) (contents : Addr → α), contents x = contents y → x ≠ y →
      operator_eq s a b = some false ∧ operator_ne s a b = some true) := by
  refine ⟨?_, ?_, ?_, ?_, ?_, ?_, ?_, ?_⟩
  · by_cases h : x = y <;> simp [operator_eq, ha, hb, h]
  · by_cases h : x = p <;> simp [operator_eq_raw, ha, h]
  · by_cases h : p = y <;> simp [raw_operator_eq, hb, h]
  · simp [operator_eq, operator_ne, ha, hb, bne]
  · simp [operator_eq_raw, operator_ne_raw, ha, bne]
  · simp [raw_operator_eq, raw_operator_ne, hb, bne]
  · intro hx hy
    simp [operator_eq, ha, hb, hx, hy]
  · intro α contents _ hne
    simp [operator_eq, operator_ne, ha, hb, hne]

/-- C8, witness: two handles to referent 1 are equal, and differ from the raw pointer 2. -/
theorem C8_equality_by_address_witness :
    get (built 1 2) 0 = some 1 ∧ get (built 1 2) 1 = some 1 ∧
    operator_eq (built 1 2) 0 1 = some true ∧ operator_eq_raw (built 1 2) 0 2 = some false :=
  ⟨by decide, by decide,
   (C8_equality_by_address (built 1 2) 0 1 1 1 2 (by decide) (by decide)).1,
   (C8_equality_by_address (built 1 2) 0 1 1 1 2 (by decide) (by decide)).2.1⟩

theorem take_set_self {α : Type} (l : List α) (i : Nat) (a : α) :
    (l.set i a).take i = l.take i := by
  induction l generalizing i with
  | nil => simp
  | cons x l ih =>
    cases i with
    | zero => simp
    | succ i => simp [ih]

/-- The loop of the accelerated accessors, run on the whole array: the elements before
`value_index` are kept and the others receive the field of their `Substitution`. -/
theorem accelerated_loop_spec {α : Type} (field : Substitution → α)
    (p_values : List Substitution) :
    ∀ (todo value_index : Nat) (result : List α),
      value_index + todo = p_values.length → result.length = p_values.length →
      accelerated_loop field p_values value_index todo result =
        some (result.take value_index ++ (p_values.drop value_index).map field) := by
  intro todo
  induction todo with
  | zero =>
    intro i result hi hl
    have : i = result.length := by omega
    subst this
    simp [accelerated_loop, hl]
  | succ todo ih =>
    intro i result hi hl
    have hlt : i < p_values.length := by omega
    have hg : p_values.get? i = some p_values[i] := by
      rw [List.get?_eq_getElem?, List.getElem?_eq_getElem hlt]
    have hlr : i < result.length := by omega
    simp only [accelerated_loop, hg]
    rw [ih (i + 1) _ (by omega) (by simp [set_no_check, hl])]
    congr 1
    rw [List.take_succ, set_no_check, List.getElem?_set_self hlr, take_set_self,
      List.drop_eq_getElem_cons hlt]
    show _ ++ [_] ++ _ = _
    simp only [List.map_cons, List.append_assoc, List.singleton_append]

/-- Every accelerated accessor's loop, run on an array of its declared size, returns the
fields of the elements in order. -/
theorem accelerated_loop_all {α : Type} (field : Substitution → α) (garbage : Nat → α)
    (p_values : List Substitution) :
    accelerated_loop field p_values 0 p_values.length
      ( resize_no_initialize garbage p_values.length) = some (p_values.map field) := by
  rw [accelerated_loop_spec field p_values p_values.length 0 _ (by omega)
    (by simp [ resize_no_initialize])]
  simp

/-- What `Substitution::GetProperty` returns for each of its eight cases and for any other
ID, when the case labels are distinct. -/
theorem getProperty_cases (ids : GlobalIDs) (hids : ids.Distinct)
    (symtab : Addr → EidosValue) (self : Substitution) :
    Substitution.GetProperty ids symtab self ids.gID_id =
      Except.ok (EidosValue.Int_singleton self.mutation_id_) ∧
    Substitution.GetProperty ids symtab self ids.gID_mutationType =
      Except.ok (symtab self.mutation_type_ptr_) ∧
    Substitution.GetProperty ids symtab self ids.gID_position =
      Except.ok (EidosValue.Int_singleton self.position_) ∧
    Substitution.GetProperty ids symtab self ids.gID_selectionCoeff =
      Except.ok (EidosValue.Float_singleton self.selection_coeff_) ∧
    Substitution.GetProperty ids symtab self ids.gID_subpopID =
      Except.ok (EidosValue.Int_singleton self.subpop_index_) ∧
    Substitution.GetProperty ids symtab self ids.gID_originGeneration =
      Except.ok (EidosValue.Int_singleton self.generation_) ∧
    Substitution.GetProperty ids symtab self ids.gID_fixationGeneration =
      Except.ok (EidosValue.Int_singleton self.fixation_generation_) ∧
    Substitution.GetProperty ids symtab self ids.gID_tag =
      Except.ok (EidosValue.Int_singleton self.tag_value_) ∧
    ∀ p, p ∉ ids.getCases →
      Substitution.GetProperty ids symtab self p = EidosObjectElement.GetProperty p := by
  simp only [GlobalIDs.Distinct, GlobalIDs.getCases, List.nodup_cons, List.mem_cons,
    List.mem_singleton, not_or, List.not_mem_nil, not_false_eq_true, List.nodup_nil,
    and_true] at hids
  obtain ⟨-, ⟨h12, h13, h14, h15, h16, h17, h18⟩, ⟨h23, h24, h25, h26, h27, h28⟩,
    ⟨h34, h35, h36, h37, h38⟩, ⟨h45, h46, h47, h48⟩, ⟨h56, h57, h58⟩, ⟨h67, h68⟩, h78⟩ := hids
  refine ⟨?_, ?_, ?_, ?_, ?_, ?_, ?_, ?_, ?_⟩
  · simp [Substitution.GetProperty]
  · simp [Substitution.GetProperty, Ne.symm h12]
  · simp [Substitution.GetProperty, Ne.symm h13, Ne.symm h23]
  · simp [Substitution.GetProperty, Ne.symm h14, Ne.symm h24, Ne.symm h34]
  · simp [Substitution.GetProperty, Ne.symm h15, Ne.symm h25, Ne.symm h35, Ne.symm h45]
  · simp [Substitution.GetProperty, Ne.symm h16, Ne.symm h26, Ne.symm h36, Ne.symm h46,
      Ne.symm h56]
  · simp [Substitution.GetProperty, Ne.symm h17, Ne.symm h27, Ne.symm h37, Ne.symm h47,
      Ne.symm h57, Ne.symm h67]
  · simp [Substitution.GetProperty, Ne.symm h18, Ne.symm h28, Ne.symm h38, Ne.symm h48,
      Ne.symm h58, Ne.symm h68, Ne.symm h78]
  · intro p hp
    simp only [GlobalIDs.getCases, List.mem_cons, List.mem_singleton, not_or,
      List.not_mem_nil, not_false_eq_true, and_true] at hp
    obtain ⟨k1, k2, k3, k4, k5, k6, k7, k8⟩ := hp
    simp [Substitution.GetProperty, k1, k2, k3, k4, k5, k6, k7, k8]

/-- A batch accessor that maps `field` over the array agrees with a scalar accessor that
wraps `field` in a singleton. -/
theorem agrees_of_map {α : Type} (field : Substitution → α) (vec : List α → EidosValue)
    (single : α → EidosValue)
    (scalar : Substitution → Except EidosError EidosValue) (p_values : List Substitution)
    (hv : ∀ xs, (vec xs).IsVectorBased = true ∧ (vec xs).Count = xs.length ∧
      ∀ i, (vec xs).elementAt i = (xs.get? i).map single)
    (hs : ∀ x, (single x).Count = 1)
    (hsc : ∀ value, scalar value = Except.ok (single (field value))) :
    AcceleratedAgrees scalar (some (vec (p_values.map field))) p_values := by
  refine ⟨_, rfl, (hv _).1, by rw [(hv _).2.1, List.length_map], ?_⟩
  intro i h
  refine ⟨_, hsc _, hs _, ?_⟩
  rw [(hv _).2.2]
  simp [List.getElem?_eq_getElem h]

theorem int_vector_shape (xs : List Int) :
    (EidosValue.Int_vector xs).IsVectorBased = true ∧
    (EidosValue.Int_vector xs).Count = xs.length ∧
    ∀ i, (EidosValue.Int_vector xs).elementAt i = (xs.get? i).map EidosValue.Int_singleton :=
  ⟨rfl, rfl, fun _ => rfl⟩

theorem float_vector_shape (xs : List Double) :
    (EidosValue.Float_vector xs).IsVectorBased = true ∧
    (EidosValue.Float_vector xs).Count = xs.length ∧
    ∀ i, (EidosValue.Float_vector xs).elementAt i =
      (xs.get? i).map EidosValue.Float_singleton :=
  ⟨rfl, rfl, fun _ => rfl⟩

/-- C9: for every array of `Substitution` elements, whatever its size, and each of the
properties id, position, subpopID, originGeneration, fixationGeneration, tag and
selectionCoeff, the accelerated accessor run on the whole array returns a vector with as
many elements as the array, whose element `i` is the single element that
`Substitution::GetProperty` returns for that property on element `i`, in the same order. -/
theorem C9_accelerated_agrees_with_scalar (ids : GlobalIDs) (hids : ids.Distinct)
    (symtab : Addr → EidosValue) (gi : Nat → Int) (gf : Nat → Double)
    (p_values : List Substitution) :
    AcceleratedAgrees (fun e => Substitution.GetProperty ids symtab e ids.gID_id)
      (Substitution.GetProperty_Accelerated_id gi p_values p_values.length) p_values ∧
    AcceleratedAgrees (fun e => Substitution.GetProperty ids symtab e ids.gID_position)
      (Substitution.GetProperty_Accelerated_position gi p_values p_values.length) p_values ∧
    AcceleratedAgrees (fun e => Substitution.GetProperty ids symtab e ids.gID_subpopID)
      (Substitution.GetProperty_Accelerated_subpopID gi p_values p_values.length) p_values ∧
    AcceleratedAgrees (fun e => Substitution.GetProperty ids symtab e ids.gID_originGeneration)
      (Substitution.GetProperty_Accelerated_originGeneration gi p_values p_values.length)
      p_values ∧
    AcceleratedAgrees
      (fun e => Substitution.GetProperty ids symtab e ids.gID_fixationGeneration)
      (Substitution.GetProperty_Accelerated_fixationGeneration gi p_values p_values.length)
      p_values ∧
    AcceleratedAgrees (fun e => Substitution.GetProperty ids symtab e ids.gID_tag)
      (Substitution.GetProperty_Accelerated_tag gi p_values p_values.length) p_values ∧
    AcceleratedAgrees (fun e => Substitution.GetProperty ids symtab e ids.gID_selectionCoeff)
      (Substitution.GetProperty_Accelerated_selectionCoeff gf p_values p_values.length)
      p_values := by
  refine ⟨?_, ?_, ?_, ?_, ?_, ?_, ?_⟩
  · rw [Substitution.GetProperty_Accelerated_id, accelerated_loop_all]
    exact agrees_of_map _ _ EidosValue.Int_singleton _ _ int_vector_shape (fun _ => rfl)
      (fun value => (getProperty_cases ids hids symtab value).1)
  · rw [Substitution.GetProperty_Accelerated_position, accelerated_loop_all]
    exact agrees_of_map _ _ EidosValue.Int_singleton _ _ int_vector_shape (fun _ => rfl)
      (fun value => (getProperty_cases ids hids symtab value).2.2.1)
  · rw [Substitution.GetProperty_Accelerated_subpopID, accelerated_loop_all]
    exact agrees_of_map _ _ EidosValue.Int_singleton _ _ int_vector_shape (fun _ => rfl)
      (fun value => (getProperty_cases ids hids symtab value).2.2.2.2.1)
  · rw [Substitution.GetProperty_Accelerated_originGeneration, accelerated_loop_all]
    exact agrees_of_map _ _ EidosValue.Int_singleton _ _ int_vector_shape (fun _ => rfl)
      (fun value => (getProperty_cases ids hids symtab value).2.2.2.2.2.1)
  · rw [Substitution.GetProperty_Accelerated_fixationGeneration, accelerated_loop_all]
    exact agrees_of_map _ _ EidosValue.Int_singleton _ _ int_vector_shape (fun _ => rfl)
      (fun value => (getProperty_cases ids hids symtab value).2.2.2.2.2.2.1)
  · rw [Substitution.GetProperty_Accelerated_tag, accelerated_loop_all]
    exact agrees_of_map _ _ EidosValue.Int_singleton _ _ int_vector_shape (fun _ => rfl)
      (fun value => (getProperty_cases ids hids symtab value).2.2.2.2.2.2.2.1)
  · rw [Substitution.GetProperty_Accelerated_selectionCoeff, accelerated_loop_all]
    exact agrees_of_map _ _ EidosValue.Float_singleton _ _ float_vector_shape (fun _ => rfl)
      (fun value => (getProperty_cases ids hids symtab value).2.2.2.1)

/-- C9, witness: the accelerated `id` accessor on an array of two substitutions. -/
theorem C9_accelerated_agrees_with_scalar_witness :
    exampleIDs.Distinct ∧
    AcceleratedAgrees
      (fun e => Substitution.GetProperty exampleIDs EidosValue.Object_singleton e
        exampleIDs.gID_id)
      (Substitution.GetProperty_Accelerated_id (fun _ => 0)
        [exampleSubstitution 3, exampleSubstitution 4]
        [exampleSubstitution 3, exampleSubstitution 4].length)
      [exampleSubstitution 3, exampleSubstitution 4] :=
  ⟨by decide,
   (C9_accelerated_agrees_with_scalar exampleIDs (by decide) EidosValue.Object_singleton
      (fun _ => 0) (fun _ => ⟨0⟩) [exampleSubstitution 3, exampleSubstitution 4]).1⟩

/-- C10: when the property IDs are distinct, `Substitution::GetProperty` answers by itself,
with a value, for exactly the IDs of the eight properties that
`Substitution_Class::Properties` declares: an integer singleton holding `mutation_id_`,
`position_`, `subpop_index_`, `generation_`, `fixation_generation_` and `tag_value_` for
id, position, subpopID, originGeneration, fixationGeneration and tag, a float singleton
holding `selection_coeff_` for selectionCoeff, and the mutation type's value for
mutationType.  For every other ID, `gID_none` included, it returns what the base
`EidosObjectElement::GetProperty` returns, the unknown-property failure. -/
theorem C10_getProperty_dispatch (ids : GlobalIDs) (hids : ids.Distinct)
    (symtab : Addr → EidosValue) (self : Substitution) :
    (Substitution_Class.declared ids).map (fun sig => sig.property_id_) = ids.getCases ∧
    Substitution.GetProperty ids symtab self ids.gID_id =
      Except.ok (EidosValue.Int_singleton self.mutation_id_) ∧
    Substitution.GetProperty ids symtab self ids.gID_position =
      Except.ok (EidosValue.Int_singleton self.position_) ∧
    Substitution.GetProperty ids symtab self ids.gID_subpopID =
      Except.ok (EidosValue.Int_singleton self.subpop_index_) ∧
    Substitution.GetProperty ids symtab self ids.gID_originGeneration =
      Except.ok (EidosValue.Int_singleton self.generation_) ∧
    Substitution.GetProperty ids symtab self ids.gID_fixationGeneration =
      Except.ok (EidosValue.Int_singleton self.fixation_generation_) ∧
    Substitution.GetProperty ids symtab self ids.gID_tag =
      Except.ok (EidosValue.Int_singleton self.tag_value_) ∧
    Substitution.GetProperty ids symtab self ids.gID_selectionCoeff =
      Except.ok (EidosValue.Float_singleton self.selection_coeff_) ∧
    Substitution.GetProperty ids symtab self ids.gID_mutationType =
      Except.ok (symtab self.mutation_type_ptr_) ∧
    (∀ p, p ∈ (Substitution_Class.declared ids).map (fun sig => sig.property_id_) →
      ∃ v, Substitution.GetProperty ids symtab self p = Except.ok v) ∧
    (∀ p, p ∉ (Substitution_Class.declared ids).map (fun sig => sig.property_id_) →
      Substitution.GetProperty ids symtab self p = EidosObjectElement.GetProperty p ∧
      EidosObjectElement.GetProperty p = Except.error (EidosError.unknown_property p)) ∧
    Substitution.GetProperty ids symtab self ids.gID_none =
      Except.error (EidosError.unknown_property ids.gID_none) := by
  have hdecl : (Substitution_Class.declared ids).map (fun sig => sig.property_id_) =
      ids.getCases := rfl
  obtain ⟨c1, c2, c3, c4, c5, c6, c7, c8, cd⟩ := getProperty_cases ids hids symtab self
  have hnone : ids.gID_none ∉ ids.getCases := (List.nodup_cons.mp hids).1
  refine ⟨hdecl, c1, c3, c5, c6, c7, c8, c4, c2, ?_, ?_, ?_⟩
  · intro p hp
    rw [hdecl] at hp
    simp only [GlobalIDs.getCases, List.mem_cons, List.mem_singleton, List.not_mem_nil,
      or_false] at hp
    rcases hp with rfl | rfl | rfl | rfl | rfl | rfl | rfl | rfl
    · exact ⟨_, c1⟩
    · exact ⟨_, c2⟩
    · exact ⟨_, c3⟩
    · exact ⟨_, c4⟩
    · exact ⟨_, c5⟩
    · exact ⟨_, c6⟩
    · exact ⟨_, c7⟩
    · exact ⟨_, c8⟩
  · intro p hp
    rw [hdecl] at hp
    exact ⟨cd p hp, rfl⟩
  · rw [cd _ hnone]
    rfl

/-- C10, witness: with the example IDs, reading `position` gives the field and reading the
unregistered ID 7 fails. -/
theorem C10_getProperty_dispatch_witness :
    exampleIDs.Distinct ∧
    Substitution.GetProperty exampleIDs EidosValue.Object_singleton (exampleSubstitution 3)
      102 = Except.ok (EidosValue.Int_singleton 30) ∧
    Substitution.GetProperty exampleIDs EidosValue.Object_singleton (exampleSubstitution 3)
      7 = Except.error (EidosError.unknown_property 7) :=
  ⟨by decide,
   (C10_getProperty_dispatch exampleIDs (by decide) EidosValue.Object_singleton
      (exampleSubstitution 3)).2.2.1,
   ((C10_getProperty_dispatch exampleIDs (by decide) EidosValue.Object_singleton
      (exampleSubstitution 3)).2.2.2.2.2.2.2.2.2.2.1 7 (by decide)).1⟩

theorem base_setProperty_fails (properties : List EidosPropertySignature) (p : Nat) :
    ∃ e, EidosObjectElement.SetProperty properties p = Except.error e := by
  unfold EidosObjectElement.SetProperty
  cases properties.find? (fun sig => decide (sig.property_id_ = p)) with
  | none => exact ⟨_, rfl⟩
  | some sig =>
    by_cases h : sig.read_only_ = true
    · exact ⟨EidosError.read_only_property sig.property_name_, by simp [h]⟩
    · exact ⟨EidosError.unknown_property p, by simp [h]⟩

/-- C11: when the property IDs are distinct, the IDs that `Substitution::SetProperty` handles
by itself, subpopID and tag, are exactly the IDs of the properties that
`Substitution_Class::Properties` declares with read-only = false: for them the outcome is
that of reading element 0 of the value and casting it, and the field is assigned only if
that succeeds.  For every other ID, those of the six read-only properties and the
undeclared ones, the outcome is that of the base `EidosObjectElement::SetProperty`, a
failure, and the fields are left unchanged. -/
theorem C11_setProperty_dispatch (ids : GlobalIDs) (hids : ids.Distinct) (env : SetPropertyEnv)
    (properties : List EidosPropertySignature) (self : Substitution) (p_value : EidosValue) :
    (∀ p, (p = ids.gID_subpopID ∨ p = ids.gID_tag) ↔
      ∃ sig ∈ Substitution_Class.declared ids, sig.property_id_ = p ∧ sig.read_only_ = false) ∧
    (∀ sig ∈ Substitution_Class.declared ids, sig.read_only_ = true ↔
      sig.property_id_ ∈ [ids.gID_id, ids.gID_mutationType, ids.gID_position,
        ids.gID_selectionCoeff, ids.gID_originGeneration, ids.gID_fixationGeneration]) ∧
    Substitution.SetProperty ids env properties self ids.gID_subpopID p_value =
      (match (env.IntAtIndex p_value 0).bind env.SLiMCastToObjectidTypeOrRaise with
       | Except.error e => (self, Except.error e)
       | Except.ok value => ({ self with subpop_index_ := value }, Except.ok ())) ∧
    Substitution.SetProperty ids env properties self ids.gID_tag p_value =
      (match (env.IntAtIndex p_value 0).bind env.SLiMCastToUsertagTypeOrRaise with
       | Except.error e => (self, Except.error e)
       | Except.ok value => ({ self with tag_value_ := value }, Except.ok ())) ∧
    (∀ p, p ≠ ids.gID_subpopID → p ≠ ids.gID_tag →
      Substitution.SetProperty ids env properties self p p_value =
        (self, EidosObjectElement.SetProperty properties p) ∧
      (Substitution.SetProperty ids env properties self p p_value).1 = self ∧
      ∃ e, (Substitution.SetProperty ids env properties self p p_value).2 = Except.error e) := by
  simp only [GlobalIDs.Distinct, GlobalIDs.getCases, List.nodup_cons, List.mem_cons,
    List.mem_singleton, not_or, List.not_mem_nil, not_false_eq_true, List.nodup_nil,
    and_true] at hids
  obtain ⟨-, ⟨h12, h13, h14, h15, h16, h17, h18⟩, ⟨h23, h24, h25, h26, h27, h28⟩,
    ⟨h34, h35, h36, h37, h38⟩, ⟨h45, h46, h47, h48⟩, ⟨h56, h57, h58⟩, ⟨h67, h68⟩, h78⟩ := hids
  refine ⟨?_, ?_, ?_, ?_, ?_⟩
  · intro p
    simp only [Substitution_Class.declared, List.mem_cons, List.mem_singleton,
      List.not_mem_nil, or_false]
    constructor
    · rintro (rfl | rfl)
      · exact ⟨_, Or.inr (Or.inr (Or.inr (Or.inr (Or.inl rfl)))), rfl, rfl⟩
      · exact ⟨_, Or.inr (Or.inr (Or.inr (Or.inr (Or.inr (Or.inr (Or.inr rfl)))))), rfl, rfl⟩
    · rintro ⟨sig, hsig, rfl, hro⟩
      rcases hsig with rfl | rfl | rfl | rfl | rfl | rfl | rfl | rfl <;> simp at hro ⊢
  · intro sig hsig
    simp only [Substitution_Class.declared, List.mem_cons, List.mem_singleton,
      List.not_mem_nil, or_false] at hsig
    rcases hsig with rfl | rfl | rfl | rfl | rfl | rfl | rfl | rfl <;>
      simp [Ne.symm h15, Ne.symm h25, Ne.symm h35, Ne.symm h45, h56, h57, Ne.symm h18,
        Ne.symm h28, Ne.symm h38, Ne.symm h48, Ne.symm h68, Ne.symm h78]
  · simp [Substitution.SetProperty]
  · simp [Substitution.SetProperty, Ne.symm h58]
  · intro p hp1 hp2
    have e : Substitution.SetProperty ids env properties self p p_value =
        (self, EidosObjectElement.SetProperty properties p) := by
      simp [Substitution.SetProperty, hp1, hp2]
    refine ⟨e, by rw [e], ?_⟩
    rw [e]
    exact base_setProperty_fails properties p

/-- C11, witness: with the example IDs, setting `tag` to 9 assigns the field, and setting the
read-only `position` fails with the read-only error and changes nothing. -/
theorem C11_setProperty_dispatch_witness :
    exampleIDs.Distinct ∧
    Substitution.SetProperty exampleIDs exampleEnv (Substitution_Class.declared exampleIDs)
      (exampleSubstitution 3) 107 (EidosValue.Int_singleton 9) =
      ({ exampleSubstitution 3 with tag_value_ := 9 }, Except.ok ()) ∧
    Substitution.SetProperty exampleIDs exampleEnv (Substitution_Class.declared exampleIDs)
      (exampleSubstitution 3) 102 (EidosValue.Int_singleton 9) =
      (exampleSubstitution 3, Except.error (EidosError.read_only_property "position")) := by
  have h := C11_setProperty_dispatch exampleIDs (by decide) exampleEnv
    (Substitution_Class.declared exampleIDs) (exampleSubstitution 3) (EidosValue.Int_singleton 9)
  refine ⟨by decide, ?_, ?_⟩
  · rw [show (107 : Nat) = exampleIDs.gID_tag from rfl, h.2.2.2.1]
    rfl
  · rw [(h.2.2.2.2 102 (by decide) (by decide)).1]
    rfl

theorem sortedBy_names (a b : EidosPropertySignature) :
    sortedBy CompareEidosPropertySignatures a b ↔ a.property_name_ ≤ b.property_name_ := by
  simp [sortedBy, CompareEidosPropertySignatures]

instance : IsTotal EidosPropertySignature (sortedBy CompareEidosPropertySignatures) :=
  ⟨fun a b => by
    rw [sortedBy_names, sortedBy_names]
    exact le_total _ _⟩

instance : IsTrans EidosPropertySignature (sortedBy CompareEidosPropertySignatures) :=
  ⟨fun a b c => by
    rw [sortedBy_names, sortedBy_names, sortedBy_names]
    exact le_trans⟩

theorem buildProperties_perm (base : List EidosPropertySignature) (ids : GlobalIDs) :
    List.Perm (Substitution_Class.buildProperties base ids)
      (base ++ Substitution_Class.declared ids) :=
  List.perm_insertionSort _ _

theorem properties_first (base : List EidosPropertySignature) (ids : GlobalIDs) :
    (Substitution_Class.Properties base ids none).1 =
      Substitution_Class.buildProperties base ids := rfl

theorem afterCalls_some (base : List EidosPropertySignature) (ids : GlobalIDs)
    (table : List EidosPropertySignature) :
    ∀ n, Substitution_Class.afterCalls base ids n (some table) = some table := by
  intro n
  induction n with
  | zero => rfl
  | succ n ih => simpa [Substitution_Class.afterCalls, Substitution_Class.Properties] using ih

/-- C13, as amended: building the table the way `Substitution_Class::Properties` does
(copy the base table, append the class's signatures, sort) performs no check and always
returns a table, which holds exactly the entries it was given: two of its entries share an
ID, or a name, exactly when two of the given signatures do.  The eight signatures of
`Substitution` have pairwise different IDs when the property IDs are distinct, so with a
base table free of duplicates and of these IDs the table returned by `Properties` holds no
two properties with the same ID. -/
theorem C13_properties_duplicates (base : List EidosPropertySignature) (ids : GlobalIDs) :
    (((Substitution_Class.Properties base ids none).1.map (fun sig => sig.property_id_)).Nodup ↔
      ((base ++ Substitution_Class.declared ids).map (fun sig => sig.property_id_)).Nodup) ∧
    (((Substitution_Class.Properties base ids none).1.map (fun sig => sig.property_name_)).Nodup ↔
      ((base ++ Substitution_Class.declared ids).map (fun sig => sig.property_name_)).Nodup) ∧
    (ids.Distinct → (base.map (fun sig => sig.property_id_)).Nodup →
      (∀ sig ∈ base, sig.property_id_ ∉ ids.getCases) →
      ((Substitution_Class.Properties base ids none).1.map (fun sig => sig.property_id_)).Nodup) := by
  have hp := buildProperties_perm base ids
  have h1 := (hp.map (fun sig => sig.property_id_)).nodup_iff
  have h2 := (hp.map (fun sig => sig.property_name_)).nodup_iff
  refine ⟨h1, h2, ?_⟩
  intro hids hb hdis
  apply h1.mpr
  rw [List.map_append]
  have hdecl : (Substitution_Class.declared ids).map (fun sig => sig.property_id_) =
      ids.getCases := rfl
  rw [hdecl]
  refine List.Nodup.append hb (List.nodup_cons.mp hids).2 ?_
  intro x hx hx2
  obtain ⟨sig, hsig, rfl⟩ := List.mem_map.mp hx
  exact hdis sig hsig hx2

/-- C13, witness: with the example IDs and an empty base table, the table has no two
properties with the same ID. -/
theorem C13_properties_duplicates_witness :
    exampleIDs.Distinct ∧
    ((Substitution_Class.Properties [] exampleIDs none).1.map
      (fun sig => sig.property_id_)).Nodup :=
  ⟨by decide,
   (C13_properties_duplicates [] exampleIDs).2.2 (by decide) (by simp) (by simp)⟩

/-- C13, counterexample: a base table that already holds a property named `id` with the ID
of `id`.  The table is built all the same, and two of its entries have that ID and that
name. -/
theorem C13_counterexample_duplicate :
    ∃ table, (Substitution_Class.Properties
        [{ property_name_ := "id", property_id_ := 100, read_only_ := true,
           value_mask_ := 4, accelerated_get_ := false }] exampleIDs none).1 = table ∧
      table.length = 9 ∧
      (table.map (fun sig => sig.property_id_)).count 100 = 2 ∧
      (table.map (fun sig => sig.property_name_)).count "id" = 2 := by
  refine ⟨_, rfl, ?_, ?_, ?_⟩
  · rw [properties_first, (buildProperties_perm _ exampleIDs).length_eq]
    rfl
  · rw [properties_first,
      ((buildProperties_perm _ exampleIDs).map (fun sig => sig.property_id_)).count_eq]
    decide
  · rw [properties_first,
      ((buildProperties_perm _ exampleIDs).map (fun sig => sig.property_name_)).count_eq]
    decide

/-- C14: the runtime-reserved IDs `gEidosID_none` through `gEidosID_color` are pairwise
distinct and all strictly below `gEidosID_LastEntry`, which is strictly below
`gEidosID_LastContextEntry = 10000`; hence every host-assigned ID `h` with
`gEidosID_LastEntry ≤ h < gEidosID_LastContextEntry` differs from every reserved ID. -/
theorem C14_reserved_ids_disjoint :
    reservedIDs.Nodup ∧ reservedIDs.length = 24 ∧
    (∀ r ∈ reservedIDs, r < gEidosID_LastEntry) ∧
    gEidosID_LastEntry < gEidosID_LastContextEntry ∧ gEidosID_LastContextEntry = 10000 ∧
    ∀ h, gEidosID_LastEntry ≤ h → h < gEidosID_LastContextEntry → ∀ r ∈ reservedIDs, h ≠ r := by
  have hlt : ∀ r ∈ reservedIDs, r < gEidosID_LastEntry := by decide
  refine ⟨by decide, rfl, hlt, by decide, rfl, ?_⟩
  intro h hle _ r hr e
  have := hlt r hr
  omega

/-- C14, witness: the first host ID, `gEidosID_LastEntry` itself, is none of the reserved
ones. -/
theorem C14_reserved_ids_disjoint_witness :
    gEidosID_LastEntry ≤ 24 ∧ 24 < gEidosID_LastContextEntry ∧ ∀ r ∈ reservedIDs, 24 ≠ r :=
  ⟨by decide, by decide, C14_reserved_ids_disjoint.2.2.2.2.2 24 (by decide) (by decide)⟩

/-- C15: the values of the `EidosValueType` enumerators increase strictly in promotion
order, `kValueNULL = 0 < kValueLogical < kValueInt < kValueFloat < kValueString <
kValueObject`; so for every two kinds among logical, integer, float and string the
promoted kind under the order logical < integer < float < string is the kind with the
larger enumerator value, and it does not depend on the order of the two kinds. -/
theorem C15_promotion_is_larger_enumerator :
    EidosValueType.kValueNULL.value = 0 ∧
    EidosValueType.kValueNULL.value < EidosValueType.kValueLogical.value ∧
    EidosValueType.kValueLogical.value < EidosValueType.kValueInt.value ∧
    EidosValueType.kValueInt.value < EidosValueType.kValueFloat.value ∧
    EidosValueType.kValueFloat.value < EidosValueType.kValueString.value ∧
    EidosValueType.kValueString.value < EidosValueType.kValueObject.value ∧
    (∀ k1 ∈ promotionOrder, ∀ k2 ∈ promotionOrder,
      promotedKind k1 k2 = largerEnumerator k1 k2 ∧
      promotedKind k1 k2 = promotedKind k2 k1 ∧
      largerEnumerator k1 k2 = largerEnumerator k2 k1 ∧
      (promotedKind k1 k2 = k1 ∨ promotedKind k1 k2 = k2) ∧
      k1.value ≤ (promotedKind k1 k2).value ∧ k2.value ≤ (promotedKind k1 k2).value) := by
  refine ⟨rfl, by decide, by decide, by decide, by decide, by decide, ?_⟩
  decide

/-- C15, witness: integer against float promotes to float, in both orders. -/
theorem C15_promotion_is_larger_enumerator_witness :
    EidosValueType.kValueInt ∈ promotionOrder ∧ EidosValueType.kValueFloat ∈ promotionOrder ∧
    promotedKind EidosValueType.kValueInt EidosValueType.kValueFloat =
      EidosValueType.kValueFloat ∧
    promotedKind EidosValueType.kValueFloat EidosValueType.kValueInt =
      EidosValueType.kValueFloat :=
  ⟨by decide, by decide,
   ((C15_promotion_is_larger_enumerator.2.2.2.2.2.2 EidosValueType.kValueInt (by decide)
      EidosValueType.kValueFloat (by decide)).1).trans (by decide),
   ((C15_promotion_is_larger_enumerator.2.2.2.2.2.2 EidosValueType.kValueFloat (by decide)
      EidosValueType.kValueInt (by decide)).1).trans (by decide)⟩

theorem element_kind_of_mem {v : Value} {e : Element} (h : e ∈ v.elements) :
    e.kind = v.ValueType := by
  cases v <;>
    simp only [Value.elements, List.mem_map, List.mem_singleton, List.not_mem_nil] at h <;>
    first
    | exact h.elim
    | (obtain ⟨_, _, rfl⟩ := h; rfl)

theorem compareChars_range : ∀ s t : List Char,
    compareChars s t = -1 ∨ compareChars s t = 0 ∨ compareChars s t = 1
  | [], [] => Or.inr (Or.inl rfl)
  | [], _ :: _ => Or.inl rfl
  | _ :: _, [] => Or.inr (Or.inr rfl)
  | a :: s, b :: t => by
    unfold compareChars
    by_cases h1 : a < b
    · simp [h1]
    · by_cases h2 : b < a
      · simp [h1, h2]
      · simpa [h1, h2] using compareChars_range s t

theorem comparisonKind_promotes (k1 k2 : EidosValueType) (h1 : k1 ∈ promotionOrder)
    (h2 : k2 ∈ promotionOrder) : comparisonKind k1 k2 = Except.ok (promotedKind k1 k2) := by
  have hn : EidosValueType.kValueNULL ∉ promotionOrder := by decide
  have ho : EidosValueType.kValueObject ∉ promotionOrder := by decide
  cases k1 <;> cases k2 <;>
    first
    | rfl
    | exact absurd h1 hn
    | exact absurd h1 ho
    | exact absurd h2 hn
    | exact absurd h2 ho

/-- The comparison of two elements of kinds of the promotion order, coerced to their
promoted kind: both coercions succeed, give elements of that kind, and compare to `-1`, `0`
or `1`. -/
theorem threeWay_promoted (ops : FloatOps) (e1 e2 : Element)
    (h1 : e1.kind ∈ promotionOrder) (h2 : e2.kind ∈ promotionOrder) :
    ∃ p1 p2 r, e1.coerce ops (promotedKind e1.kind e2.kind) = Except.ok p1 ∧
      e2.coerce ops (promotedKind e1.kind e2.kind) = Except.ok p2 ∧
      p1.kind = promotedKind e1.kind e2.kind ∧ p2.kind = promotedKind e1.kind e2.kind ∧
      threeWay ops p1 p2 = Except.ok r ∧ (r = -1 ∨ r = 0 ∨ r = 1) := by
  have hint : ∀ a b : Int, (if a < b then (-1 : Int) else if b < a then 1 else 0) = -1 ∨
      (if a < b then (-1 : Int) else if b < a then 1 else 0) = 0 ∨
      (if a < b then (-1 : Int) else if b < a then 1 else 0) = 1 := by
    intro a b
    by_cases c1 : a < b
    · simp [c1]
    · by_cases c2 : b < a <;> simp [c1, c2]
  have hflt : ∀ a b : Double,
      (if ops.lt a b = true then (-1 : Int) else if ops.lt b a = true then 1 else 0) = -1 ∨
      (if ops.lt a b = true then (-1 : Int) else if ops.lt b a = true then 1 else 0) = 0 ∨
      (if ops.lt a b = true then (-1 : Int) else if ops.lt b a = true then 1 else 0) = 1 := by
    intro a b
    by_cases c1 : ops.lt a b = true
    · simp [c1]
    · by_cases c2 : ops.lt b a = true <;> simp [c1, c2]
  have hlog : ∀ a b : Bool,
      (if a = b then (0 : Int) else if a = false then -1 else 1) = -1 ∨
      (if a = b then (0 : Int) else if a = false then -1 else 1) = 0 ∨
      (if a = b then (0 : Int) else if a = false then -1 else 1) = 1 := by
    intro a b
    cases a <;> cases b <;> simp
  have ho : EidosValueType.kValueObject ∉ promotionOrder := by decide
  cases e1 with
  | object p => exact absurd h1 ho
  | logical a =>
    cases e2 with
    | object p => exact absurd h2 ho
    | logical b => exact ⟨_, _, _, rfl, rfl, rfl, rfl, rfl, hlog a b⟩
    | int b => exact ⟨_, _, _, rfl, rfl, rfl, rfl, rfl, hint _ _⟩
    | float b => exact ⟨_, _, _, rfl, rfl, rfl, rfl, rfl, hflt _ _⟩
    | string b => exact ⟨_, _, _, rfl, rfl, rfl, rfl, rfl, compareChars_range _ _⟩
  | int a =>
    cases e2 with
    | object p => exact absurd h2 ho
    | logical b => exact ⟨_, _, _, rfl, rfl, rfl, rfl, rfl, hint _ _⟩
    | int b => exact ⟨_, _, _, rfl, rfl, rfl, rfl, rfl, hint _ _⟩
    | float b => exact ⟨_, _, _, rfl, rfl, rfl, rfl, rfl, hflt _ _⟩
    | string b => exact ⟨_, _, _, rfl, rfl, rfl, rfl, rfl, compareChars_range _ _⟩
  | float a =>
    cases e2 with
    | object p => exact absurd h2 ho
    | logical b => exact ⟨_, _, _, rfl, rfl, rfl, rfl, rfl, hflt _ _⟩
    | int b => exact ⟨_, _, _, rfl, rfl, rfl, rfl, rfl, hflt _ _⟩
    | float b => exact ⟨_, _, _, rfl, rfl, rfl, rfl, rfl, hflt _ _⟩
    | string b => exact ⟨_, _, _, rfl, rfl, rfl, rfl, rfl, compareChars_range _ _⟩
  | string a =>
    cases e2 with
    | object p => exact absurd h2 ho
    | logical b => exact ⟨_, _, _, rfl, rfl, rfl, rfl, rfl, compareChars_range _ _⟩
    | int b => exact ⟨_, _, _, rfl, rfl, rfl, rfl, rfl, compareChars_range _ _⟩
    | float b => exact ⟨_, _, _, rfl, rfl, rfl, rfl, rfl, compareChars_range _ _⟩
    | string b => exact ⟨_, _, _, rfl, rfl, rfl, rfl, rfl, compareChars_range _ _⟩

/-- C16: for every two values whose kinds are among logical, integer, float and string, and
every valid pair of indices, `CompareEidosValues` returns a result, which is `-1`, `0` or
`1` and is the three-way comparison of the two elements after both are coerced to the
promoted kind of the two values, the higher of their kinds in the order logical < integer <
float < string.  For example integer 5 against the float 5.0 (the double that 5 converts
to, which is not less than itself) gives 0, and integer 2 against the string `"10"` is
compared as strings and gives 1. -/
theorem C16_compare_promotes (ops : FloatOps) (v1 v2 : Value) (i1 i2 : Nat) (e1 e2 : Element)
    (hk1 : v1.ValueType ∈ promotionOrder) (hk2 : v2.ValueType ∈ promotionOrder)
    (h1 : v1.elements.get? i1 = some e1) (h2 : v2.elements.get? i2 = some e2) :
    (∃ p1 p2 r,
      e1.coerce ops (promotedKind v1.ValueType v2.ValueType) = Except.ok p1 ∧
      e2.coerce ops (promotedKind v1.ValueType v2.ValueType) = Except.ok p2 ∧
      p1.kind = promotedKind v1.ValueType v2.ValueType ∧
      p2.kind = promotedKind v1.ValueType v2.ValueType ∧
      threeWay ops p1 p2 = Except.ok r ∧
      CompareEidosValues ops v1 i1 v2 i2 = Except.ok r ∧ (r = -1 ∨ r = 0 ∨ r = 1)) ∧
    (ops.lt (ops.ofInt 5) (ops.ofInt 5) = false →
      CompareEidosValues ops (Value.Int_singleton false 5) 0
        (Value.Float_singleton false (ops.ofInt 5)) 0 = Except.ok 0) ∧
    CompareEidosValues ops (Value.Int_singleton false 2) 0
      (Value.String_singleton false "10") 0 = Except.ok 1 := by
  refine ⟨?_, ?_, ?_⟩
  · have hm1 : e1 ∈ v1.elements := List.get?_mem h1
    have hm2 : e2 ∈ v2.elements := List.get?_mem h2
    have ek1 := element_kind_of_mem hm1
    have ek2 := element_kind_of_mem hm2
    rw [← ek1] at hk1
    rw [← ek2] at hk2
    obtain ⟨p1, p2, r, c1, c2, k1, k2, t, hr⟩ := threeWay_promoted ops e1 e2 hk1 hk2
    rw [ek1, ek2] at c1 c2 k1 k2
    rw [ek1] at hk1
    rw [ek2] at hk2
    refine ⟨p1, p2, r, c1, c2, k1, k2, t, ?_, hr⟩
    unfold CompareEidosValues
    rw [comparisonKind_promotes _ _ hk1 hk2]
    show CompareEidosValues_kind ops _ v1 i1 v2 i2 = Except.ok r
    unfold CompareEidosValues_kind Value.AtIndex
    rw [h1, h2]
    show (e1.coerce ops _).bind _ = _
    rw [c1]
    show (e2.coerce ops _).bind _ = _
    rw [c2]
    exact t
  · intro h
    show Except.ok (if ops.lt (ops.ofInt 5) (ops.ofInt 5) = true then (-1 : Int)
      else if ops.lt (ops.ofInt 5) (ops.ofInt 5) = true then 1 else 0) = Except.ok 0
    rw [h]
    rfl
  · rfl

/-- C16, witness: the integer at index 1 of an integer vector against the float held by a
singleton, with the example float operations. -/
theorem C16_compare_promotes_witness :
    (Value.Int_vector false [3, 7]).ValueType ∈ promotionOrder ∧
    (Value.Float_singleton false ⟨5⟩).ValueType ∈ promotionOrder ∧
    ∃ r, CompareEidosValues exampleFloatOps (Value.Int_vector false [3, 7]) 1
      (Value.Float_singleton false ⟨5⟩) 0 = Except.ok r ∧ (r = -1 ∨ r = 0 ∨ r = 1) := by
  refine ⟨by decide, by decide, ?_⟩
  obtain ⟨_, _, r, -, -, -, -, -, h, hr⟩ :=
    (C16_compare_promotes exampleFloatOps (Value.Int_vector false [3, 7])
      (Value.Float_singleton false ⟨5⟩) 1 0 (Element.int 7) (Element.float ⟨5⟩)
      (by decide) (by decide) rfl rfl).1
  exact ⟨r, h, hr⟩

/-- C17: for every two values of which at least one has kind NULL, whatever the indices,
`CompareEidosValues` fails, with the error of a comparison with NULL, instead of returning a
result, and so does the selection of a compare function by
`EidosGetCompareFunctionForTypes` for every pair of kinds of which one is NULL. -/
theorem C17_compare_null_fails (ops : FloatOps) :
    (∀ (v1 v2 : Value) (i1 i2 : Nat),
      v1.ValueType = EidosValueType.kValueNULL ∨ v2.ValueType = EidosValueType.kValueNULL →
      CompareEidosValues ops v1 i1 v2 i2 = Except.error EidosError.null_comparison) ∧
    (∀ k1 k2 : EidosValueType,
      k1 = EidosValueType.kValueNULL ∨ k2 = EidosValueType.kValueNULL →
      ∃ e, EidosGetCompareFunctionForTypes ops k1 k2 = Except.error e) := by
  constructor
  · intro v1 v2 i1 i2 h
    simp [CompareEidosValues, comparisonKind, h]
    rfl
  · intro k1 k2 h
    refine ⟨EidosError.null_comparison, ?_⟩
    simp [EidosGetCompareFunctionForTypes, comparisonKind, h]
    rfl

/-- C17, witness: the visible NULL against an integer, in either position. -/
theorem C17_compare_null_fails_witness :
    CompareEidosValues exampleFloatOps (Value.NULL false) 0 (Value.Int_singleton false 1) 0 =
      Except.error EidosError.null_comparison ∧
    CompareEidosValues exampleFloatOps (Value.Int_singleton false 1) 0 (Value.NULL true) 0 =
      Except.error EidosError.null_comparison :=
  ⟨(C17_compare_null_fails exampleFloatOps).1 _ _ 0 0 (Or.inl rfl),
   (C17_compare_null_fails exampleFloatOps).1 _ _ 0 0 (Or.inr rfl)⟩

/-- C18, as amended: on every singleton value (of `EidosValue_Int_singleton`,
`EidosValue_Float_singleton`, `EidosValue_String_singleton`, `EidosValue_Object_singleton`)
and on every constant logical, each mutation entry point (`SetValueAtIndex`,
`PushValueFromIndexOfEidosValue`, `Sort`, `PushLogical`, `SetLogicalAtIndex`) fails and
leaves the value, its element included, as it was.  The public interface of the four
singleton classes has other members that do replace the element: `SetValue` of the integer,
float and string singletons and the reference returned by `ObjectElementValue_Mutable`;
the constant logicals have none. -/
theorem C18_singleton_mutation_fails (ops : FloatOps) (v : Value) (m : Mutation)
    (hs : v.isSingleton = true) :
    (v.mutate ops m).1 = v ∧ (v.mutate ops m).1.elements = v.elements ∧
    (v.mutate ops m).2 = Except.error EidosError.immutable_value ∧
    (∀ i x y, ((Value.Int_singleton i x).SetValue (Element.int y)).elements = [Element.int y]) ∧
    (∀ i x y,
      ((Value.Float_singleton i x).SetValue (Element.float y)).elements = [Element.float y]) ∧
    (∀ i x y,
      ((Value.String_singleton i x).SetValue (Element.string y)).elements =
        [Element.string y]) ∧
    (∀ i x y,
      ((Value.Object_singleton i x).ObjectElementValue_Mutable_write y).elements =
        [Element.object y]) ∧
    (∀ i xs e y, (Value.Logical_const i xs).SetValue e = Value.Logical_const i xs ∧
      (Value.Logical_const i xs).ObjectElementValue_Mutable_write y =
        Value.Logical_const i xs) := by
  have h1 : v.mutate ops m = (v, Except.error EidosError.immutable_value) := by
    unfold Value.mutate
    rw [if_pos hs]
  refine ⟨by rw [h1], by rw [h1], by rw [h1], fun _ _ _ => rfl, fun _ _ _ => rfl,
    fun _ _ _ => rfl, fun _ _ _ => rfl, ?_⟩
  intro i xs e y
  constructor
  · cases e <;> rfl
  · rfl

/-- C18, witness: sorting the integer singleton 5 fails and leaves it as it was. -/
theorem C18_singleton_mutation_fails_witness :
    (Value.Int_singleton false 5).isSingleton = true ∧
    ((Value.Int_singleton false 5).mutate exampleFloatOps (Mutation.Sort true)).1 =
      Value.Int_singleton false 5 ∧
    ((Value.Int_singleton false 5).mutate exampleFloatOps (Mutation.Sort true)).2 =
      Except.error EidosError.immutable_value :=
  ⟨rfl,
   (C18_singleton_mutation_fails exampleFloatOps (Value.Int_singleton false 5)
      (Mutation.Sort true) rfl).1,
   (C18_singleton_mutation_fails exampleFloatOps (Value.Int_singleton false 5)
      (Mutation.Sort true) rfl).2.2.1⟩

/-- C18, counterexample: `SetValue(7)`, a public member of `EidosValue_Int_singleton`, on
the singleton holding 5: the singleton then holds 7. -/
theorem C18_counterexample_setValue :
    (Value.Int_singleton false 5).isSingleton = true ∧
    (Value.Int_singleton false 5).elements = [Element.int 5] ∧
    ((Value.Int_singleton false 5).SetValue (Element.int 7)).elements = [Element.int 7] ∧
    ((Value.Int_singleton false 5).SetValue (Element.int 7)).isSingleton = true := by
  decide

theorem copyValues_shape (v : Value) :
    v.CopyValues.elements = v.elements ∧ v.CopyValues.Invisible = false ∧
    v.CopyValues.ValueType = v.ValueType := by
  cases v <;> exact ⟨rfl, rfl, rfl⟩

theorem mutateAll_at_frame (ops : FloatOps) (c a : Nat) (hne : c ≠ a) (ms : List Mutation) :
    ∀ heap : ValueHeap, (mutateAll_at ops heap c ms).get? a = heap.get? a := by
  induction ms with
  | nil => intro heap; rfl
  | cons m ms ih =>
    intro heap
    show (mutateAll_at ops (mutate_at ops heap c m).1 c ms).get? a = heap.get? a
    rw [ih]
    unfold mutate_at
    cases heap.get? c with
    | none => rfl
    | some w => simp [List.getElem?_set, hne]

/-- C19: for every value object `v`, `CopyValues()` returns a value with the same `Count()`
and the same elements in the same order, whose `Invisible()` flag is false, and which is
another object than `v`; the call leaves `v` as it is, and whatever mutations (set at
index, push, sort, successful or not) are then applied to the copy, `v` keeps its count and
its elements. -/
theorem C19_copy_is_independent (ops : FloatOps) (heap : ValueHeap) (self : Nat) (v : Value)
    (h : heap.get? self = some v) :
    ∃ heap1 c w, CopyValues_at heap self = some (heap1, c) ∧ c ≠ self ∧
      heap1.get? self = some v ∧ heap1.get? c = some w ∧
      w.Count = v.Count ∧ w.elements = v.elements ∧ w.Invisible = false ∧
      ∀ ms : List Mutation, ∃ v1, (mutateAll_at ops heap1 c ms).get? self = some v1 ∧
        v1 = v ∧ v1.Count = v.Count ∧ v1.elements = v.elements := by
  have hlt : self < heap.length := by
    rcases Nat.lt_or_ge self heap.length with h1 | h1
    · exact h1
    · rw [List.get?_eq_none.mpr h1] at h
      cases h
  have hne : heap.length ≠ self := Nat.ne_of_gt hlt
  have hself : (heap ++ [v.CopyValues]).get? self = some v := by
    rw [List.get?_eq_getElem?, List.getElem?_append_left hlt, ← List.get?_eq_getElem?]
    exact h
  refine ⟨heap ++ [v.CopyValues], heap.length, v.CopyValues, ?_, hne, hself, ?_, ?_,
    (copyValues_shape v).1, (copyValues_shape v).2.1, ?_⟩
  · unfold CopyValues_at
    rw [h]
  · simp
  · simp [Value.Count, (copyValues_shape v).1]
  · intro ms
    exact ⟨v, by rw [mutateAll_at_frame ops _ _ hne ms]; exact hself, rfl, rfl, rfl⟩

/-- C19, witness: the invisible integer vector (4, 2) is copied, and the copy is sorted and
appended to; the original still holds (4, 2). -/
theorem C19_copy_is_independent_witness :
    ∃ heap1 c w, CopyValues_at [Value.Int_vector true [4, 2]] 0 = some (heap1, c) ∧ c ≠ 0 ∧
      heap1.get? c = some w ∧ w.elements = [Element.int 4, Element.int 2] ∧
      w.Invisible = false ∧
      (mutateAll_at exampleFloatOps heap1 c
        [Mutation.Sort true,
         Mutation.PushValueFromIndexOfEidosValue 0 (Value.Int_singleton false 9)]).get? 0 =
        some (Value.Int_vector true [4, 2]) := by
  obtain ⟨heap1, c, w, h1, h2, -, h4, -, h6, h7, h8⟩ :=
    C19_copy_is_independent exampleFloatOps [Value.Int_vector true [4, 2]] 0
      (Value.Int_vector true [4, 2]) rfl
  obtain ⟨v1, h9, h10, -⟩ := h8 [Mutation.Sort true,
    Mutation.PushValueFromIndexOfEidosValue 0 (Value.Int_singleton false 9)]
  exact ⟨heap1, c, w, h1, h2, h4, h6, h7, h10 ▸ h9⟩

/-- In a list with distinct IDs the reverse lookup of the ID of an entry finds that entry. -/
theorem find_by_id {entries : List (String × Nat)} {e : String × Nat}
    (hn : (entries.map fun x => x.2).Nodup) (he : e ∈ entries) :
    entries.find? (fun x => decide (x.2 = e.2)) = some e := by
  induction entries with
  | nil => cases he
  | cons a l ih =>
    rw [List.map_cons, List.nodup_cons] at hn
    rcases List.mem_cons.mp he with rfl | hl
    · simp
    · have hne : a.2 ≠ e.2 := by
        intro h
        exact hn.1 (h ▸ List.mem_map_of_mem (fun x => x.2) hl)
      rw [List.find?_cons_of_neg _ (by simpa using hne)]
      exact ih hn.2 hl

/-- In a list with distinct strings the lookup of the string of an entry finds that entry. -/
theorem find_by_name {entries : List (String × Nat)} {e : String × Nat}
    (hn : (entries.map fun x => x.1).Nodup) (he : e ∈ entries) :
    entries.find? (fun x => decide (x.1 = e.1)) = some e := by
  induction entries with
  | nil => cases he
  | cons a l ih =>
    rw [List.map_cons, List.nodup_cons] at hn
    rcases List.mem_cons.mp he with rfl | hl
    · simp
    · have hne : a.1 ≠ e.1 := by
        intro h
        exact hn.1 (h ▸ List.mem_map_of_mem (fun x => x.1) hl)
      rw [List.find?_cons_of_neg _ (by simpa using hne)]
      exact ih hn.2 hl

/-- The empty registry is well formed. -/
theorem wf_empty : Registry.empty.WF := by
  refine ⟨by simp [Registry.empty], by simp [Registry.empty], ?_, by decide, ?_⟩
  · intro e he
    cases he
  · intro _ e he
    cases he

/-- A string that a registry does not hold is the string of none of its entries. -/
theorem not_hasString {r : Registry} {x : String} (h : r.hasString x = false) :
    ∀ e ∈ r.entries, e.1 ≠ x := by
  intro e he hx
  have : r.hasString x = true := List.any_eq_true.mpr ⟨e, he, by simp [hx]⟩
  rw [h] at this
  cases this

/-- An ID that a registry does not hold is the ID of none of its entries. -/
theorem not_hasID {r : Registry} {id : Nat} (h : r.hasID id = false) :
    ∀ e ∈ r.entries, e.2 ≠ id := by
  intro e he hx
  have : r.hasID id = true := List.any_eq_true.mpr ⟨e, he, by simp [hx]⟩
  rw [h] at this
  cases this

/-- An allowed lookup in a well-formed registry: the registry stays well formed, the string
is registered under the ID returned, and what was registered stays so. -/
theorem intern_spec (r : Registry) (hr : r.WF) (x : String)
    (ha : (RegistryCall.intern x).allowed r = true) :
    (EidosGlobalStringIDForString r x).2.WF ∧
    (x, (EidosGlobalStringIDForString r x).1) ∈ (EidosGlobalStringIDForString r x).2.entries ∧
    (∀ e ∈ r.entries, e ∈ (EidosGlobalStringIDForString r x).2.entries) := by
  obtain ⟨h1, h2, h3, h4, h5⟩ := hr
  unfold EidosGlobalStringIDForString
  cases hf : r.entries.find? (fun e => decide (e.1 = x)) with
  | some e =>
    have hm := List.mem_of_find?_eq_some hf
    have hx : e.1 = x := by simpa using List.find?_some hf
    refine ⟨⟨h1, h2, h3, h4, h5⟩, ?_, fun _ h => h⟩
    show (x, e.2) ∈ r.entries
    rw [← hx]
    exact hm
  | none =>
    have hnot : ∀ e ∈ r.entries, e.1 ≠ x := by
      intro e he
      have := List.find?_eq_none.mp hf e he
      simpa using this
    have hs : r.hasString x = false := by
      cases hq : r.hasString x with
      | false => rfl
      | true =>
        obtain ⟨e, he, hex⟩ := List.any_eq_true.mp hq
        exact absurd (by simpa using hex) (hnot e he)
    have hle : gEidosID_LastContextEntry ≤ r.nextID := by
      simpa [RegistryCall.allowed, hs] using ha
    have hlt := h5 hle
    refine ⟨⟨?_, ?_, ?_, ?_, ?_⟩, ?_, ?_⟩
    · show ((r.entries ++ [(x, r.nextID)]).map fun e => e.1).Nodup
      rw [List.map_append]
      refine List.Nodup.append h1 (by simp) ?_
      intro a ha hb
      obtain ⟨e, he, rfl⟩ := List.mem_map.mp ha
      simp at hb
      exact hnot e he hb
    · show ((r.entries ++ [(x, r.nextID)]).map fun e => e.2).Nodup
      rw [List.map_append]
      refine List.Nodup.append h2 (by simp) ?_
      intro a ha hb
      obtain ⟨e, he, rfl⟩ := List.mem_map.mp ha
      simp at hb
      have := hlt e he
      omega
    · intro e he
      rcases List.mem_append.mp he with h | h
      · exact h3 e h
      · simp at h
        subst h
        exact h4
    · exact Nat.mod_lt _ (by decide)
    · intro hn e he
      show e.2 < (r.nextID + 1) % UINT32_MOD
      have hn2 : gEidosID_LastContextEntry ≤ (r.nextID + 1) % UINT32_MOD := hn
      have hM : UINT32_MOD = 4294967296 := rfl
      have hL : gEidosID_LastContextEntry = 10000 := rfl
      rw [hM] at h4 hn2 ⊢
      rw [hL] at hn2
      have hmod : (r.nextID + 1) % 4294967296 = r.nextID + 1 := by omega
      rw [hmod]
      rcases List.mem_append.mp he with h | h
      · exact Nat.lt_succ_of_lt (hlt e h)
      · simp at h
        subst h
        exact Nat.lt_succ_self _
    · show (x, r.nextID) ∈ r.entries ++ [(x, r.nextID)]
      simp
    · intro e he
      show e ∈ r.entries ++ [(x, r.nextID)]
      exact List.mem_append_left _ he

/-- An allowed registration keeps the registry well formed. -/
theorem register_wf (r : Registry) (hr : r.WF) (x : String) (id : Nat)
    (ha : (RegistryCall.register x id).allowed r = true) :
    (Eidos_RegisterStringForGlobalID r x id).WF := by
  obtain ⟨h1, h2, h3, h4, h5⟩ := hr
  simp only [RegistryCall.allowed, Bool.and_eq_true, Bool.not_eq_true', decide_eq_true_eq]
    at ha
  obtain ⟨⟨hs, hi⟩, hid⟩ := ha
  have hL : gEidosID_LastContextEntry = 10000 := rfl
  have hM : UINT32_MOD = 4294967296 := rfl
  refine ⟨?_, ?_, ?_, h4, ?_⟩
  · show ((r.entries ++ [(x, id)]).map fun e => e.1).Nodup
    rw [List.map_append]
    refine List.Nodup.append h1 (by simp) ?_
    intro a ha hb
    obtain ⟨e, he, rfl⟩ := List.mem_map.mp ha
    simp at hb
    exact not_hasString hs e he hb
  · show ((r.entries ++ [(x, id)]).map fun e => e.2).Nodup
    rw [List.map_append]
    refine List.Nodup.append h2 (by simp) ?_
    intro a ha hb
    obtain ⟨e, he, rfl⟩ := List.mem_map.mp ha
    simp at hb
    exact not_hasID hi e he hb
  · intro e he
    rcases List.mem_append.mp (show e ∈ r.entries ++ [(x, id)] from he) with h | h
    · exact h3 e h
    · simp at h
      subst h
      show id < UINT32_MOD
      rw [hM]
      rw [hL] at hid
      omega
  · intro hn e he
    rcases List.mem_append.mp (show e ∈ r.entries ++ [(x, id)] from he) with h | h
    · exact h5 hn e h
    · simp at h
      subst h
      show id < r.nextID
      have : gEidosID_LastContextEntry ≤ r.nextID := hn
      omega

/-- Running two sequences of calls one after the other. -/
theorem after_append (a b : List RegistryCall) :
    ∀ r : Registry, r.after (a ++ b) = (r.after a).after b := by
  induction a with
  | nil => intro r; rfl
  | cons c a ih =>
    intro r
    cases c with
    | register x id => exact ih _
    | intern x => exact ih _

/-- A sequence of calls is allowed when its two parts are, each where it is made. -/
theorem allowedCalls_append (a b : List RegistryCall) :
    ∀ r : Registry, allowedCalls r (a ++ b) = (allowedCalls r a && allowedCalls (r.after a) b) := by
  induction a with
  | nil => intro r; simp [allowedCalls, Registry.after]
  | cons c a ih =>
    intro r
    have e : r.after (c :: a) = (r.after [c]).after a := after_append [c] a r
    show (c.allowed r && allowedCalls (r.after [c]) (a ++ b)) =
      ((c.allowed r && allowedCalls (r.after [c]) a) && allowedCalls (r.after (c :: a)) b)
    rw [ih, e, Bool.and_assoc]

/-- Allowed calls keep the registry well formed. -/
theorem after_wf (calls : List RegistryCall) :
    ∀ r : Registry, r.WF → allowedCalls r calls = true → (r.after calls).WF := by
  induction calls with
  | nil => intro r h _; exact h
  | cons c calls ih =>
    intro r h ha
    simp only [allowedCalls, Bool.and_eq_true] at ha
    cases c with
    | register x id => exact ih _ (register_wf r h x id ha.1) ha.2
    | intern x => exact ih _ (intern_spec r h x ha.1).1 ha.2

/-- C20, as amended: in the registry reached from the empty one by a sequence of allowed
calls (registrations of strings and IDs not registered before, with IDs below
`gEidosID_LastContextEntry`; lookups, of which those of new strings find the `uint32_t`
counter not yet wrapped), for strings `x` and `y` whose lookups are allowed as well:
`EidosGlobalStringIDForString(x)` called twice returns the same ID (and the second call
changes nothing), `StringForEidosGlobalStringID` of that ID is `x`, at once and after the
lookup of `y`, and a `y` different from `x` does not receive that ID; the registry stays a
bijection between its strings and its IDs, and the IDs returned are `uint32_t` values. -/
theorem C20_registry_bijection (calls : List RegistryCall) (x y : String)
    (h : allowedCalls Registry.empty
      (calls ++ [RegistryCall.intern x, RegistryCall.intern y]) = true) :
    (EidosGlobalStringIDForString
        (EidosGlobalStringIDForString (Registry.empty.after calls) x).2 x).1 =
      (EidosGlobalStringIDForString (Registry.empty.after calls) x).1 ∧
    (EidosGlobalStringIDForString
        (EidosGlobalStringIDForString (Registry.empty.after calls) x).2 x).2 =
      (EidosGlobalStringIDForString (Registry.empty.after calls) x).2 ∧
    StringForEidosGlobalStringID (EidosGlobalStringIDForString (Registry.empty.after calls) x).2
        (EidosGlobalStringIDForString (Registry.empty.after calls) x).1 = Except.ok x ∧
    StringForEidosGlobalStringID
        (EidosGlobalStringIDForString
          (EidosGlobalStringIDForString (Registry.empty.after calls) x).2 y).2
        (EidosGlobalStringIDForString (Registry.empty.after calls) x).1 = Except.ok x ∧
    (x ≠ y →
      (EidosGlobalStringIDForString
          (EidosGlobalStringIDForString (Registry.empty.after calls) x).2 y).1 ≠
        (EidosGlobalStringIDForString (Registry.empty.after calls) x).1) ∧
    (EidosGlobalStringIDForString (Registry.empty.after calls) x).2.WF ∧
    (EidosGlobalStringIDForString (Registry.empty.after calls) x).1 < UINT32_MOD ∧
    (EidosGlobalStringIDForString
        (EidosGlobalStringIDForString (Registry.empty.after calls) x).2 y).1 < UINT32_MOD := by
  rw [allowedCalls_append, Bool.and_eq_true] at h
  obtain ⟨hc, hxy⟩ := h
  simp only [allowedCalls, Registry.after, Bool.and_true, Bool.and_eq_true] at hxy
  obtain ⟨hax, hay⟩ := hxy
  have hr : (Registry.empty.after calls).WF := after_wf calls _ wf_empty hc
  obtain ⟨hwa, hma, -⟩ := intern_spec _ hr x hax
  generalize EidosGlobalStringIDForString (Registry.empty.after calls) x = a at hwa hma hay ⊢
  obtain ⟨ida, ra⟩ := a
  simp only at hwa hma hay ⊢
  have hfind : ra.entries.find? (fun e => decide (e.1 = x)) = some (x, ida) :=
    find_by_name hwa.1 hma
  have hsecond : EidosGlobalStringIDForString ra x = (ida, ra) := by
    unfold EidosGlobalStringIDForString
    rw [hfind]
  obtain ⟨hwc, hmc, hmono⟩ := intern_spec ra hwa y hay
  have hname : ∀ r : Registry, r.WF → (x, ida) ∈ r.entries →
      StringForEidosGlobalStringID r ida = Except.ok x := by
    intro r hw hm
    unfold StringForEidosGlobalStringID
    rw [find_by_id hw.2.1 hm]
  refine ⟨by rw [hsecond], by rw [hsecond], hname ra hwa hma, hname _ hwc (hmono _ hma), ?_, hwa,
    hwa.2.2.1 _ hma, hwc.2.2.1 _ hmc⟩
  intro hxy heq
  have e1 := find_by_id hwc.2.1 (hmono _ hma)
  have e2 := find_by_id hwc.2.1 hmc
  simp only at e1 e2
  rw [heq] at e2
  rw [e1] at e2
  have := congrArg Prod.fst (Option.some.inj e2)
  exact hxy this

/-- C20, witness: after the warm-up has registered `size` under 2, interning `foo` twice
gives one ID, and interning `bar` gives another. -/
theorem C20_registry_bijection_witness :
    ("foo" : String) ≠ "bar" ∧
    (EidosGlobalStringIDForString
        (EidosGlobalStringIDForString
          (Registry.empty.after [RegistryCall.register "size" 2]) "foo").2 "bar").1 ≠
      (EidosGlobalStringIDForString
        (Registry.empty.after [RegistryCall.register "size" 2]) "foo").1 :=
  ⟨by decide,
   (C20_registry_bijection [RegistryCall.register "size" 2] "foo" "bar" (by decide)).2.2.2.2.1
     (by decide)⟩

/-- Different lengths give different strings. -/
theorem freshString_inj {i j : Nat} (h : freshString i = freshString j) : i = j := by
  have h2 : List.replicate i 'a' = List.replicate j 'a' := congrArg String.data h
  have := congrArg List.length h2
  simpa using this

/-- No string of letters `a` is the string `size`. -/
theorem freshString_ne_size (n : Nat) : freshString n ≠ "size" := by
  intro h
  have h2 : List.replicate n 'a' = ['s', 'i', 'z', 'e'] := congrArg String.data h
  cases n with
  | zero => simp at h2
  | succ n =>
    rw [List.replicate_succ] at h2
    injection h2 with h4 _
    exact absurd h4 (by decide)

/-- Looking up the next fresh string: it gets the value of the counter, which is then
incremented as a `uint32_t`. -/
theorem intern_internedAfterSize (n : Nat) :
    EidosGlobalStringIDForString (internedAfterSize n) (freshString n) =
      ((gEidosID_LastContextEntry + n) % UINT32_MOD, internedAfterSize (n + 1)) := by
  have hf : (internedAfterSize n).entries.find? (fun e => decide (e.1 = freshString n)) =
      none := by
    rw [List.find?_eq_none]
    intro e he
    simp only [internedAfterSize, List.mem_cons, List.mem_map, List.mem_range] at he
    rcases he with rfl | ⟨i, hi, rfl⟩
    · simpa using (freshString_ne_size n).symm
    · have : freshString i ≠ freshString n := fun h => by
        have := freshString_inj h
        omega
      simpa using this
  unfold EidosGlobalStringIDForString
  rw [hf]
  have hM : UINT32_MOD = 4294967296 := rfl
  have hL : gEidosID_LastContextEntry = 10000 := rfl
  have hnext : ((gEidosID_LastContextEntry + n) % UINT32_MOD + 1) % UINT32_MOD =
      (gEidosID_LastContextEntry + (n + 1)) % UINT32_MOD := by
    rw [hM, hL]
    omega
  simp only [internedAfterSize, hnext, List.range_succ, List.map_append, List.map_cons,
    List.map_nil, List.cons_append]

/-- The registry after the lookups of the first `n` fresh strings. -/
theorem after_internCalls (n : Nat) :
    (internedAfterSize 0).after (internCalls n) = internedAfterSize n := by
  induction n with
  | zero => rfl
  | succ n ih =>
    show (internedAfterSize 0).after (internCalls n ++ [RegistryCall.intern (freshString n)]) = _
    rw [after_append, ih]
    show (EidosGlobalStringIDForString (internedAfterSize n) (freshString n)).2 = _
    rw [intern_internedAfterSize]

/-- A registration at the head of a sequence of calls. -/
theorem after_register_cons (r : Registry) (x : String) (id : Nat)
    (calls : List RegistryCall) :
    r.after (RegistryCall.register x id :: calls) =
      (Eidos_RegisterStringForGlobalID r x id).after calls := rfl

/-- Registering `size` in the empty registry. -/
theorem register_size_empty :
    Eidos_RegisterStringForGlobalID Registry.empty "size" gEidosID_size =
      internedAfterSize 0 := by
  simp [Eidos_RegisterStringForGlobalID, Registry.empty, internedAfterSize,
    gEidosID_LastContextEntry, UINT32_MOD]

/-- No function gives different `uint32_t` values to all strings. -/
theorem no_injection_into_uint32 (f : String → Nat) (hf : ∀ x, f x < UINT32_MOD) :
    ∃ x y, x ≠ y ∧ f x = f y := by
  let g : Fin (UINT32_MOD + 1) → Fin UINT32_MOD := fun i => ⟨f (freshString i.1), hf _⟩
  have hc : Fintype.card (Fin UINT32_MOD) < Fintype.card (Fin (UINT32_MOD + 1)) := by
    rw [Fintype.card_fin, Fintype.card_fin]
    exact Nat.lt_succ_self _
  obtain ⟨i, j, hij, hg⟩ := Fintype.exists_ne_map_eq_of_card_lt g hc
  refine ⟨freshString i.1, freshString j.1, ?_, ?_⟩
  · intro h
    exact hij (Fin.ext (freshString_inj h))
  · exact congrArg Fin.val hg

/-- C20, counterexample: after `size` has been registered under `gEidosID_size` and
`2 ^ 32 - 10000 + 2` other strings have been looked up, the `uint32_t` counter has wrapped
and come to `gEidosID_size`: the next new string receives the ID of `size`, and
`StringForEidosGlobalStringID` of the ID it received is `size`, not the string looked up.
However the IDs are chosen, no function gives different `uint32_t` values to all strings. -/
theorem C20_counterexample_exhausted :
    (∃ r, Registry.empty.after
          (RegistryCall.register "size" gEidosID_size :: internCalls 4294957298) = r ∧
      freshString 4294957298 ≠ "size" ∧
      (EidosGlobalStringIDForString r "size").1 = gEidosID_size ∧
      (EidosGlobalStringIDForString r (freshString 4294957298)).1 = gEidosID_size ∧
      StringForEidosGlobalStringID
        (EidosGlobalStringIDForString r (freshString 4294957298)).2
        (EidosGlobalStringIDForString r (freshString 4294957298)).1 = Except.ok "size") ∧
    ∀ f : String → Nat, (∀ x, f x < UINT32_MOD) → ∃ x y, x ≠ y ∧ f x = f y := by
  have h2 : (gEidosID_LastContextEntry + 4294957298) % UINT32_MOD = gEidosID_size := by
    decide
  refine ⟨⟨internedAfterSize 4294957298, ?_, freshString_ne_size _, ?_, ?_, ?_⟩,
    no_injection_into_uint32⟩
  · rw [after_register_cons, register_size_empty]
    exact after_internCalls _
  · show (EidosGlobalStringIDForString (internedAfterSize 4294957298) "size").1 = gEidosID_size
    unfold EidosGlobalStringIDForString
    have hfind : (internedAfterSize 4294957298).entries.find?
        (fun e => decide (e.1 = "size")) = some ("size", gEidosID_size) := by
      unfold internedAfterSize
      exact List.find?_cons_of_pos _ (by decide)
    rw [hfind]
  · rw [intern_internedAfterSize]
    exact h2
  · rw [intern_internedAfterSize]
    show StringForEidosGlobalStringID (internedAfterSize (4294957298 + 1))
      ((gEidosID_LastContextEntry + 4294957298) % UINT32_MOD) = Except.ok "size"
    rw [h2]
    unfold StringForEidosGlobalStringID
    have hfind : (internedAfterSize (4294957298 + 1)).entries.find?
        (fun e => decide (e.2 = gEidosID_size)) = some ("size", gEidosID_size) := by
      unfold internedAfterSize
      exact List.find?_cons_of_pos _ (by decide)
    rw [hfind]

theorem filter_lt_range (k : Nat) : ∀ n, k ≤ n →
    ((List.range n).filter fun i => decide (i < k)).length = k := by
  intro n
  induction n with
  | zero =>
    intro h
    have : k = 0 := Nat.le_zero.mp h
    subst this
    rfl
  | succ n ih =>
    intro h
    rw [List.range_succ, List.filter_append, List.length_append]
    rcases Nat.lt_or_ge k (n + 1) with hk | hk
    · have hle : k ≤ n := Nat.lt_succ_iff.mp hk
      have hn : ¬ (n < k) := Nat.not_lt.mpr hle
      rw [ih hle]
      simp [hn]
    · have hk2 : k = n + 1 := Nat.le_antisymm h hk
      subst hk2
      have hall : ∀ i ∈ List.range n, decide (i < n + 1) = true := by
        intro i hi
        have := List.mem_range.mp hi
        simpa using Nat.lt_succ_of_lt this
      rw [List.filter_eq_self.mpr hall]
      simp

/-- C21: `SexOfIndividual(i)` is `kHermaphrodite` for every `i` when sex is not enabled.
When sex is enabled it is `kFemale` if `i < F` and `kMale` otherwise, where `F` is
`child_first_male_index_` if `child_generation_valid` and `parent_first_male_index_`
otherwise; so every index at or after a male index is male, and when `0 ≤ F ≤ size` exactly
`F` of the indices `0 .. size - 1` are female. -/
theorem C21_sexOfIndividual (self : Subpopulation) :
    (self.sex_enabled_ = false →
      ∀ i, self.SexOfIndividual i = IndividualSex.kHermaphrodite) ∧
    (self.sex_enabled_ = true →
      (∀ i, self.SexOfIndividual i =
        if i < self.firstMale then IndividualSex.kFemale else IndividualSex.kMale) ∧
      (∀ i j, i ≤ j → self.SexOfIndividual i = IndividualSex.kMale →
        self.SexOfIndividual j = IndividualSex.kMale) ∧
      (∀ size : Nat, 0 ≤ self.firstMale → self.firstMale ≤ size →
        (self.femaleCount size : Int) = self.firstMale)) := by
  have hsex : self.sex_enabled_ = true → ∀ i, self.SexOfIndividual i =
      if i < self.firstMale then IndividualSex.kFemale else IndividualSex.kMale := by
    intro hs i
    unfold Subpopulation.SexOfIndividual Subpopulation.firstMale
    by_cases hc : self.child_generation_valid = true <;> simp [hs, hc]
  refine ⟨?_, fun hs => ⟨hsex hs, ?_, ?_⟩⟩
  · intro hs i
    simp [Subpopulation.SexOfIndividual, hs]
  · intro i j hij hi
    rw [hsex hs] at hi ⊢
    by_cases h1 : i < self.firstMale
    · simp [h1] at hi
    · have h2 : ¬ (j < self.firstMale) := by omega
      simp [h2]
  · intro size h0 hle
    obtain ⟨k, hk⟩ := Int.eq_ofNat_of_zero_le h0
    have hkn : k ≤ size := by omega
    have hf : (fun i : Nat =>
        decide (self.SexOfIndividual (Int.ofNat i) = IndividualSex.kFemale)) =
        fun i => decide (i < k) := by
      funext i
      rw [hsex hs, hk]
      show decide ((if (i : Int) < (k : Int) then IndividualSex.kFemale
        else IndividualSex.kMale) = IndividualSex.kFemale) = decide (i < k)
      by_cases h : i < k
      · have : ((i : Int) < (k : Int)) := by exact_mod_cast h
        simp [h, this]
      · have : ¬ ((i : Int) < (k : Int)) := by exact_mod_cast h
        simp [h, this]
    unfold Subpopulation.femaleCount
    rw [hf, filter_lt_range k size hkn, hk]

/-- C21, witness: in the example subpopulation 2 of the 5 indices are female and index 2
is male. -/
theorem C21_sexOfIndividual_witness :
    exampleSubpopulation.sex_enabled_ = true ∧
    (exampleSubpopulation.femaleCount 5 : Int) = 2 ∧
    exampleSubpopulation.SexOfIndividual 2 = IndividualSex.kMale :=
  ⟨rfl,
   ((C21_sexOfIndividual exampleSubpopulation).2 rfl).2.2 5 (by decide) (by decide),
   (((C21_sexOfIndividual exampleSubpopulation).2 rfl).1 2).trans (by decide)⟩

/-- C22: the six kind bits are pairwise disjoint and each is 1 shifted left by the value of
its `EidosValueType` enumerator; `kEidosValueMaskNumeric` is Int|Float and permits exactly
integer and float, `kEidosValueMaskLogicalEquiv` is Logical|Int|Float,
`kEidosValueMaskAnyBase` is every kind bit except that of objects and `kEidosValueMaskAny`
all six; and for every mask `m`, `m & kEidosValueMaskFlagStrip` has the Optional and the
Singleton flag clear and has every kind bit as `m` has it. -/
theorem C22_value_masks :
    (∀ k, kindBit k = 1 <<< k.value) ∧
    (∀ k1 k2, k1 ≠ k2 → kindBit k1 &&& kindBit k2 = 0) ∧
    kEidosValueMaskNumeric = kindBit EidosValueType.kValueInt |||
      kindBit EidosValueType.kValueFloat ∧
    kEidosValueMaskLogicalEquiv = kindBit EidosValueType.kValueLogical |||
      kindBit EidosValueType.kValueInt ||| kindBit EidosValueType.kValueFloat ∧
    kEidosValueMaskAnyBase = kindBit EidosValueType.kValueNULL |||
      kindBit EidosValueType.kValueLogical ||| kindBit EidosValueType.kValueInt |||
      kindBit EidosValueType.kValueFloat ||| kindBit EidosValueType.kValueString ∧
    kEidosValueMaskAny = kindBit EidosValueType.kValueNULL |||
      kindBit EidosValueType.kValueLogical ||| kindBit EidosValueType.kValueInt |||
      kindBit EidosValueType.kValueFloat ||| kindBit EidosValueType.kValueString |||
      kindBit EidosValueType.kValueObject ∧
    (∀ k, permits kEidosValueMaskNumeric k = true ↔
      k = EidosValueType.kValueInt ∨ k = EidosValueType.kValueFloat) ∧
    (∀ k, permits kEidosValueMaskLogicalEquiv k = true ↔
      k = EidosValueType.kValueLogical ∨ k = EidosValueType.kValueInt ∨
        k = EidosValueType.kValueFloat) ∧
    (∀ k, permits kEidosValueMaskAnyBase k = true ↔ k ≠ EidosValueType.kValueObject) ∧
    (∀ k, permits kEidosValueMaskAny k = true) ∧
    (∀ m : Nat,
      (m &&& kEidosValueMaskFlagStrip) &&& kEidosValueMaskOptional = 0 ∧
      (m &&& kEidosValueMaskFlagStrip) &&& kEidosValueMaskSingleton = 0 ∧
      ∀ k, (m &&& kEidosValueMaskFlagStrip) &&& kindBit k = m &&& kindBit k) := by
  refine ⟨?_, ?_, by decide, by decide, by decide, by decide, ?_, ?_, ?_, ?_, ?_⟩
  · intro k
    cases k <;> decide
  · intro k1 k2 h
    cases k1 <;> cases k2 <;> first | exact absurd rfl h | decide
  · intro k
    cases k <;> decide
  · intro k
    cases k <;> decide
  · intro k
    cases k <;> decide
  · intro k
    cases k <;> decide
  · intro m
    have ho : kEidosValueMaskFlagStrip &&& kEidosValueMaskOptional = 0 := by decide
    have hs : kEidosValueMaskFlagStrip &&& kEidosValueMaskSingleton = 0 := by decide
    refine ⟨?_, ?_, ?_⟩
    · rw [Nat.land_assoc, ho, Nat.and_zero]
    · rw [Nat.land_assoc, hs, Nat.and_zero]
    · intro k
      have hk : kEidosValueMaskFlagStrip &&& kindBit k = kindBit k := by
        cases k <;> decide
      rw [Nat.land_assoc, hk]

/-! ### Overflow-detecting operations -/

/-- A value of `int64_t` wraps to itself. -/
theorem wrap64_of_in {x : Int} (h : inInt64 x = true) : wrap64 x = x := by
  simp only [inInt64, INT64_MIN, INT64_MAX, Bool.and_eq_true, decide_eq_true_eq] at h
  unfold wrap64
  omega

/-- The wrapped value is a value of `int64_t`. -/
theorem wrap64_in (x : Int) : inInt64 (wrap64 x) = true := by
  simp only [inInt64, INT64_MIN, INT64_MAX, Bool.and_eq_true, decide_eq_true_eq]
  unfold wrap64
  omega

/-- A value outside `int64_t` is changed by wrapping. -/
theorem wrap64_ne_of_out {x : Int} (h : inInt64 x = false) : wrap64 x ≠ x := by
  intro he
  have := wrap64_in x
  rw [he, h] at this
  exact Bool.noConfusion this

/-- Wrapping keeps the residue modulo `2 ^ 64`. -/
theorem wrap64_congr (x : Int) : (wrap64 x - x) % 2 ^ 64 = 0 := by
  unfold wrap64
  omega

/-- The relation `OverflowSpec` holds of the built-in and the fallback of any operation. -/
theorem overflowSpec_of (impl : SignedOverflow) (exact : Int) :
    OverflowSpec exact (builtin_overflow exact)
      (fun i => (int64_arith i exact).map fun c => (c, false)) impl := by
  unfold OverflowSpec builtin_overflow
  cases hin : inInt64 exact
  · have hne := wrap64_ne_of_out hin
    refine ⟨by simp [hne], wrap64_in _, wrap64_congr _, fun h => Bool.noConfusion h, ?_, ?_, ?_⟩
    · intro _
      simp [int64_arith, hin]
    · simp [int64_arith, hin, wrapping]
    · simp [int64_arith, hin, wrapping, hne]
  · have he := wrap64_of_in hin
    refine ⟨by simp [he], wrap64_in _, wrap64_congr _, ?_, fun h => Bool.noConfusion h, ?_, ?_⟩
    · intro _
      simp [int64_arith, hin, he]
    · simp [int64_arith, hin, he]
    · simp [int64_arith, hin, he]

/-- C24: for all `int64_t` operands the built-in `Eidos_add_overflow`, `Eidos_sub_overflow`
and `Eidos_mul_overflow` return true exactly when the mathematical result lies outside
`[-2^63, 2^63 - 1]` and store the result reduced modulo `2^64`; the fallback definitions
return false and store the exact result when it lies in that range, as the built-ins do; when
it does not, the fallback evaluates an overflowing signed operation and gives what the
implementation makes of it: on a wrapping implementation the wrapped value that the built-in
stores, with the flag false, so that the flags agree exactly when no overflow occurs. -/
theorem C24_overflow_operations (impl : SignedOverflow) (a b : Int)
    (_ha : inInt64 a = true) (_hb : inInt64 b = true) :
    OverflowSpec (a + b) (Eidos_add_overflow a b) (fun i => Eidos_add_overflow_fallback i a b)
      impl ∧
    OverflowSpec (a - b) (Eidos_sub_overflow a b) (fun i => Eidos_sub_overflow_fallback i a b)
      impl ∧
    OverflowSpec (a * b) (Eidos_mul_overflow a b) (fun i => Eidos_mul_overflow_fallback i a b)
      impl :=
  ⟨overflowSpec_of impl (a + b), overflowSpec_of impl (a - b), overflowSpec_of impl (a * b)⟩

/-- Witness of C24 at `INT64_MAX + 1` on the trapping implementation. -/
theorem C24_overflow_operations_witness :
    inInt64 INT64_MAX = true ∧ inInt64 1 = true ∧
    OverflowSpec (INT64_MAX + 1) (Eidos_add_overflow INT64_MAX 1)
      (fun i => Eidos_add_overflow_fallback i INT64_MAX 1) trapping :=
  ⟨by decide, by decide, (C24_overflow_operations trapping INT64_MAX 1 (by decide) (by decide)).1⟩

/-- Counterexample to C24 as stated: at `INT64_MAX + 1`, `INT64_MIN - 1` and `INT64_MAX * 2`
the built-ins store the wrapped result and return true, while the fallback, on an
implementation where signed overflow traps, stores nothing. -/
theorem C24_counterexample_signed_overflow :
    inInt64 INT64_MAX = true ∧ inInt64 1 = true ∧
    Eidos_add_overflow INT64_MAX 1 = (INT64_MIN, true) ∧
    Eidos_add_overflow_fallback trapping INT64_MAX 1 = none ∧
    Eidos_sub_overflow INT64_MIN 1 = (INT64_MAX, true) ∧
    Eidos_sub_overflow_fallback trapping INT64_MIN 1 = none ∧
    Eidos_mul_overflow INT64_MAX 2 = (-2, true) ∧
    Eidos_mul_overflow_fallback trapping INT64_MAX 2 = none := by
  decide

/-! ### Drawing parents and setting properties -/

/-- C25: with sex enabled, `0 < parent_first_male_index_ < parent_subpop_size_` and the
generator returning a value below the bound of each call, `DrawFemaleParentEqualProbability`
returns an index in `[0, parent_first_male_index_)` and `DrawMaleParentEqualProbability` one
in `[parent_first_male_index_, parent_subpop_size_)`, which `SexOfIndividual` classifies as
`kFemale` and `kMale` when `child_generation_valid` is false; with sex disabled and a
positive size `DrawParentEqualProbability` returns an index in `[0, parent_subpop_size_)`. -/
theorem C25_draws_in_range (DEBUG : Bool) (gsl_rng_uniform_int : Nat → Nat)
    (self : Subpopulation) (hsize : inInt self.parent_subpop_size_ = true)
    (hfirst : inInt self.parent_first_male_index_ = true) :
    (self.sex_enabled_ = true →
      0 < self.parent_first_male_index_ →
      self.parent_first_male_index_ < self.parent_subpop_size_ →
      gsl_rng_uniform_int (to_unsigned_long self.parent_first_male_index_) <
        to_unsigned_long self.parent_first_male_index_ →
      gsl_rng_uniform_int (to_unsigned_long
          (static_cast_int (self.parent_subpop_size_ - self.parent_first_male_index_))) <
        to_unsigned_long
          (static_cast_int (self.parent_subpop_size_ - self.parent_first_male_index_)) →
      ∃ f m, self.DrawFemaleParentEqualProbability DEBUG gsl_rng_uniform_int = some f ∧
        self.DrawMaleParentEqualProbability DEBUG gsl_rng_uniform_int = some m ∧
        0 ≤ f ∧ f < self.parent_first_male_index_ ∧
        self.parent_first_male_index_ ≤ m ∧ m < self.parent_subpop_size_ ∧
        (self.child_generation_valid = false →
          self.SexOfIndividual f = IndividualSex.kFemale ∧
          self.SexOfIndividual m = IndividualSex.kMale)) ∧
    (self.sex_enabled_ = false →
      0 < self.parent_subpop_size_ →
      gsl_rng_uniform_int (to_unsigned_long self.parent_subpop_size_) <
        to_unsigned_long self.parent_subpop_size_ →
      ∃ r, self.DrawParentEqualProbability DEBUG gsl_rng_uniform_int = some r ∧
        0 ≤ r ∧ r < self.parent_subpop_size_) := by
  simp only [inInt, Bool.and_eq_true, decide_eq_true_eq] at hsize hfirst
  constructor
  · intro hsex h0 hlt hf hm
    have hd : static_cast_int (self.parent_subpop_size_ - self.parent_first_male_index_) =
        self.parent_subpop_size_ - self.parent_first_male_index_ := by
      unfold static_cast_int
      omega
    rw [hd] at hm
    have hu1 : (to_unsigned_long self.parent_first_male_index_ : Int) =
        self.parent_first_male_index_ := by
      unfold to_unsigned_long
      omega
    have hu2 : (to_unsigned_long
        (self.parent_subpop_size_ - self.parent_first_male_index_) : Int) =
        self.parent_subpop_size_ - self.parent_first_male_index_ := by
      unfold to_unsigned_long
      omega
    have hF : 0 ≤ static_cast_int
          (gsl_rng_uniform_int (to_unsigned_long self.parent_first_male_index_)) ∧
        static_cast_int
          (gsl_rng_uniform_int (to_unsigned_long self.parent_first_male_index_)) <
        self.parent_first_male_index_ := by
      unfold static_cast_int
      omega
    have hM : self.parent_first_male_index_ ≤ static_cast_int
          (((gsl_rng_uniform_int
              (to_unsigned_long
                (self.parent_subpop_size_ - self.parent_first_male_index_)) +
            to_unsigned_long self.parent_first_male_index_) % 2 ^ 64 : Nat) : Int) ∧
        static_cast_int
          (((gsl_rng_uniform_int
              (to_unsigned_long
                (self.parent_subpop_size_ - self.parent_first_male_index_)) +
            to_unsigned_long self.parent_first_male_index_) % 2 ^ 64 : Nat) : Int) <
        self.parent_subpop_size_ := by
      unfold static_cast_int
      omega
    refine ⟨_, _, ?_, ?_, hF.1, hF.2, hM.1, hM.2, ?_⟩
    · simp [Subpopulation.DrawFemaleParentEqualProbability, hsex]
    · simp only [Subpopulation.DrawMaleParentEqualProbability, hsex, not_true_eq_false,
        and_false, if_false, hd]
    · intro hc
      have hnl : ¬ (static_cast_int
          (((gsl_rng_uniform_int
              (to_unsigned_long
                (self.parent_subpop_size_ - self.parent_first_male_index_)) +
            to_unsigned_long self.parent_first_male_index_) % 2 ^ 64 : Nat) : Int) <
          self.parent_first_male_index_) := not_lt.mpr hM.1
      constructor
      · simp only [Subpopulation.SexOfIndividual, hsex, hc, not_true_eq_false, if_false,
          Bool.false_eq_true, hF.2, if_true]
      · simp only [Subpopulation.SexOfIndividual, hsex, hc, not_true_eq_false, if_false,
          Bool.false_eq_true, hnl]
  · intro hsex h0 hp
    have hu : (to_unsigned_long self.parent_subpop_size_ : Int) = self.parent_subpop_size_ := by
      unfold to_unsigned_long
      omega
    have hR : 0 ≤ static_cast_int
          (gsl_rng_uniform_int (to_unsigned_long self.parent_subpop_size_)) ∧
        static_cast_int
          (gsl_rng_uniform_int (to_unsigned_long self.parent_subpop_size_)) <
        self.parent_subpop_size_ := by
      unfold static_cast_int
      omega
    refine ⟨_, ?_, hR.1, hR.2⟩
    simp [Subpopulation.DrawParentEqualProbability, hsex]

/-- Witness of C25 on the two example subpopulations, in the debug build. -/
theorem C25_draws_in_range_witness :
    (∃ f m, exampleSubpopulation.DrawFemaleParentEqualProbability true exampleRng = some f ∧
      exampleSubpopulation.DrawMaleParentEqualProbability true exampleRng = some m ∧
      0 ≤ f ∧ f < 2 ∧ 2 ≤ m ∧ m < 5 ∧
      exampleSubpopulation.SexOfIndividual f = IndividualSex.kFemale ∧
      exampleSubpopulation.SexOfIndividual m = IndividualSex.kMale) ∧
    (∃ r, exampleAsexualSubpopulation.DrawParentEqualProbability true exampleRng = some r ∧
      0 ≤ r ∧ r < 5) := by
  constructor
  · obtain ⟨f, m, h1, h2, h3, h4, h5, h6, h7⟩ :=
      (C25_draws_in_range true exampleRng exampleSubpopulation (by decide) (by decide)).1
        rfl (by decide) (by decide) (by decide) (by decide)
    exact ⟨f, m, h1, h2, h3, h4, h5, h6, h7 rfl⟩
  · exact (C25_draws_in_range true exampleRng exampleAsexualSubpopulation (by decide)
      (by decide)).2 rfl (by decide) (by decide)

/-- C26: for a value whose element 0 is the integer `n`, accepted by the range cast,
`SetProperty(tag, v)` returns normally and changes only `tag_value_`, `SetProperty(subpopID, v)`
changes only `subpop_index_`, each to `n`; the following `GetProperty` of the same property
returns the integer singleton `n`, and that of every other property what it returned before. -/
theorem C26_setProperty_frame (ids : GlobalIDs) (env : SetPropertyEnv)
    (properties : List EidosPropertySignature) (SymbolTableEntry_second : Addr → EidosValue)
    (self : Substitution) (v : EidosValue) (n : Int) (hd : ids.Distinct)
    (hv : env.IntAtIndex v 0 = Except.ok n) :
    (env.SLiMCastToUsertagTypeOrRaise n = Except.ok n →
      ∃ after, Substitution.SetProperty ids env properties self ids.gID_tag v =
          (after, Except.ok ()) ∧
        after.tag_value_ = n ∧
        after.mutation_type_ptr_ = self.mutation_type_ptr_ ∧
        after.position_ = self.position_ ∧
        after.selection_coeff_ = self.selection_coeff_ ∧
        after.subpop_index_ = self.subpop_index_ ∧
        after.generation_ = self.generation_ ∧
        after.fixation_generation_ = self.fixation_generation_ ∧
        after.mutation_id_ = self.mutation_id_ ∧
        Substitution.GetProperty ids SymbolTableEntry_second after ids.gID_tag =
          Except.ok (EidosValue.Int_singleton n) ∧
        ∀ p, p ≠ ids.gID_tag →
          Substitution.GetProperty ids SymbolTableEntry_second after p =
            Substitution.GetProperty ids SymbolTableEntry_second self p) ∧
    (env.SLiMCastToObjectidTypeOrRaise n = Except.ok n →
      ∃ after, Substitution.SetProperty ids env properties self ids.gID_subpopID v =
          (after, Except.ok ()) ∧
        after.subpop_index_ = n ∧
        after.mutation_type_ptr_ = self.mutation_type_ptr_ ∧
        after.position_ = self.position_ ∧
        after.selection_coeff_ = self.selection_coeff_ ∧
        after.tag_value_ = self.tag_value_ ∧
        after.generation_ = self.generation_ ∧
        after.fixation_generation_ = self.fixation_generation_ ∧
        after.mutation_id_ = self.mutation_id_ ∧
        Substitution.GetProperty ids SymbolTableEntry_second after ids.gID_subpopID =
          Except.ok (EidosValue.Int_singleton n) ∧
        ∀ p, p ≠ ids.gID_subpopID →
          Substitution.GetProperty ids SymbolTableEntry_second after p =
            Substitution.GetProperty ids SymbolTableEntry_second self p) := by
  simp only [GlobalIDs.Distinct, GlobalIDs.getCases, List.nodup_cons, List.mem_cons,
    List.mem_singleton, List.not_mem_nil, not_or, or_false] at hd
  obtain ⟨-, ⟨h12, h13, h14, h15, h16, h17, h18⟩, ⟨h23, h24, h25, h26, h27, h28⟩,
    ⟨h34, h35, h36, h37, h38⟩, ⟨h45, h46, h47, h48⟩, ⟨h56, h57, h58⟩, ⟨h67, h68⟩, h78, -⟩ := hd
  constructor
  · intro hc
    refine ⟨{ self with tag_value_ := n }, ?_, rfl, rfl, rfl, rfl, rfl, rfl, rfl, rfl, ?_, ?_⟩
    · simp [Substitution.SetProperty, Ne.symm h58, hv, hc, Except.bind]
    · simp [Substitution.GetProperty, Ne.symm h18, Ne.symm h28, Ne.symm h38, Ne.symm h48,
        Ne.symm h58, Ne.symm h68, Ne.symm h78]
    · intro p hp
      simp [Substitution.GetProperty, hp]
  · intro hc
    refine ⟨{ self with subpop_index_ := n }, ?_, rfl, rfl, rfl, rfl, rfl, rfl, rfl, rfl, ?_, ?_⟩
    · simp [Substitution.SetProperty, hv, hc, Except.bind]
    · simp [Substitution.GetProperty, Ne.symm h15, Ne.symm h25, Ne.symm h35, Ne.symm h45]
    · intro p hp
      simp [Substitution.GetProperty, hp]

/-- Witness of C26: setting the tag of an example substitution to 42. -/
theorem C26_setProperty_frame_witness :
    ∃ after, Substitution.SetProperty exampleIDs exampleEnv [] (exampleSubstitution 3)
        exampleIDs.gID_tag (EidosValue.Int_singleton 42) = (after, Except.ok ()) ∧
      after.tag_value_ = 42 ∧ after.subpop_index_ = 1 ∧
      Substitution.GetProperty exampleIDs (fun _ => EidosValue.Int_singleton 0) after
        exampleIDs.gID_tag = Except.ok (EidosValue.Int_singleton 42) := by
  obtain ⟨after, h1, h2, -, -, -, h3, -, -, -, h4, -⟩ :=
    (C26_setProperty_frame exampleIDs exampleEnv [] (fun _ => EidosValue.Int_singleton 0)
      (exampleSubstitution 3) (EidosValue.Int_singleton 42) 42 (by decide) rfl).1 (by simp [exampleEnv])
  exact ⟨after, h1, h2, h3, h4⟩

/-! ### `reset`, `swap` and `detach` -/

/-- C27: for a live handle `this` holding `old` (not deleted if non-null), `reset()` succeeds,
leaves the handle null and releases `old` exactly once if it is non-null; `reset(p)` succeeds
in two phases, first one `add_ref` on `p` if it is non-null (reaching `s'`), then one
`release` on `old` if it is non-null (reaching `s1`), and leaves the handle holding `p`; other
handles are unchanged.  When the handle already holds `p` and the count of `p` is 1, the
count is 2 after the first phase and 1 at the end, `p` is deleted in neither state, and the
log gains exactly one `add_ref` and one `release`. -/
theorem C27_reset (s : State) (this : Nat) (old p : Addr)
    (hthis : s.px this = some old) (hdo : old ≠ 0 → s.deleted old = false)
    (hdp : p ≠ 0 → s.deleted p = false) (hto : s.intrusive_ref_count old < UINT_MOD) :
    (∃ s1, step s (Op.reset this) = some s1 ∧ s1.px this = some 0 ∧
      (∀ j, j ≠ this → s1.px j = s.px j) ∧ ReleaseEffect s s1 old) ∧
    (∃ s' s1, ctor_raw_px s p true = some s' ∧ tmp_swap_dtor s' this p = some s1 ∧
      step s (Op.reset_raw this p true) = some s1 ∧
      s1.px this = some p ∧ (∀ j, j ≠ this → s1.px j = s.px j) ∧
      AddRefEffect s s' p ∧ ReleaseEffect s' s1 old ∧
      (old = p → p ≠ 0 → s.intrusive_ref_count p = 1 →
        s'.intrusive_ref_count p = 2 ∧ s'.deleted p = false ∧
        s1.intrusive_ref_count p = 1 ∧ s1.deleted p = false ∧
        s1.intrusive_ref_count = s.intrusive_ref_count ∧ s1.deleted = s.deleted ∧
        s1.log = s.log ++ [Event.add_ref p, Event.release p])) := by
  constructor
  · obtain ⟨s1, k1, k2, k3⟩ := tmp_swap_dtor_effect s this 0 old hthis hdo hto
    have hp : ∀ j, s1.px j = if j = this then some 0 else s.px j :=
      fun j => px_of_handles_set 0 j hthis k2
    refine ⟨s1, by simp [step, k1], by simp [hp], ?_, k3⟩
    intro j hj
    rw [hp, if_neg hj]
  · obtain ⟨s', g1, g2, g3⟩ := ctor_copy_px_effect s p hdp
    rw [← ctor_raw_px_true] at g1
    have hpx' : s'.px this = some old := by simpa [State.px, g2] using hthis
    have hdo' : old ≠ 0 → s'.deleted old = false := by
      intro h
      rw [g3.1]
      exact hdo h
    have hcnt' : p ≠ 0 → s'.intrusive_ref_count =
        Function.update s.intrusive_ref_count p (uint_inc (s.intrusive_ref_count p)) := by
      intro h
      have := g3.2
      rw [if_neg h] at this
      exact this.1
    have hcnt0 : p = 0 → s'.intrusive_ref_count = s.intrusive_ref_count := by
      intro h
      have := g3.2
      rw [if_pos h] at this
      exact this.1
    have hto' : s'.intrusive_ref_count old < UINT_MOD := by
      by_cases h0 : p = 0
      · rw [hcnt0 h0]
        exact hto
      · rw [hcnt' h0]
        by_cases e : old = p
        · subst e
          rw [Function.update_same]
          exact Nat.mod_lt _ (by decide)
        · rw [Function.update_noteq e]
          exact hto
    obtain ⟨s1, k1, k2, k3⟩ := tmp_swap_dtor_effect s' this p old hpx' hdo' hto'
    have hp : ∀ j, s1.px j = if j = this then some p else s'.px j :=
      fun j => px_of_handles_set p j hpx' k2
    have hps : ∀ j, s'.px j = s.px j := fun j => by simp [State.px, g2]
    refine ⟨s', s1, g1, k1, by simp [step, g1, k1], by simp [hp], ?_, g3, k3, ?_⟩
    · intro j hj
      rw [hp, if_neg hj, hps]
    · intro e h0 hc
      subst e
      unfold ReleaseEffect at k3
      rw [if_neg h0] at k3
      have hl' : s'.log = s.log ++ [Event.add_ref old] := by
        have := g3.2
        rw [if_neg h0] at this
        exact this.2
      have hc' : s'.intrusive_ref_count old = 2 := by
        rw [hcnt' h0, Function.update_same, hc]
        decide
      have hdi : uint_dec (s'.intrusive_ref_count old) = 1 := by
        rw [hc']
        decide
      rw [hdi] at k3
      have hne : ¬ ((1 : Nat) = 0) := by decide
      rw [if_neg hne, if_neg hne] at k3
      refine ⟨hc', hdo' h0, ?_, ?_, ?_, ?_, ?_⟩
      · rw [k3.1, Function.update_same]
      · rw [k3.2.1]
        exact hdo' h0
      · rw [k3.1, hcnt' h0, Function.update_idem, ← hc, Function.update_eq_self]
      · rw [k3.2.1, g3.1]
      · rw [k3.2.2, hl']
        simp

/-- Witness of C27: the only handle to referent 1 is reset, and is reset to its own referent. -/
theorem C27_reset_witness :
    (∃ s1, step (built 1 1) (Op.reset 0) = some s1 ∧ s1.px 0 = some 0 ∧
      ReleaseEffect (built 1 1) s1 1) ∧
    (∃ s1, step (built 1 1) (Op.reset_raw 0 1 true) = some s1 ∧ s1.px 0 = some 1 ∧
      s1.intrusive_ref_count 1 = 1 ∧ s1.deleted 1 = false) := by
  obtain ⟨⟨s1, h1, h2, -, h4⟩, ⟨_, s2, -, -, k3, k4, -, -, -, k8⟩⟩ :=
    C27_reset (built 1 1) 0 1 1 (by decide) (fun _ => rfl) (fun _ => rfl) (by decide)
  obtain ⟨-, -, k9, k10, -⟩ := k8 rfl (by decide) (by decide)
  exact ⟨⟨s1, h1, h2, h4⟩, ⟨s2, k3, k4, k9, k10⟩⟩

/-- Writing back the former entries at `a` and `b` restores the list. -/
theorem set_set_restore (l : List (Option Addr)) (a b : Nat) (x y u v : Option Addr)
    (ha : l.get? a = some x) (hb : l.get? b = some y) :
    (((l.set a u).set b v).set a x).set b y = l := by
  apply List.ext_getElem?
  intro j
  simp only [List.get?_eq_getElem?] at ha hb
  simp only [List.getElem?_set, List.length_set]
  by_cases hbj : b = j
  · subst hbj
    have hlt : b < l.length := by
      rcases Nat.lt_or_ge b l.length with h | h
      · exact h
      · rw [List.getElem?_eq_none h] at hb
        cases hb
    simp [hlt, hb]
  · by_cases haj : a = j
    · subst haj
      have hlt : a < l.length := by
        rcases Nat.lt_or_ge a l.length with h | h
        · exact h
        · rw [List.getElem?_eq_none h] at ha
          cases ha
      simp [hbj, hlt, ha]
    · simp [hbj, haj]

/-- Exchanging the entries at `a` and `b` does not depend on the order of the two writes. -/
theorem set_set_comm (l : List (Option Addr)) (a b : Nat) (x y : Option Addr)
    (ha : l.get? a = some x) (hb : l.get? b = some y) :
    (l.set a y).set b x = (l.set b x).set a y := by
  by_cases hab : a = b
  · subst hab
    rw [ha] at hb
    cases hb
    rfl
  · exact List.set_comm _ _ _ hab

/-- C28: for live handles `a` and `b`, `a.swap(b)` succeeds and exchanges the pointers they
hold; other handles, the log (so neither `add_ref` nor `release` is called), every count and
every deleted flag are unchanged; `b.swap(a)` gives the same state; swapping again restores
the state; `a.swap(a)` leaves the state unchanged; and the free function `swap` is the member
function. -/
theorem C28_swap (s : State) (a b : Nat) (va vb : Addr)
    (ha : s.px a = some va) (hb : s.px b = some vb) :
    ∃ s1, step s (Op.swap a b) = some s1 ∧
      s1.px a = some vb ∧ s1.px b = some va ∧
      (∀ j, j ≠ a → j ≠ b → s1.px j = s.px j) ∧
      s1.log = s.log ∧ s1.intrusive_ref_count = s.intrusive_ref_count ∧
      s1.deleted = s.deleted ∧
      step s (Op.swap b a) = some s1 ∧
      step s1 (Op.swap a b) = some s ∧
      step s (Op.swap a a) = some s ∧
      swap s a b = step s (Op.swap a b) := by
  have ga := px_eq_some ha
  have gb := px_eq_some hb
  have hpa : ∀ j, (s.setPx a vb).px j = if j = a then some vb else s.px j :=
    fun j => px_setPx vb j ha
  have hb1 : (s.setPx a vb).px b = some (if b = a then vb else vb) := by
    rw [hpa]
    by_cases e : b = a
    · simp [e]
    · simp [e, hb]
  have hp : ∀ j, ((s.setPx a vb).setPx b va).px j =
      if j = b then some va else if j = a then some vb else s.px j := by
    intro j
    rw [px_setPx va j hb1, hpa]
  have hva : b = a → va = vb := by
    intro e
    subst e
    rw [ha] at hb
    exact Option.some.inj hb
  refine ⟨(s.setPx a vb).setPx b va, by simp [step, ha, hb], ?_, ?_, ?_, rfl, rfl, rfl, ?_, ?_,
    ?_, rfl⟩
  · rw [hp]
    by_cases e : a = b
    · simp [e, hva e.symm]
    · simp [e]
  · rw [hp]
    simp
  · intro j hja hjb
    rw [hp]
    simp [hja, hjb]
  · have : ((s.handles.set b (some va)).set a (some vb)) =
        ((s.handles.set a (some vb)).set b (some va)) := set_set_comm s.handles b a _ _ gb ga
    simp only [step, ha, hb, State.setPx]
    rw [this]
  · have h1a : ((s.setPx a vb).setPx b va).px a = some vb := by
      rw [hp]
      by_cases e : a = b
      · simp [e, hva e.symm]
      · simp [e]
    have h1b : ((s.setPx a vb).setPx b va).px b = some va := by
      rw [hp]
      simp
    have hr := set_set_restore s.handles a b (some va) (some vb) (some vb) (some va) ga gb
    have hs : step ((s.setPx a vb).setPx b va) (Op.swap a b) =
        some ((((s.setPx a vb).setPx b va).setPx a va).setPx b vb) := by
      simp only [step, h1a, h1b]
    rw [hs]
    simp only [State.setPx]
    rw [hr]
  · have hr : (s.handles.set a (some va)).set a (some va) = s.handles := by
      apply List.ext_getElem?
      intro j
      simp only [List.get?_eq_getElem?] at ga
      simp only [List.getElem?_set, List.length_set]
      by_cases e : a = j
      · subst e
        have hlt : a < s.handles.length := px_lt ha
        simp [hlt, ga]
      · simp [e]
    simp only [step, ha, State.setPx]
    rw [hr]

/-- Witness of C28: two handles to the referents 1 and 2 are swapped. -/
theorem C28_swap_witness :
    ∃ s1, step { State.init with
        intrusive_ref_count := fun r => if r = 1 ∨ r = 2 then 1 else 0
        handles := [some 1, some 2] } (Op.swap 0 1) = some s1 ∧
      s1.px 0 = some 2 ∧ s1.px 1 = some 1 ∧ s1.log = [] := by
  obtain ⟨s1, h1, h2, h3, -, h5, -⟩ :=
    C28_swap { State.init with
        intrusive_ref_count := fun r => if r = 1 ∨ r = 2 then 1 else 0
        handles := [some 1, some 2] } 0 1 1 2 (by decide) (by decide)
  exact ⟨s1, h1, h2, h3, h5⟩

/-- C29: for a live handle `this` holding `v`, `detach()` returns `v`, leaves the handle null
and other handles unchanged, and leaves the log (so neither `add_ref` nor `release` is
called), every count and every deleted flag unchanged; so does the later destruction of the
handle; and the constructor `Eidos_intrusive_ptr(v, false)`, after the destruction or before
it, makes a handle that holds what the original held and compares equal to `v`, again with
the log, the counts and the deleted flags unchanged. -/
theorem C29_detach (s : State) (this : Nat) (v : Addr) (hv : s.px this = some v) :
    ∃ s1, detach s this = some (v, s1) ∧ step s (Op.detach this) = some s1 ∧
      s1.px this = some 0 ∧ (∀ j, j ≠ this → s1.px j = s.px j) ∧
      s1.log = s.log ∧ s1.intrusive_ref_count = s.intrusive_ref_count ∧
      s1.deleted = s.deleted ∧
      (∃ s2, step s1 (Op.dtor this) = some s2 ∧ s2.px this = none ∧
        s2.log = s.log ∧ s2.intrusive_ref_count = s.intrusive_ref_count ∧
        s2.deleted = s.deleted ∧
        ∃ s3, step s2 (Op.ctor_raw v false) = some s3 ∧
          get s3 s2.handles.length = get s this ∧
          operator_eq_raw s3 s2.handles.length v = some true ∧
          s3.log = s.log ∧ s3.intrusive_ref_count = s.intrusive_ref_count ∧
          s3.deleted = s.deleted) ∧
      (∃ s3, step s1 (Op.ctor_raw v false) = some s3 ∧
        get s3 s1.handles.length = get s this ∧
        operator_eq_raw s3 s1.handles.length v = some true ∧
        (∀ j, j ≠ this → j < s.handles.length → s3.px j = s.px j) ∧
        s3.log = s.log ∧ s3.intrusive_ref_count = s.intrusive_ref_count ∧
        s3.deleted = s.deleted) := by
  have hp : ∀ j, (s.setPx this 0).px j = if j = this then some 0 else s.px j :=
    fun j => px_setPx 0 j hv
  have h0 : (s.setPx this 0).px this = some 0 := by simp [hp]
  refine ⟨s.setPx this 0, by simp [detach, hv], by simp [step, hv], h0, ?_, rfl, rfl, rfl,
    ?_, ?_⟩
  · intro j hj
    rw [hp, if_neg hj]
  · refine ⟨{ s.setPx this 0 with handles := (s.setPx this 0).handles.set this none }, ?_, ?_,
      rfl, rfl, rfl, ?_⟩
    · simp [step, h0, dtor_px]
    · have hlt : this < s.handles.length := px_lt hv
      simp [State.px, State.setPx, List.getElem?_set, hlt]
    · refine ⟨{ s.setPx this 0 with
        handles := (s.setPx this 0).handles.set this none ++ [some v] }, ?_, ?_, ?_,
        rfl, rfl, rfl⟩
      · simp [step, ctor_raw_px]
      · simp only [get]
        rw [hv]
        simp [State.px]
      · simp [operator_eq_raw, get, State.px]
  · refine ⟨{ s.setPx this 0 with handles := (s.setPx this 0).handles ++ [some v] }, ?_, ?_, ?_,
      ?_, rfl, rfl, rfl⟩
    · simp [step, ctor_raw_px]
    · simp only [get]
      rw [hv]
      simp [State.px]
    · simp [operator_eq_raw, get, State.px]
    · intro j hj hjl
      have hjl2 : j < (s.setPx this 0).handles.length := by
        simpa [State.setPx] using hjl
      have : ({ s.setPx this 0 with handles := (s.setPx this 0).handles ++ [some v] } :
          State).px j = (s.setPx this 0).px j := by
        simp [State.px, List.getElem?_append_left hjl2]
      rw [this, hp, if_neg hj]

/-- Witness of C29: the only handle to referent 1 is detached and the pointer re-adopted. -/
theorem C29_detach_witness :
    ∃ s1, detach (built 1 1) 0 = some (1, s1) ∧ s1.px 0 = some 0 ∧
      s1.intrusive_ref_count 1 = 1 ∧
      ∃ s3, step s1 (Op.ctor_raw 1 false) = some s3 ∧
        operator_eq_raw s3 s1.handles.length 1 = some true ∧ s3.intrusive_ref_count 1 = 1 := by
  obtain ⟨s1, h1, -, h3, -, -, h6, -, -, s3, k1, -, k3, -, -, k6, -⟩ :=
    C29_detach (built 1 1) 0 1 (by decide)
  refine ⟨s1, h1, h3, ?_, s3, k1, k3, ?_⟩
  · rw [h6]
    decide
  · rw [k6]
    decide

/-! ### Stack-allocated values -/

/-- Taking the new reference of a construction or assignment, with the references `T` that
no handle holds. -/
theorem ctor_copy_px_frame {s : State} {T : List Addr} {v : Addr} (h : Bal s T)
    (hd : v ≠ 0 → s.deleted v = false) (hw : noWrap s v = true) :
    ∃ s1, ctor_copy_px s v = some s1 ∧ Bal s1 (v :: T) ∧ s1.handles = s.handles := by
  unfold ctor_copy_px
  by_cases hv : v = 0
  · subst hv
    exact ⟨s, by simp, h.add_null, rfl⟩
  · have hc : s.intrusive_ref_count v + 1 < UINT_MOD := by
      simpa [noWrap, hv] using hw
    obtain ⟨s1, h1, h2, h3, -, -⟩ := add_ref_bal h hv (hd hv) hc
    exact ⟨s1, by simpa [hv] using h1, h2, h3⟩

/-- Swapping the temporary with `this` and destroying it, with the references `T` that no
handle holds. -/
theorem tmp_swap_dtor_frame {s1 : State} {T : List Addr} {this : Nat} {tmp old : Addr}
    (h1 : Bal s1 (tmp :: T)) (hpx : s1.px this = some old) :
    ∃ s2, tmp_swap_dtor s1 this tmp = some s2 ∧ Bal s2 T := by
  have hb : Bal (s1.setPx this tmp) (old :: T) := Bal.setPx h1 hpx
  unfold tmp_swap_dtor
  rw [hpx]
  by_cases ho : old = 0
  · subst ho
    exact ⟨s1.setPx this tmp, by simp [dtor_px], hb.drop_null⟩
  · obtain ⟨s2, hrel, hbal, -, -⟩ := release_bal hb ho
    exact ⟨s2, by simpa [dtor_px, ho] using hrel, hbal⟩

/-- One admissible operation keeps the balance with the references `T` that no handle
holds. -/
theorem step_frame {s : State} {T : List Addr} {op : Op} (h : Bal s T)
    (ha : admissible s op = true) : ∃ s1, step s op = some s1 ∧ Bal s1 T := by
  cases op with
  | ctor_default => simp [admissible, wellDefined] at ha
  | detach this => simp [admissible, wellDefined] at ha
  | ctor_raw p b =>
    cases b with
    | false => simp [admissible, wellDefined] at ha
    | true =>
      simp only [admissible, wellDefined, gains, rawOk, Bool.and_eq_true, Bool.or_eq_true,
        decide_eq_true_eq, Bool.not_eq_true'] at ha
      obtain ⟨s1, h1, h2, -⟩ :=
        ctor_copy_px_frame (v := p) h (fun hp => by simpa [hp] using ha.1) ha.2
      exact ⟨{ s1 with handles := s1.handles ++ [some p] },
        by simp [step, ctor_raw_px_true, h1], h2.push⟩
  | ctor_copy rhs =>
    simp only [admissible, wellDefined, gains, Bool.and_eq_true] at ha
    obtain ⟨v, hv⟩ := isLive_iff.mp ha.1
    rw [hv] at ha
    obtain ⟨s1, h1, h2, -⟩ :=
      ctor_copy_px_frame (v := v) h
        (fun hp => not_deleted_of_held h hp (refs_pos_of_px hv)) ha.2
    exact ⟨{ s1 with handles := s1.handles ++ [some v] }, by simp [step, hv, h1], h2.push⟩
  | ctor_move rhs =>
    simp only [admissible, wellDefined, gains, Bool.and_eq_true] at ha
    obtain ⟨v, hv⟩ := isLive_iff.mp ha.1
    have hb : Bal (s.setPx rhs 0) (v :: T) := Bal.setPx h.add_null hv
    have hb2 := hb.push
    have hlt : rhs < s.handles.length := px_lt hv
    have e : (s.handles ++ [some v]).set rhs (some 0) =
        s.handles.set rhs (some 0) ++ [some v] := by
      rw [List.set_append_left _ _ hlt]
    refine ⟨{ s with handles := (s.handles ++ [some v]).set rhs (some 0) }, ?_, ?_⟩
    · simp [step, hv, State.setPx]
    · rw [e]
      exact hb2
  | assign_copy this rhs =>
    simp only [admissible, wellDefined, gains, Bool.and_eq_true] at ha
    obtain ⟨old, hold⟩ := isLive_iff.mp ha.1.1
    obtain ⟨v, hv⟩ := isLive_iff.mp ha.1.2
    rw [hv] at ha
    obtain ⟨s1, h1, h2, h3⟩ :=
      ctor_copy_px_frame (v := v) h
        (fun hp => not_deleted_of_held h hp (refs_pos_of_px hv)) ha.2
    have hpx : s1.px this = some old := by simpa [State.px, h3] using hold
    obtain ⟨s2, g1, g2⟩ := tmp_swap_dtor_frame h2 hpx
    exact ⟨s2, by simp [step, hv, h1, g1], g2⟩
  | assign_move this rhs =>
    simp only [admissible, wellDefined, gains, Bool.and_eq_true] at ha
    obtain ⟨old, hold⟩ := isLive_iff.mp ha.1.1
    obtain ⟨v, hv⟩ := isLive_iff.mp ha.1.2
    have hb : Bal (s.setPx rhs 0) (v :: T) := Bal.setPx h.add_null hv
    have hpx : (s.setPx rhs 0).px this = some (if this = rhs then 0 else old) := by
      rw [px_setPx 0 this hv]
      by_cases e : this = rhs
      · simp [e]
      · simp [e, hold]
    obtain ⟨s2, g1, g2⟩ := tmp_swap_dtor_frame hb hpx
    exact ⟨s2, by simp [step, hv, g1], g2⟩
  | reset this =>
    simp only [admissible, wellDefined, gains, Bool.and_eq_true] at ha
    obtain ⟨old, hold⟩ := isLive_iff.mp ha.1
    obtain ⟨s2, g1, g2⟩ := tmp_swap_dtor_frame h.add_null hold
    exact ⟨s2, by simp [step, g1], g2⟩
  | reset_raw this p b =>
    cases b with
    | false => simp [admissible, wellDefined] at ha
    | true =>
      simp only [admissible, wellDefined, gains, rawOk, Bool.and_eq_true, Bool.or_eq_true,
        decide_eq_true_eq, Bool.not_eq_true'] at ha
      obtain ⟨old, hold⟩ := isLive_iff.mp ha.1.1
      obtain ⟨s1, h1, h2, h3⟩ :=
        ctor_copy_px_frame (v := p) h (fun hp => by simpa [hp] using ha.1.2) ha.2
      have hpx : s1.px this = some old := by simpa [State.px, h3] using hold
      obtain ⟨s2, g1, g2⟩ := tmp_swap_dtor_frame h2 hpx
      exact ⟨s2, by simp [step, ctor_raw_px_true, h1, g1], g2⟩
  | swap this rhs =>
    simp only [admissible, wellDefined, gains, Bool.and_eq_true] at ha
    obtain ⟨tmp, htmp⟩ := isLive_iff.mp ha.1.1
    obtain ⟨r, hr⟩ := isLive_iff.mp ha.1.2
    have hr1 : (s.setPx this r).px rhs = some r := by
      rw [px_setPx r rhs htmp]
      by_cases e : rhs = this
      · simp [e]
      · simp [e, hr]
    have hrefs : ∀ x, ((s.setPx this r).setPx rhs tmp).refs x = s.refs x := by
      intro x
      have c1 := count_set_add s.handles this (some tmp) (some r) (some x) (px_eq_some htmp)
      have c2 := count_set_add (s.setPx this r).handles rhs (some r) (some tmp) (some x)
        (px_eq_some hr1)
      simp only [State.setPx, State.refs] at c1 c2 ⊢
      omega
    have hb : Bal ((s.setPx this r).setPx rhs tmp) T := by
      intro x hx
      have := h x hx
      rw [hrefs]
      exact this
    exact ⟨_, by simp [step, htmp, hr], hb⟩
  | dtor this =>
    simp only [admissible, wellDefined, gains, Bool.and_eq_true] at ha
    obtain ⟨old, hold⟩ := isLive_iff.mp ha.1
    have hb : Bal { s with handles := s.handles.set this none } (old :: T) := Bal.kill h hold
    by_cases ho : old = 0
    · subst ho
      exact ⟨_, by simp [step, hold, dtor_px], hb.drop_null⟩
    · obtain ⟨s2, hrel, hbal, -, -⟩ := release_bal hb ho
      rw [release_handles] at hrel
      cases hq : Eidos_intrusive_ptr_release s old with
      | none => rw [hq] at hrel; cases hrel
      | some s3 =>
        rw [hq] at hrel
        simp only [Option.map_some', Option.some.injEq] at hrel
        have hk := release_keeps_handles hq
        refine ⟨s2, ?_, hbal⟩
        simp [step, hold, dtor_px, ho, hq, hk, hrel]

/-- An admissible sequence keeps the balance with the references `T` that no handle holds,
at its end and after each of its prefixes, and deletes no referent twice. -/
theorem run_frame (T : List Addr) (ops : List Op) : ∀ s : State, Bal s T → LogInv s →
    admissibleRun s ops = true →
    ∀ k, k ≤ ops.length → ∃ sk, run s (ops.take k) = some sk ∧ Bal sk T ∧ LogInv sk := by
  induction ops with
  | nil =>
    intro s h hl _ k _
    exact ⟨s, by simp [run], h, hl⟩
  | cons op ops ih =>
    intro s h hl ha k hk
    simp only [admissibleRun, Bool.and_eq_true] at ha
    obtain ⟨s1, hs1, hb1⟩ := step_frame h ha.1
    have hl1 := logInv_step hl hs1
    have ha2 : admissibleRun s1 ops = true := by
      have := ha.2
      rw [hs1] at this
      exact this
    cases k with
    | zero => exact ⟨s, by simp [run], h, hl⟩
    | succ k =>
      obtain ⟨sk, h1, h2, h3⟩ := ih s1 hb1 hl1 ha2 k (by simpa using hk)
      exact ⟨sk, by simp [run, hs1, h1], h2, h3⟩

/-- Calling `stack_allocated()` on a value of the initial state. -/
theorem stack_allocated_init (p : Addr) :
    stack_allocated State.init p = some (builtStack p 0) := by
  simp [stack_allocated, State.init, builtStack, UINT_MOD]

/-- Every handle of `builtStack` holds `p`. -/
theorem builtStack_px {p : Addr} {m j : Nat} (hj : j < m) :
    (builtStack p m).px j = some p := by
  simp [builtStack, State.px, List.getElem?_replicate, hj]

/-- The count of `p` in `builtStack p m` is `m + 1` modulo `2 ^ 32`. -/
theorem builtStack_count (p : Addr) (m : Nat) :
    (builtStack p m).intrusive_ref_count p = (m + 1) % UINT_MOD := by
  show Function.update (fun _ => 0) p ((m + 1) % UINT_MOD) p = (m + 1) % UINT_MOD
  rw [Function.update_same]

/-- The value `p` has `m` handles in `builtStack p m`. -/
theorem builtStack_refs (p : Addr) (m : Nat) : (builtStack p m).refs p = m := by
  show List.count (some p) (List.replicate m (some p)) = m
  rw [List.count_replicate_self]

/-- Constructing one more handle to `p` from the raw pointer. -/
theorem step_builtStack_ctor_raw {p : Addr} (hp : p ≠ 0) (m : Nat) :
    step (builtStack p m) (Op.ctor_raw p true) = some (builtStack p (m + 1)) := by
  have hmod : ((m + 1) % UINT_MOD + 1) % UINT_MOD = (m + 1 + 1) % UINT_MOD := by
    simp [UINT_MOD]
  simp only [step, ctor_raw_px, ne_eq, hp, not_false_eq_true, and_self, if_true]
  simp [builtStack, Eidos_intrusive_ptr_add_ref, hmod, List.replicate_succ',
    Function.update_idem]

/-- Copying a handle of `builtStack`. -/
theorem step_builtStack_copy {p : Addr} {m j : Nat} (hp : p ≠ 0) (hj : j < m) :
    step (builtStack p m) (Op.ctor_copy j) = some (builtStack p (m + 1)) := by
  have hmod : ((m + 1) % UINT_MOD + 1) % UINT_MOD = (m + 1 + 1) % UINT_MOD := by
    simp [UINT_MOD]
  simp only [step, builtStack_px hj, ctor_copy_px, ne_eq, hp, not_false_eq_true, if_true]
  simp [builtStack, Eidos_intrusive_ptr_add_ref, hmod, List.replicate_succ',
    Function.update_idem]

/-- Copying the first handle `n` times. -/
theorem run_builtStack_copies {p : Addr} (hp : p ≠ 0) (n : Nat) :
    ∀ m, 0 < m →
      run (builtStack p m) ((List.replicate n 0).map Op.ctor_copy) =
        some (builtStack p (m + n)) ∧
      wellDefinedRun (builtStack p m) ((List.replicate n 0).map Op.ctor_copy) = true := by
  induction n with
  | zero => intro m _; simp [run, wellDefinedRun]
  | succ n ih =>
    intro m hm
    obtain ⟨r1, r2⟩ := ih (m + 1) (Nat.succ_pos m)
    constructor
    · simp only [List.replicate_succ, List.map_cons, run, step_builtStack_copy hp hm,
        Option.some_bind, r1]
      congr 2
      omega
    · simp only [List.replicate_succ, List.map_cons, wellDefinedRun, wellDefined, isLive,
        builtStack_px hm, step_builtStack_copy hp hm, r2]
      rfl

/-- Constructing `n + 1` handles to a stack-allocated value. -/
theorem run_builtStack_constructAll (p : Addr) (hp : p ≠ 0) (n : Nat) :
    wellDefinedRun (builtStack p 0) (constructAll p (List.replicate n 0)) = true ∧
    run (builtStack p 0) (constructAll p (List.replicate n 0)) = some (builtStack p (n + 1)) := by
  obtain ⟨r1, r2⟩ := run_builtStack_copies hp n 1 (by decide)
  constructor
  · simp only [constructAll, wellDefinedRun, step_builtStack_ctor_raw hp 0, r2, Bool.and_true]
    simp [wellDefined, rawOk, builtStack]
  · simp only [constructAll, run, step_builtStack_ctor_raw hp 0, Option.some_bind, r1]
    congr 2
    omega

/-- The first destruction among `m + 1` handles to a stack-allocated value whose count has
wrapped to 1. -/
theorem step_builtStack_dtor_wrapped {p : Addr} (hp : p ≠ 0) (m : Nat)
    (hw : (m + 1 + 1) % UINT_MOD = 1) :
    wellDefined (builtStack p (m + 1)) (Op.dtor 0) = true ∧
    ∃ s1, step (builtStack p (m + 1)) (Op.dtor 0) = some s1 ∧ s1.deleted p = true ∧
      s1.refs p = m ∧ s1.intrusive_ref_count p = 0 ∧
      s1.log.count (Event.delete p) = 1 := by
  have hpx : (builtStack p (m + 1)).px 0 = some p := builtStack_px (Nat.succ_pos m)
  have hc : ((builtStack p (m + 1)).intrusive_ref_count p + (UINT_MOD - 1)) % UINT_MOD = 0 := by
    rw [builtStack_count, hw]
    decide
  refine ⟨by simp [wellDefined, isLive, hpx], { (builtStack p (m + 1)) with
      intrusive_ref_count := Function.update (builtStack p (m + 1)).intrusive_ref_count p 0
      deleted := Function.update (builtStack p (m + 1)).deleted p true
      handles := (builtStack p (m + 1)).handles.set 0 none
      log := (builtStack p (m + 1)).log ++ [Event.release p] ++ [Event.delete p] },
    ?_, ?_, ?_, ?_, ?_⟩
  · have hd : (builtStack p (m + 1)).deleted p = false := rfl
    simp [step, hpx, dtor_px, hp, Eidos_intrusive_ptr_release, hd, hc]
  · simp
  · simp [State.refs, builtStack, List.replicate_succ, List.count_cons]
  · simp
  · simp [builtStack, List.count_replicate]

/-- C23, as amended: in a state of the invariant, `stack_allocated()` called on a value `p`
whose count is 0 succeeds and leaves the count 1.  After that, every sequence of counted
operations (construction from a raw pointer with `add_ref = true`, copy and move
construction, copy and move assignment, `reset()`, `reset(p)`, `swap`, destruction of a live
handle), each applied where it is defined and where its `++intrusive_ref_count` does not
wrap, runs to the end, and after each of its prefixes the count of `p` is its number of live
handles plus 1, hence at least 1, also when no handle is left; `p` is not deleted and the
log holds no `delete` of `p`. -/
theorem C23_stack_allocated (s : State) (p : Addr) (hp : p ≠ 0) (hb : Bal s [])
    (hl : LogInv s) (hd : s.deleted p = false) (hc : s.intrusive_ref_count p = 0) :
    ∃ s0, stack_allocated s p = some s0 ∧ s0.intrusive_ref_count p = 1 ∧
      s0.handles = s.handles ∧ s0.log = s.log ∧
      ∀ ops, admissibleRun s0 ops = true →
        ∀ k, k ≤ ops.length → ∃ sk, run s0 (ops.take k) = some sk ∧
          1 ≤ sk.intrusive_ref_count p ∧ sk.intrusive_ref_count p = sk.refs p + 1 ∧
          sk.deleted p = false ∧ sk.log.count (Event.delete p) = 0 := by
  have h1 : (1 : Nat) % UINT_MOD = 1 := by decide
  have hb0 : Bal { s with intrusive_ref_count := Function.update s.intrusive_ref_count p 1 }
      [p] := by
    intro r hr
    have := hb r hr
    by_cases hrp : r = p
    · subst hrp
      simp only [State.refs, Function.update_same, List.count_cons, List.count_nil,
        beq_self_eq_true, if_true, hd] at this ⊢
      have h2 := this.1 trivial
      rw [hc] at h2
      refine ⟨fun _ => ⟨by decide, by omega⟩, fun hf => Bool.noConfusion hf⟩
    · have hpr : ¬ (p = r) := fun e => hrp e.symm
      simpa [State.refs, List.count_cons, Function.update_noteq hrp, hpr] using this
  refine ⟨{ s with intrusive_ref_count := Function.update s.intrusive_ref_count p 1 }, ?_, ?_,
    rfl, rfl, ?_⟩
  · simp [stack_allocated, hd, hc, h1]
  · simp
  · intro ops ha k hk
    obtain ⟨sk, g1, g2, g3⟩ := run_frame [p] ops _ hb0 hl ha k hk
    have hdk : sk.deleted p = false := by
      cases hq : sk.deleted p with
      | false => rfl
      | true =>
        have := (g2 p hp).2 hq
        simp at this
    have hcount := ((g2 p hp).1 hdk).2
    simp only [List.count_cons, List.count_nil, beq_self_eq_true, if_true] at hcount
    refine ⟨sk, g1, by omega, by omega, hdk, ?_⟩
    have := g3 p
    rw [hdk] at this
    simpa using this

/-- C23, witness: two handles to the stack-allocated value 1 are constructed and destroyed;
the count ends at 1 with no handle left and the value is not deleted. -/
theorem C23_stack_allocated_witness :
    ∃ s0, stack_allocated State.init 1 = some s0 ∧
      ∃ sf, run s0 [Op.ctor_raw 1 true, Op.ctor_copy 0, Op.dtor 0, Op.dtor 1] = some sf ∧
        sf.intrusive_ref_count 1 = 1 ∧ sf.refs 1 = 0 ∧ sf.deleted 1 = false := by
  obtain ⟨s0, h1, -, h3, -, h5⟩ :=
    C23_stack_allocated State.init 1 (by decide) bal_init logInv_init rfl rfl
  have hs0 : s0 = builtStack 1 0 := by
    have e : stack_allocated State.init 1 = some (builtStack 1 0) := by
      simp [stack_allocated, State.init, builtStack, UINT_MOD]
    rw [e] at h1
    exact (Option.some.inj h1).symm
  subst hs0
  obtain ⟨sf, g1, -, g3, g4, -⟩ :=
    h5 [Op.ctor_raw 1 true, Op.ctor_copy 0, Op.dtor 0, Op.dtor 1] (by decide) 4 (by decide)
  have hr : sf.refs 1 = 0 := by
    have e : run (builtStack 1 0) [Op.ctor_raw 1 true, Op.ctor_copy 0, Op.dtor 0, Op.dtor 1] =
        some sf := g1
    have e2 : (run (builtStack 1 0)
        [Op.ctor_raw 1 true, Op.ctor_copy 0, Op.dtor 0, Op.dtor 1]).map (fun t => t.refs 1) =
        some 0 := by decide
    rw [e] at e2
    exact Option.some.inj e2
  refine ⟨builtStack 1 0, h1, sf, g1, ?_, hr, g4⟩
  rw [g3, hr]

/-- C23, counterexample: after `stack_allocated()` on the value 1, whose count was 0, the
well-defined construction of `2 ^ 32 - 1` handles wraps the count to 0, which is below 1; and
after that of `2 ^ 32` handles the count is 1, so that destroying one of them, a live handle
released for the first time, deletes the value while `2 ^ 32 - 1` handles still point to it. -/
theorem C23_counterexample_wrap :
    ∃ s0, stack_allocated State.init 1 = some s0 ∧ s0.intrusive_ref_count 1 = 1 ∧
      (wellDefinedRun s0 (constructAll 1 (List.replicate 4294967294 0)) = true ∧
        ∃ s, run s0 (constructAll 1 (List.replicate 4294967294 0)) = some s ∧
          s.deleted 1 = false ∧ s.refs 1 = 4294967295 ∧ s.intrusive_ref_count 1 = 0) ∧
      (wellDefinedRun s0 (constructAll 1 (List.replicate 4294967295 0)) = true ∧
        ∃ s, run s0 (constructAll 1 (List.replicate 4294967295 0)) = some s ∧
          s.intrusive_ref_count 1 = 1 ∧ wellDefined s (Op.dtor 0) = true ∧
          ∃ s1, step s (Op.dtor 0) = some s1 ∧ s1.deleted 1 = true ∧
            s1.refs 1 = 4294967295 ∧ s1.log.count (Event.delete 1) = 1) := by
  obtain ⟨a1, a2⟩ := run_builtStack_constructAll 1 (by decide) 4294967294
  obtain ⟨b1, b2⟩ := run_builtStack_constructAll 1 (by decide) 4294967295
  obtain ⟨c0, s1, c1, c2, c3, -, c5⟩ :=
    step_builtStack_dtor_wrapped (p := 1) (by decide) 4294967295 (by decide)
  have hc0 : (builtStack 1 0).intrusive_ref_count 1 = 1 := by
    rw [builtStack_count]
    decide
  have hca : (builtStack 1 (4294967294 + 1)).intrusive_ref_count 1 = 0 := by
    rw [builtStack_count]
    decide
  have hcb : (builtStack 1 (4294967295 + 1)).intrusive_ref_count 1 = 1 := by
    rw [builtStack_count]
    decide
  have hra : (builtStack 1 (4294967294 + 1)).refs 1 = 4294967295 := by
    rw [builtStack_refs]
  exact ⟨builtStack 1 0, stack_allocated_init 1, hc0,
    ⟨a1, builtStack 1 (4294967294 + 1), a2, rfl, hra, hca⟩,
    ⟨b1, builtStack 1 (4294967295 + 1), b2, hcb, c0, s1, c1, c2, c3, c5⟩⟩

end SLiM
